import Mathlib

/-!
# PR→PO agent (`server.js`): the classification and pricing pipeline

A shallow embedding of `processAgent` and its helpers.

Conventions of the embedding

* A JavaScript value is a `JSVal`.  Numbers are rationals (`num q`) or `NaN`
  (`nan`); a rational of magnitude 2^1024 or more stands for an infinity, and
  the negative zero is not told apart from zero.  The arithmetic of the price
  estimation (unit prices, group means, totals) and of the change rate is
  rounded to binary64, see *Double-precision arithmetic*; the simulated
  quotation of step 7, the dumping threshold and the day counts of step 4 are
  computed without rounding.  A value that is not a primitive (a parsed JSON object or array, a
  function) is `object s`, where `s` is its string form: the pipeline only
  tests such values for truthiness and converts them to strings.
* A row is a JavaScript object holding own properties in insertion order,
  `Row = List (String × JSVal)`; reading a missing property gives `undefined`.
* A string is a Lean `String`, one character for one UTF-16 code unit.
* The built-ins whose definition is not part of the program (`toUpperCase`,
  number formatting, `parseFloat` / `parseInt` on text, `Date` parsing,
  regular-expression matching, `JSON.parse`) and the outside world (the API
  key, the answers of the pricing collaborator, `Math.random`) are the fields
  of an `Env`; every general theorem holds for all of them.
* A run that throws a `TypeError` returns `Except.error`.
-/

namespace PrPo

/-! ## Values -/

/-- A JavaScript value. -/
inductive JSVal where
  | undefined
  | null
  | bool (b : Bool)
  | nan
  | num (q : ℚ)
  | str (s : String)
  | object (shown : String)
  deriving DecidableEq, Inhabited

/-- ToBoolean: `undefined`, `null`, `false`, `NaN`, `0` and `''` are falsy. -/
def truthy : JSVal → Bool
  | .undefined => false
  | .null => false
  | .bool b => b
  | .nan => false
  | .num q => decide (q ≠ 0)
  | .str s => decide (s ≠ "")
  | .object _ => true

/-- The operator `a || b`. -/
def orElse (a b : JSVal) : JSVal := if truthy a then a else b

/-- The operator `a && b`. -/
def andAlso (a b : JSVal) : JSVal := if truthy a then b else a

/-- A JavaScript number: `none` is `NaN`. -/
abbrev JSNum := Option ℚ

/-- A number as a value. -/
def ofNum : JSNum → JSVal
  | none => .nan
  | some q => .num q

/-- The operator `x || d` on a number, as in `parseFloat(v) || 1`. -/
def numOr (x : JSNum) (d : ℚ) : ℚ :=
  match x with
  | some q => if q ≠ 0 then q else d
  | none => d

/-- Binary arithmetic on numbers: `NaN` is absorbing. -/
def numOp (f : ℚ → ℚ → ℚ) (a b : JSNum) : JSNum :=
  match a, b with
  | some x, some y => some (f x y)
  | _, _ => none

/-- The comparison `a <= b` on numbers: false when either side is `NaN`. -/
def numLe (a b : JSNum) : Bool :=
  match a, b with
  | some x, some y => decide (x ≤ y)
  | _, _ => false

/-- The comparison `a < b` on numbers: false when either side is `NaN`. -/
def numLt (a b : JSNum) : Bool :=
  match a, b with
  | some x, some y => decide (x < y)
  | _, _ => false

/-- The function `Math.round` on a finite number: the nearest integer, halves going up. -/
def roundQ (q : ℚ) : ℤ := ⌊q + 1 / 2⌋

/-- The function `Math.round`. -/
def mathRound : JSNum → JSNum
  | none => none
  | some q => some (roundQ q : ℚ)

/-- The function `Math.ceil(x / d)` for an integer `x` and a positive integer `d`. -/
def ceilDiv (x d : ℤ) : ℤ := -((-x) / d)

/-! ## Double-precision arithmetic

The results of `/`, `*`, `+` and `-` are rounded to binary64.  A number is a rational or
`NaN`; a rational of magnitude 2^1024 or more stands for the infinity of its sign, and the
negative zero is not told apart from zero. -/

/-- The nearest integer to `n / d` for a positive `d`, a tie going to the even one. -/
def roundHalfEven (n d : ℕ) : ℕ :=
  if 2 * (n % d) < d then n / d
  else if d < 2 * (n % d) then n / d + 1
  else if n / d % 2 = 0 then n / d
  else n / d + 1

/-- The exponent of the leading bit of `n`, by halving at most `fuel` times. -/
def leadingBit : ℕ → ℕ → ℕ
  | 0, _ => 0
  | fuel + 1, n => if n < 2 then 0 else leadingBit fuel (n / 2) + 1

/-- The binary64 value nearest to `n / d` for positive `n` and `d`: 53 significant bits,
exponents from -1074, ties to even; 2^1024 stands for the overflow to `Infinity`. -/
def nearestDouble (n d : ℕ) : ℚ :=
  let k : ℤ := (leadingBit n n : ℤ) - (leadingBit d d : ℤ)
  let e : ℤ := if d * 2 ^ k.toNat ≤ n * 2 ^ (-k).toNat then k else k - 1
  let p : ℤ := max (e - 52) (-1074)
  let m : ℕ := roundHalfEven (n * 2 ^ (-p).toNat) (d * 2 ^ p.toNat)
  let v : ℚ := ((m * 2 ^ p.toNat : ℕ) : ℚ) / ((2 ^ (-p).toNat : ℕ) : ℚ)
  if ((2 ^ 1024 : ℕ) : ℚ) ≤ v then ((2 ^ 1024 : ℕ) : ℚ) else v

/-- The rounding of an exact result to binary64. -/
def fl (q : ℚ) : ℚ :=
  if q = 0 then 0
  else if 0 < q then nearestDouble q.num.natAbs q.den
  else -nearestDouble q.num.natAbs q.den

/-- Whether a number stands for an infinity. -/
def infinite (q : ℚ) : Bool := decide (((2 ^ 1024 : ℕ) : ℚ) ≤ |q|)

/-- The value standing for `Infinity`, or for `-Infinity`. -/
def infinity (negative : Bool) : ℚ :=
  if negative then -((2 ^ 1024 : ℕ) : ℚ) else ((2 ^ 1024 : ℕ) : ℚ)

/-- The operator `a * b` on two numbers that are not `NaN`. -/
def mulD (a b : ℚ) : JSNum :=
  if infinite a || infinite b then
    if a = 0 ∨ b = 0 then none else some (infinity (decide (a < 0) != decide (b < 0)))
  else some (fl (a * b))

/-- The operator `a / b` on two numbers that are not `NaN`. -/
def divD (a b : ℚ) : JSNum :=
  if infinite a then
    if infinite b then none else some (infinity (decide (a < 0) != decide (b < 0)))
  else if infinite b then some 0
  else if b = 0 then
    if a = 0 then none else some (infinity (decide (a < 0)))
  else some (fl (a / b))

/-- The operator `a + b` on two numbers that are not `NaN`. -/
def addD (a b : ℚ) : JSNum :=
  if infinite a then
    if infinite b && (decide (a < 0) != decide (b < 0)) then none
    else some (infinity (decide (a < 0)))
  else if infinite b then some (infinity (decide (b < 0)))
  else some (fl (a + b))

/-- The operator `a - b` on two numbers that are not `NaN`. -/
def subD (a b : ℚ) : JSNum := addD a (-b)

/-- A binary operator on numbers: `NaN` is absorbing. -/
def dblOp (f : ℚ → ℚ → JSNum) (a b : JSNum) : JSNum :=
  match a, b with
  | some x, some y => f x y
  | _, _ => none

/-! ## Strings -/

/-- The code points `String.prototype.trim` removes: WhiteSpace and LineTerminator. -/
def isJSWhitespace (c : Char) : Bool :=
  let n := c.toNat
  n == 0x09 || n == 0x0A || n == 0x0B || n == 0x0C || n == 0x0D || n == 0x20 ||
  n == 0xA0 || n == 0x1680 || (0x2000 ≤ n && n ≤ 0x200A) || n == 0x2028 ||
  n == 0x2029 || n == 0x202F || n == 0x205F || n == 0x3000 || n == 0xFEFF

/-- The method `String.prototype.trim`. -/
def trim (s : String) : String :=
  ⟨((s.data.dropWhile isJSWhitespace).reverse.dropWhile isJSWhitespace).reverse⟩

/-- The method `s.substring(n)`. -/
def substringFrom (s : String) (n : Nat) : String := ⟨s.data.drop n⟩

/-- The method `s.substring(0, n)`. -/
def substringTo (s : String) (n : Nat) : String := ⟨s.data.take n⟩

/-- The method `s.includes(pat)`. -/
def includes (s pat : String) : Bool := decide (pat.data <:+: s.data)

/-- The method `s.startsWith(pat)`. -/
def startsWith (s pat : String) : Bool := decide (pat.data <+: s.data)

/-- The method `xs.join(sep)`. -/
def join (sep : String) (xs : List String) : String := sep.intercalate xs

/-! ## Built-ins and the outside world -/

/-- The built-ins that are not part of the program, and the outside world of a run. -/
structure Env where
  /-- The method `String.prototype.toUpperCase`. -/
  toUpperCase : String → String
  /-- The conversion Number::toString. -/
  numberToString : ℚ → String
  /-- The function `parseFloat` on text. -/
  parseFloat : String → JSNum
  /-- The function `parseInt` on text; `NaN` is `none`. -/
  parseInt : String → Option ℤ
  /-- The conversion ToNumber on text. -/
  stringToNumber : String → JSNum
  /-- The function `Date.parse`: the time value in milliseconds, `none` for an invalid date. -/
  dateParse : String → Option ℤ
  /-- Group 1 of the first match of the fenced-block pattern in `parseLLMJson`. -/
  matchFenced : String → Option String
  /-- The first match of the bare-object pattern in `parseLLMJson`. -/
  matchBrace : String → Option String
  /-- The function `JSON.parse`: `none` when it throws; a parsed object is given by its
  properties, any other parsed value by itself. -/
  jsonParse : String → Option (List (String × JSVal) ⊕ JSVal)
  /-- Whether `process.env.ANTHROPIC_API_KEY` is set. -/
  apiKey : Bool
  /-- What the messages API gives for the record at a position of the quotation list,
  when it is called with a key: the text of the answer, `none` for an error. -/
  fetchLLM : Nat → Option String
  /-- The value of `Math.random()` drawn for the record at a position of the quotation list. -/
  random : Nat → ℚ

/-- The conversion `String(v)`. -/
def toStr (env : Env) : JSVal → String
  | .undefined => "undefined"
  | .null => "null"
  | .bool b => if b then "true" else "false"
  | .nan => "NaN"
  | .num q => env.numberToString q
  | .str s => s
  | .object s => s

/-- The conversion ToNumber. -/
def toNumber (env : Env) : JSVal → JSNum
  | .undefined => none
  | .null => some 0
  | .bool b => some (if b then 1 else 0)
  | .nan => none
  | .num q => some q
  | .str s => env.stringToNumber s
  | .object s => env.stringToNumber s

/-- The function `parseFloat(v)`: the text of `v` is parsed; a number parses back to itself,
and the texts of `undefined`, `null`, the booleans and `NaN` hold no number. -/
def jsParseFloat (env : Env) : JSVal → JSNum
  | .num q => some q
  | .str s => env.parseFloat s
  | .object s => env.parseFloat s
  | _ => none

/-- The function `parseInt(v)`: the text of `v` is parsed. -/
def jsParseInt (env : Env) : JSVal → Option ℤ
  | .num q => env.parseInt (env.numberToString q)
  | .str s => env.parseInt s
  | .object s => env.parseInt s
  | _ => none

/-! ## Rows -/

/-- A row: the own properties of an object, in insertion order. -/
abbrev Row := List (String × JSVal)

/-- The property read `row[k]`. -/
def Row.get (r : Row) (k : String) : JSVal :=
  match r.lookup k with
  | some v => v
  | none => .undefined

/-- The property write `row[k] = v`. -/
def Row.set : Row → String → JSVal → Row
  | [], k, v => [(k, v)]
  | (k', v') :: rest, k, v =>
    if k' = k then (k, v) :: rest else (k', v') :: Row.set rest k v

/-! ## Plain objects used as dictionaries -/

/-- The properties every plain object inherits from `Object.prototype`, each with its
`length` (the arity of a function; the accessor `__proto__` gives the prototype object,
which has none). -/
def objectPrototype : List (String × Option Nat) :=
  [("constructor", some 1), ("__defineGetter__", some 2), ("__defineSetter__", some 2),
   ("hasOwnProperty", some 1), ("__lookupGetter__", some 1), ("__lookupSetter__", some 1),
   ("isPrototypeOf", some 1), ("propertyIsEnumerable", some 1), ("toString", some 0),
   ("valueOf", some 0), ("__proto__", none), ("toLocaleString", some 0)]

/-- An object literal `{}` used as a dictionary: its own properties, in insertion order. -/
abbrev Dict (α : Type) := List (String × α)

/-- What a property read `dict[k]` finds. -/
inductive Slot (α : Type) where
  | own (a : α)
  | inherited (length : Option Nat)
  | absent
  deriving DecidableEq

/-- The property read `dict[k]`: an own property, else one inherited from
`Object.prototype`, else `undefined`. -/
def Dict.get {α : Type} (d : Dict α) (k : String) : Slot α :=
  match d.lookup k with
  | some a => .own a
  | none =>
    match objectPrototype.lookup k with
    | some n => .inherited n
    | none => .absent

/-! ## Configuration -/

/-- The constant `CONFIG.SIMULATION_DATE`, 2026-01-01T00:00:00Z, in milliseconds. -/
def SIMULATION_DATE : ℤ := 1767225600000

/-- The constant `1000 * 60 * 60 * 24`. -/
def msPerDay : ℤ := 1000 * 60 * 60 * 24

/-- The constant `CONFIG.REQUIRED_COLUMNS`. -/
def REQUIRED_COLUMNS : List String :=
  ["구매요청", "자재번호", "내역", "구매요청일", "PR납기일", "LEAD_TIME", "소싱그룹", "자재그룹"]

/-- The constant `CONFIG.URGENCY_URGENT`. -/
def URGENCY_URGENT : ℚ := 2

/-- The constant `CONFIG.URGENCY_NORMAL`. -/
def URGENCY_NORMAL : ℚ := 5

/-- The constant `CONFIG.REASON_DESIGNATED`. -/
def REASON_DESIGNATED : String :=
  "AC002_2: 계약의 성질 또는 목적에 비추어 특수한 설비/자재/물품 또는 실적이 있는 자가 아니면 계약의 목적을 달성하기 곤란한 경우로서 입찰대상자가 10인 이내인 경우"

/-- The constant `CONFIG.REASON_PRIVATE`. -/
def REASON_PRIVATE : String :=
  "SV023_2: 계약 목적의 특성 상 경쟁입찰에 부칠 수 없거나 경쟁입찰에 부칠 경우 현저하게 불리하다고 인정 되는 경우"

/-! ## Key normalisation (`processAgent`, material key creation) -/

/-- The expression `String(row['자재번호'] || '')`. -/
def matNoOf (env : Env) (row : Row) : String :=
  toStr env (orElse (row.get "자재번호") (.str ""))

/-- The expression `matNo.length > 4 ? matNo.substring(4) : matNo`. -/
def materialKey (matNo : String) : String :=
  if matNo.length > 4 then substringFrom matNo 4 else matNo

/-- The body of `workingData.forEach` that creates the material key and the PZAF flag. -/
def keyPR (env : Env) (row : Row) : Row :=
  let matNo := matNoOf env row
  let row := row.set "자재번호_키" (.str (materialKey matNo))
  row.set "PZAF여부" (.bool (includes matNo "PZAF"))

/-- The body of `poHistory.forEach` that creates the material key. -/
def keyPO (env : Env) (row : Row) : Row :=
  let matNo := matNoOf env row
  row.set "자재번호_키" (.str (materialKey matNo))

/-! ## Step 1: validation -/

/-- The test `!row[col] || String(row[col]).trim() === ''`. -/
def isMissing (env : Env) (v : JSVal) : Bool :=
  !truthy v || decide (trim (toStr env v) = "")

/-- The list `missing` collected over `CONFIG.REQUIRED_COLUMNS`. -/
def missingColumns (env : Env) (row : Row) : List String :=
  REQUIRED_COLUMNS.filter (fun col => isMissing env (row.get col))

/-- The body of the validation loop, as far as it annotates the row. -/
def validateRow (env : Env) (row : Row) : Row :=
  let missing := missingColumns env row
  if missing.length > 0 then
    let row := row.set "누락항목" (.str (join ", " missing))
    row.set "검증결과" (.str "FAIL")
  else
    row.set "검증결과" (.str "PASS")

/-- The validation loop: the lists `validData` and `invalidData`. -/
def validate (env : Env) : List Row → List Row × List Row
  | [] => ([], [])
  | row :: rest =>
    let (validData, invalidData) := validate env rest
    if (missingColumns env row).length > 0 then
      (validData, validateRow env row :: invalidData)
    else
      (validateRow env row :: validData, invalidData)

/-! ## Step 3: contract classification -/

/-- The test `row[col] && String(row[col]).trim() !== ''`. -/
def hasValue (env : Env) (v : JSVal) : Bool :=
  truthy v && decide (trim (toStr env v) ≠ "")

/-- The body of the contract classification loop. -/
def classifyRow (env : Env) (row : Row) : Row :=
  let hasContract := hasValue env (row.get "단가계약번호")
  let hasAutoAlloc := hasValue env (row.get "자동배량그룹")
  if hasContract && hasAutoAlloc then
    row.set "계약분류" (.str "표준단가")
  else if hasContract && !hasAutoAlloc then
    row.set "계약분류" (.str "비표준단가")
  else
    row.set "계약분류" (.str "NA")

/-! ## Step 4: urgency -/

/-- The truncation toward zero of ToIntegerOrInfinity. -/
def truncQ (q : ℚ) : ℤ := if 0 ≤ q then ⌊q⌋ else ⌈q⌉

/-- The operation TimeClip: a time value beyond 8.64e15 ms is invalid. -/
def timeClip (q : ℚ) : Option ℤ :=
  if |q| ≤ 8640000000000000 then some (truncQ q) else none

/-- The time value of `new Date(v)`: text is parsed, anything else is taken as a number
of milliseconds; `none` is an invalid date. -/
def newDate (env : Env) : JSVal → Option ℤ
  | .str s => env.dateParse s
  | .object s => env.dateParse s
  | v => (toNumber env v).bind timeClip

/-- The function `calculateDaysDiff(date1, date2)`, for `date2` a valid `Date` object. -/
def calculateDaysDiff (env : Env) (date1 : JSVal) (date2 : ℤ) : JSVal :=
  if !truthy date1 then .null
  else
    match newDate env date1 with
    | none => .nan
    | some d1 => .num (ceilDiv (d1 - date2) msPerDay : ℤ)

/-- The expression `parseInt(v) || 0`. -/
def intOr (x : Option ℤ) (d : ℤ) : ℤ :=
  match x with
  | some n => if n ≠ 0 then n else d
  | none => d

/-- The body of the urgency loop. -/
def urgencyRow (env : Env) (row : Row) : Row :=
  let prDeadline := row.get "PR납기일"
  let leadTime : ℤ := intOr (jsParseInt env (row.get "LEAD_TIME")) 0
  if truthy prDeadline then
    let daysUntilDeadline := calculateDaysDiff env prDeadline SIMULATION_DATE
    let row := row.set "납기까지일수" daysUntilDeadline
    let row := row.set "실제잔여일수"
      (ofNum (numOp (· - ·) (toNumber env daysUntilDeadline) (some (leadTime : ℚ))))
    if numLe (toNumber env (row.get "실제잔여일수")) (some URGENCY_URGENT) then
      (row.set "긴급도" (.str "긴급")).set "긴급도_신호" (.str "🔴")
    else if numLe (toNumber env (row.get "실제잔여일수")) (some URGENCY_NORMAL) then
      (row.set "긴급도" (.str "일반")).set "긴급도_신호" (.str "🟡")
    else
      (row.set "긴급도" (.str "여유")).set "긴급도_신호" (.str "🟢")
  else
    (row.set "긴급도" (.str "일반")).set "긴급도_신호" (.str "🟡")

/-! ## Step 5: supplier matching -/

/-- The composite key: the material key, `_`, and the description of the given column,
`String(row[col] || '').trim().toUpperCase()`. -/
def compositeKey (env : Env) (row : Row) (col : String) : String :=
  let key := toStr env (row.get "자재번호_키")
  let desc := env.toUpperCase (trim (toStr env (orElse (row.get col) (.str ""))))
  key ++ "_" ++ desc

/-- The loop that builds `poLookup`: a row is stored unless `poLookup[lookupKey]` is
already truthy. -/
def buildLookup (env : Env) (poHistory : List Row) : Dict Row :=
  poHistory.foldl (fun poLookup row =>
    let lookupKey := compositeKey env row "자재내역"
    match poLookup.get lookupKey with
    | .absent => poLookup ++ [(lookupKey, row)]
    | _ => poLookup) []

/-- The value `poLookup[lookupKey]` when it is truthy, as the object whose properties are
read: a stored row, or an inherited object, none of whose properties the pipeline reads
is defined. -/
def findMatch (poLookup : Dict Row) (lookupKey : String) : Option Row :=
  match poLookup.get lookupKey with
  | .own r => some r
  | .inherited _ => some []
  | .absent => none

/-- The body of the supplier matching loop. -/
def matchRow (env : Env) (poLookup : Dict Row) (row : Row) : Row :=
  let lookupKey := compositeKey env row "내역"
  match findMatch poLookup lookupKey with
  | some m =>
    let row := row.set "매칭업체코드" (m.get "업체코드")
    let row := row.set "매칭업체명" (m.get "업체명")
    let row := row.set "매칭발주수량" (m.get "발주수량")
    let row := row.set "매칭발주금액" (m.get "발주금액(KRW)-변환")
    let row := row.set "매칭_발주중량"
      (orElse (orElse (orElse (m.get "발주중량") (m.get "중량")) (m.get "총중량")) (m.get "발주수량"))
    row.set "업체매칭여부" (.bool true)
  | none => row.set "업체매칭여부" (.bool false)

/-! ## Step 6: order method, contract method -/

/-- The body of the loop that sets the order method of a PZAF row. -/
def orderMethodRow (row : Row) : Row :=
  row.set "발주방식"
    (.str (if row.get "계약분류" = .str "표준단가" then "배량 후 발주" else "입찰(견적) 진행"))

/-- The body of the loop that sets the contract method and the fixed fields;
`poMaterialKeys` holds the elements of the set of PO material keys. -/
def contractMethodRow (env : Env) (poMaterialKeys : List JSVal) (row : Row) : Row :=
  let row := row.set "수의계약대상" (.bool (decide (row.get "자재번호_키" ∈ poMaterialKeys)))
  let row :=
    if row.get "계약분류" = .str "비표준단가" then row.set "계약방식" (.str "비표준단가계약")
    else if truthy (row.get "수의계약대상") then row.set "계약방식" (.str "수의계약")
    else row.set "계약방식" (.str "지명경쟁")
  let prType := row.get "PR생성형태"
  let row := row.set "접수기간_일"
    (.num (if prType = .str "초긴급" ∨ prType = .str "긴급" then 1 else 3))
  let row := row.set "계약방식_선정사유"
    (.str (if row.get "계약방식" = .str "지명경쟁" then REASON_DESIGNATED
      else if row.get "계약방식" = .str "수의계약" then REASON_PRIVATE else ""))
  let row := row.set "미승인사유코드" (.str "002_2")
  let row := row.set "미승인사유" (.str "BULK 재료로서 생산 BOM에 의거 구매요청 발행")
  let vendorCode := toStr env (orElse (row.get "매칭업체코드") (.str ""))
  row.set "기술평가대상" (.str (if startsWith vendorCode "2" then "Y" else "N"))

/-! ## Step 6: price estimation -/

/-- The property write `dict[k] = a`. -/
def Dict.set {α : Type} : Dict α → String → α → Dict α
  | [], k, a => [(k, a)]
  | (k', a') :: rest, k, a =>
    if k' = k then (k, a) :: rest else (k', a') :: Dict.set rest k a

/-- The expression `parseFloat(row[col]) || d`. -/
def floatOr (env : Env) (row : Row) (col : String) (d : ℚ) : ℚ :=
  numOr (jsParseFloat env (row.get col)) d

/-- The loop that builds `poUnitPrices`.  When `poUnitPrices[key]` is a property
inherited from `Object.prototype` no array is created and the call of `push` throws. -/
def buildUnitPrices (env : Env) (poHistory : List Row) : Except String (Dict (List JSNum)) :=
  poHistory.foldlM (fun poUnitPrices row =>
    let key := toStr env (row.get "자재번호_키")
    let qty := floatOr env row "발주수량" 1
    let amount := floatOr env row "발주금액(KRW)-변환" 0
    match poUnitPrices.get key with
    | .absent => .ok (poUnitPrices.set key [divD amount qty])
    | .own prices => .ok (poUnitPrices.set key (prices ++ [divD amount qty]))
    | .inherited _ => .error "TypeError: poUnitPrices[key].push is not a function") []

/-- The function `callLLM` for the record at position `idx`: `null` without a key, on an
error, or when the answer holds no text. -/
def callLLM (env : Env) (idx : Nat) : Option String :=
  if !env.apiKey then none
  else
    match env.fetchLLM idx with
    | some text => if text = "" then none else some text
    | none => none

/-- The function `parseLLMJson`: the empty object unless a fenced block or, failing that,
a bare object is found and parses. -/
def parseLLMJson (env : Env) (text : Option String) : List (String × JSVal) ⊕ JSVal :=
  match text with
  | none => .inl []
  | some text =>
    if text = "" then .inl []
    else
      match env.matchFenced text with
      | some body =>
        match env.jsonParse body with
        | some v => v
        | none => .inl []
      | none =>
        match env.matchBrace text with
        | some body =>
          match env.jsonParse body with
          | some v => v
          | none => .inl []
        | none => .inl []

/-- The expression `result && result['예정단가']`. -/
def resultPrice : List (String × JSVal) ⊕ JSVal → JSVal
  | .inl fields => Row.get fields "예정단가"
  | .inr v => if truthy v then .undefined else v

/-- The assignments of the default price. -/
def defaultPrice (row : Row) : Row :=
  (row.set "입찰예정가" (.num 1000000)).set "예정가_산정방법" (.str "기본값")

/-- The branch of the estimator that tries the pricing collaborator. -/
def estimateExternal (env : Env) (llmCallCount idx : Nat) (qty : ℚ) (row : Row) : Row × Nat :=
  if env.apiKey && decide (llmCallCount < 10) then
    let response := callLLM env idx
    let result := parseLLMJson env response
    if truthy (resultPrice result) then
      let row := row.set "입찰예정가"
        (ofNum (mathRound (dblOp mulD (jsParseFloat env (resultPrice result)) (some qty))))
      let row := row.set "예정가_산정방법" (.str "LLM 산정")
      let row := row.set "LLM응답" (.object "[object Object]")
      (row, llmCallCount + 1)
    else
      (defaultPrice row, llmCallCount)
  else
    (defaultPrice row, llmCallCount)

/-- The branch of the estimator for a truthy `exactMatch`. -/
def exactPrice (env : Env) (exactMatch : Row) (qty : ℚ) (row : Row) : Row :=
  let matchQty := floatOr env exactMatch "발주수량" 1
  let matchAmount := floatOr env exactMatch "발주금액(KRW)-변환" 0
  let unitPrice := divD matchAmount matchQty
  let row := row.set "입찰예정가" (ofNum (mathRound (dblOp mulD unitPrice (some qty))))
  let row := row.set "예정가_산정방법" (.str "자재+내역 일치")
  row.set "최근발주단가" (ofNum unitPrice)

/-- The branch of the estimator for a non-empty array `poUnitPrices[key]`. -/
def groupPrice (prices : List JSNum) (qty : ℚ) (row : Row) : Row :=
  let avgPrice : JSNum :=
    dblOp divD (prices.foldl (dblOp addD) (some 0)) (some (prices.length : ℚ))
  let row := row.set "입찰예정가" (ofNum (mathRound (dblOp mulD avgPrice (some qty))))
  let row := row.set "예정가_산정방법" (.str "그룹 평균")
  row.set "최근발주단가" (ofNum avgPrice)

/-- The body of the price estimation loop, for the record at position `idx`.  When
`poUnitPrices[key]` is an inherited function of positive `length`, the call of `reduce`
throws. -/
def estimateRow (env : Env) (poLookup : Dict Row) (poUnitPrices : Dict (List JSNum))
    (llmCallCount idx : Nat) (row : Row) : Except String (Row × Nat) :=
  let key := toStr env (row.get "자재번호_키")
  let qty := floatOr env row "요청수량" 1
  let matchKey := compositeKey env row "내역"
  match findMatch poLookup matchKey with
  | some exactMatch => .ok (exactPrice env exactMatch qty row, llmCallCount)
  | none =>
    match poUnitPrices.get key with
    | .own prices =>
      if prices.length > 0 then .ok (groupPrice prices qty row, llmCallCount)
      else .ok (estimateExternal env llmCallCount idx qty row)
    | .inherited (some n) =>
      if n > 0 then .error "TypeError: poUnitPrices[key].reduce is not a function"
      else .ok (estimateExternal env llmCallCount idx qty row)
    | .inherited none => .ok (estimateExternal env llmCallCount idx qty row)
    | .absent => .ok (estimateExternal env llmCallCount idx qty row)

/-- The price estimation loop `for (const row of quotationData)`, from position `idx`
with the counter at `llmCallCount`: the rows and the final counter. -/
def estimateLoop (env : Env) (poLookup : Dict Row) (poUnitPrices : Dict (List JSNum)) :
    Nat → Nat → List Row → Except String (List Row × Nat)
  | _, llmCallCount, [] => .ok ([], llmCallCount)
  | idx, llmCallCount, row :: rest =>
    match estimateRow env poLookup poUnitPrices llmCallCount idx row with
    | .error e => .error e
    | .ok (row, llmCallCount) =>
      match estimateLoop env poLookup poUnitPrices (idx + 1) llmCallCount rest with
      | .error e => .error e
      | .ok (rest, final) => .ok (row :: rest, final)

/-! ## Step 7: appropriateness review -/

/-- The comparison `a <= b` where one side is a number: both sides are converted. -/
def jsLe (env : Env) (a b : JSVal) : Bool := numLe (toNumber env a) (toNumber env b)

/-- The comparison `a < b` where one side is a number: both sides are converted. -/
def jsLt (env : Env) (a b : JSVal) : Bool := numLt (toNumber env a) (toNumber env b)

/-- The body of the loop that simulates the quotation and rates its competitiveness, for
the record at position `idx`. -/
def quoteRow (env : Env) (idx : Nat) (row : Row) : Row :=
  let estimated := orElse (row.get "입찰예정가") (.num 1000000)
  let row := row.set "Mock_견적금액"
    (ofNum (numOp (· * ·) (toNumber env estimated) (some (0.8 + env.random idx * 0.4))))
  let row := row.set "견적단가"
    (ofNum (numOp (· / ·) (toNumber env (row.get "Mock_견적금액"))
      (some (floatOr env row "요청수량" 1))))
  let row := row.set "예정단가"
    (ofNum (numOp (· / ·) (toNumber env (row.get "입찰예정가"))
      (some (floatOr env row "요청수량" 1))))
  let qPrice := row.get "견적단가"
  let ePrice := row.get "예정단가"
  let rPrice := orElse (row.get "최근발주단가") ePrice
  if jsLe env qPrice ePrice then
    (row.set "견적경쟁력" (.str "우수")).set "견적경쟁력_신호" (.str "🟢")
  else if jsLe env qPrice rPrice then
    (row.set "견적경쟁력" (.str "보통")).set "견적경쟁력_신호" (.str "🟡")
  else
    (row.set "견적경쟁력" (.str "열위")).set "견적경쟁력_신호" (.str "🔴")

/-- The loop over `quoteRow`, from position `idx`. -/
def quoteLoop (env : Env) : Nat → List Row → List Row
  | _, [] => []
  | idx, row :: rest => quoteRow env idx row :: quoteLoop env (idx + 1) rest

/-- The body of the appropriateness loop. -/
def reviewRow (env : Env) (row : Row) : Row :=
  let comp := row.get "견적경쟁력"
  let qPrice := row.get "견적단가"
  let ePrice := row.get "예정단가"
  let dumpingThreshold := ofNum (numOp (· * ·) (toNumber env ePrice) (some 0.7))
  let row :=
    if row.get "계약방식" = .str "수의계약" then
      let recentPrice := orElse (row.get "최근발주단가") ePrice
      let changeRate : JSNum :=
        if jsLt env (.num 0) recentPrice then
          dblOp mulD
            (dblOp subD (dblOp divD (toNumber env qPrice) (toNumber env recentPrice))
              (some 1))
            (some 100)
        else some 0
      let row := row.set "단가변동률" (ofNum changeRate)
      if numLe changeRate (some 15) then
        ((row.set "수의계약_적정성" (.str "적정")).set "HITL필요" (.bool false)).set
          "처리상태" (.str "자동완료")
      else
        ((row.set "수의계약_적정성" (.str "협상필요")).set "HITL필요" (.bool true)).set
          "처리상태" (.str "검토필요")
    else
      if decide (comp = .str "우수") && jsLt env qPrice dumpingThreshold then
        ((row.set "최저가_적정성" (.str "덤핑의심")).set "HITL필요" (.bool true)).set
          "처리상태" (.str "검토필요")
      else if comp = .str "열위" then
        ((row.set "최저가_적정성" (.str "검토필요")).set "HITL필요" (.bool true)).set
          "처리상태" (.str "검토필요")
      else
        ((row.set "최저가_적정성" (.str "적정")).set "HITL필요" (.bool false)).set
          "처리상태" (.str "자동완료")
  row.set "승인상태"
    (.str (if row.get "처리상태" = .str "자동완료" then "승인대기" else "검토대기"))

/-! ## The final sort -/

/-- The object literal `urgencyOrder`. -/
def urgencyOrder : Dict ℚ := [("긴급", 0), ("일반", 1), ("여유", 2)]

/-- The expression `urgencyOrder[row['긴급도']] || 1`, as a number; an inherited function
is truthy and is no number. -/
def urgencyRank (env : Env) (row : Row) : JSNum :=
  match urgencyOrder.get (toStr env (row.get "긴급도")) with
  | .own n => some (numOr (some n) 1)
  | .inherited _ => none
  | .absent => some 1

/-- The comparator of the final sort. -/
def compareUrgency (env : Env) (a b : Row) : JSNum :=
  numOp (· - ·) (urgencyRank env a) (urgencyRank env b)

/-- The order the comparator induces: `a` may stay before `b` unless the comparator is
positive (a `NaN` counts as zero). -/
def urgencyLe (env : Env) (a b : Row) : Prop :=
  numLt (some 0) (compareUrgency env a b) = false

instance (env : Env) : DecidableRel (urgencyLe env) :=
  fun a b => inferInstanceAs (Decidable (numLt (some 0) (compareUrgency env a b) = false))

/-- The call `quotationData.sort(comparator)`: `Array.prototype.sort` is stable. -/
def sortByUrgency (env : Env) (quotationData : List Row) : List Row :=
  quotationData.insertionSort (urgencyLe env)

/-! ## The run -/

/-- The counters `contractSummary`. -/
structure ContractSummary where
  standard : Nat
  nonStandard : Nat
  na : Nat
  deriving DecidableEq

/-- The object `summary` (without `priceMethodSummary` and `processingTime`). -/
structure Summary where
  total : Nat
  urgent : Nat
  normal : Nat
  flexible : Nat
  autoComplete : Nat
  needReview : Nat
  contractSummary : ContractSummary
  llmCalls : Nat
  deriving DecidableEq

/-- What `processAgent` returns (without the logs). -/
structure Result where
  summary : Summary
  quotationData : List Row
  invalidPR : List Row
  deriving DecidableEq

/-- The number of rows whose column holds the given text, `filter(...).length`. -/
def countOf (rows : List Row) (col text : String) : Nat :=
  (rows.filter (fun r => decide (r.get col = .str text))).length

/-- The rows of `quotationData` as first selected: the validated, classified, scored and
matched rows that are PZAF and go to quotation. -/
def selectQuotation (workingData : List Row) : List Row :=
  let pzafData := workingData.filter (fun row => truthy (row.get "PZAF여부"))
  let pzafData := pzafData.map orderMethodRow
  pzafData.filter (fun row => decide (row.get "발주방식" = .str "입찰(견적) 진행"))

/-- The rows of `workingData` after step 3: validated and classified. -/
def classified (env : Env) (prData : List Row) : List Row :=
  let workingData := prData.map (keyPR env)
  let workingData := (validate env workingData).1
  workingData.map (classifyRow env)

/-- The rows of `workingData` after step 4: scored for urgency. -/
def scored (env : Env) (prData : List Row) : List Row :=
  (classified env prData).map (urgencyRow env)

/-- The rows of `poHistory`, each with its material key. -/
def keyedHistory (env : Env) (poHistory : List Row) : List Row :=
  poHistory.map (keyPO env)

/-- The object `poLookup` of a run. -/
def lookupIndex (env : Env) (poHistory : List Row) : Dict Row :=
  buildLookup env (keyedHistory env poHistory)

/-- The rows of `workingData` after step 5: matched against `poLookup`. -/
def matched (env : Env) (prData poHistory : List Row) : List Row :=
  (scored env prData).map (matchRow env (lookupIndex env poHistory))

/-- The rows of `quotationData` when the price estimation starts: selected, with their
contract method. -/
def quotationInput (env : Env) (prData poHistory : List Row) : List Row :=
  let poMaterialKeys := (keyedHistory env poHistory).map (fun r => r.get "자재번호_키")
  (selectQuotation (matched env prData poHistory)).map (contractMethodRow env poMaterialKeys)

/-- The price estimation of a run: the rows of `quotationData` after the estimation loop
and the final `llmCallCount`. -/
def estimation (env : Env) (prData poHistory : List Row) : Except String (List Row × Nat) :=
  match buildUnitPrices env (keyedHistory env poHistory) with
  | .error e => .error e
  | .ok poUnitPrices =>
    estimateLoop env (lookupIndex env poHistory) poUnitPrices 0 0
      (quotationInput env prData poHistory)

/-- Step 2: the loop that groups the rejected rows by requester for the notification.
When `grouped[requester]` is a property inherited from `Object.prototype` no array is
created and the call of `push` throws. -/
def groupInvalid (env : Env) (invalidData : List Row) : Except String (Dict (List Row)) :=
  invalidData.foldlM (fun grouped row =>
    let requester := toStr env (orElse (row.get "구매요청자") (.str "담당자미지정"))
    match grouped.get requester with
    | .absent => .ok (grouped.set requester [row])
    | .own rows => .ok (grouped.set requester (rows ++ [row]))
    | .inherited _ => .error "TypeError: grouped[requester].push is not a function") []

/-- Steps 3 to 7 of `processAgent` and what it returns. -/
def processValid (env : Env) (prData poHistory : List Row) : Except String Result :=
  let invalidData := (validate env (prData.map (keyPR env))).2
  let contractSummary : ContractSummary :=
    { standard := countOf (classified env prData) "계약분류" "표준단가"
      nonStandard := countOf (classified env prData) "계약분류" "비표준단가"
      na := countOf (classified env prData) "계약분류" "NA" }
  let urgent := countOf (scored env prData) "긴급도" "긴급"
  let normal := countOf (scored env prData) "긴급도" "일반"
  let flexible := countOf (scored env prData) "긴급도" "여유"
  match estimation env prData poHistory with
  | .error e => .error e
  | .ok (quotationData, llmCallCount) =>
    let quotationData := quoteLoop env 0 quotationData
    let quotationData := quotationData.map (reviewRow env)
    .ok
      { summary :=
          { total := quotationData.length
            urgent := urgent
            normal := normal
            flexible := flexible
            autoComplete := countOf quotationData "처리상태" "자동완료"
            needReview := countOf quotationData "처리상태" "검토필요"
            contractSummary := contractSummary
            llmCalls := llmCallCount }
        quotationData := sortByUrgency env quotationData
        invalidPR := invalidData }

/-- The function `processAgent`, on the rows of `globalState.prData` and
`globalState.poHistory`. -/
def processAgent (env : Env) (prData poHistory : List Row) : Except String Result :=
  match groupInvalid env (validate env (prData.map (keyPR env))).2 with
  | .error e => .error e
  | .ok _ => processValid env prData poHistory

/-! ## A concrete environment for evaluating examples

`demoEnv` agrees with the JavaScript built-ins on the inputs the examples use: ASCII
text, integers and decimal numerals without exponent (read as the nearest double), ISO
dates `YYYY-MM-DD`, and
collaborator answers that are a bare object with the one property `예정단가`. -/

/-- The value of a run of decimal digits. -/
def digitsValue (cs : List Char) : Nat :=
  cs.foldl (fun n c => 10 * n + (c.toNat - 48)) 0

/-- Reads `[+-]digits[.digits]` at the head of the text: the number and the rest. -/
def scanNumber (cs : List Char) : Option (ℚ × List Char) :=
  let neg := cs.head? = some '-'
  let cs := if cs.head? = some '-' ∨ cs.head? = some '+' then cs.tail else cs
  let ds := cs.takeWhile Char.isDigit
  let cs := cs.dropWhile Char.isDigit
  let fs := if cs.head? = some '.' then cs.tail.takeWhile Char.isDigit else []
  let cs := if cs.head? = some '.' ∧ fs ≠ [] then cs.tail.dropWhile Char.isDigit else cs
  if ds = [] ∧ fs = [] then none
  else
    let v : ℚ := (digitsValue ds : ℚ) + (digitsValue fs : ℚ) / (10 : ℚ) ^ fs.length
    some (if neg then -v else v, cs)

/-- Reads `[+-]digits` at the head of the text. -/
def scanInt (cs : List Char) : Option ℤ :=
  let neg := cs.head? = some '-'
  let cs := if cs.head? = some '-' ∨ cs.head? = some '+' then cs.tail else cs
  let ds := cs.takeWhile Char.isDigit
  if ds = [] then none
  else some (if neg then -(digitsValue ds : ℤ) else (digitsValue ds : ℤ))

/-- Days from 1970-01-01 to the given civil date. -/
def daysFromCivil (y m d : ℤ) : ℤ :=
  let y := if m ≤ 2 then y - 1 else y
  let era := y / 400
  let yoe := y - era * 400
  let doy := (153 * (if m > 2 then m - 3 else m + 9) + 2) / 5 + d - 1
  let doe := yoe * 365 + yoe / 4 - yoe / 100 + doy
  era * 146097 + doe - 719468

/-- Reads an ISO date `YYYY-MM-DD` as UTC midnight. -/
def parseIsoDate (s : String) : Option ℤ :=
  match s.data with
  | [y1, y2, y3, y4, '-', m1, m2, '-', d1, d2] =>
    if [y1, y2, y3, y4, m1, m2, d1, d2].all Char.isDigit then
      let m := digitsValue [m1, m2]
      let d := digitsValue [d1, d2]
      if 1 ≤ m ∧ m ≤ 12 ∧ 1 ≤ d ∧ d ≤ 31 then
        some (daysFromCivil (digitsValue [y1, y2, y3, y4]) m d * msPerDay)
      else none
    else none
  | _ => none

/-- The first stretch of the text that opens with a brace, closes with a brace and has
no brace in between. -/
def scanBrace : List Char → Option (List Char)
  | [] => none
  | c :: cs =>
    let body := cs.takeWhile (fun x => x ≠ Char.ofNat 123 ∧ x ≠ Char.ofNat 125)
    if c = Char.ofNat 123 ∧ (cs.dropWhile (fun x => x ≠ Char.ofNat 123 ∧ x ≠ Char.ofNat 125)).head?
        = some (Char.ofNat 125) then
      some (c :: body ++ [Char.ofNat 125])
    else scanBrace cs

/-- Parses an object with the one property `예정단가` holding a decimal numeral. -/
def parsePriceObject (s : String) : Option (List (String × JSVal) ⊕ JSVal) :=
  let opening := "\x7b\"예정단가\":".data
  if opening <+: s.data then
    match scanNumber ((s.data.drop opening.length).dropWhile isJSWhitespace) with
    | some (q, rest) =>
      if rest.dropWhile isJSWhitespace = [Char.ofNat 125] then
        some (.inl [("예정단가", .num (fl q))])
      else none
    | none => none
  else none

/-- A concrete environment, for a given API key, collaborator and random source. -/
def demoEnv (apiKey : Bool) (fetchLLM : Nat → Option String) (random : Nat → ℚ) : Env where
  toUpperCase := fun s => ⟨s.data.map Char.toUpper⟩
  numberToString := fun q => if q.den = 1 then toString q.num else "NaN"
  parseFloat := fun s =>
    (scanNumber (s.data.dropWhile isJSWhitespace)).map (fun p => fl p.1)
  parseInt := fun s => scanInt (s.data.dropWhile isJSWhitespace)
  stringToNumber := fun s =>
    if trim s = "" then some 0
    else
      match scanNumber (trim s).data with
      | some (q, []) => some (fl q)
      | _ => none
  dateParse := parseIsoDate
  matchFenced := fun _ => none
  matchBrace := fun s => (scanBrace s.data).map String.mk
  jsonParse := parsePriceObject
  apiKey := apiKey
  fetchLLM := fetchLLM
  random := random

/-- The rows `quotationData` a run returns; none when the run throws. -/
def quotationOf (run : Except String Result) : List Row :=
  match run with
  | .ok res => res.quotationData
  | .error _ => []

/-- The rows `invalidPR` a run returns; none when the run throws. -/
def invalidOf (run : Except String Result) : List Row :=
  match run with
  | .ok res => res.invalidPR
  | .error _ => []

/-! ## Example inputs -/

/-- An environment without API key, whose random source always draws 0. -/
def quietEnv : Env := demoEnv false (fun _ => none) (fun _ => 0)

/-- A PR row with every required column filled, for the material `PZAFAB1234`. -/
def boltRow : Row :=
  [("구매요청", .str "PR-1"), ("자재번호", .str "PZAFAB1234"), ("내역", .str "Bolt"),
   ("구매요청일", .str "2025-12-01"), ("PR납기일", .str "2026-01-10"), ("LEAD_TIME", .num 3),
   ("소싱그룹", .str "SG1"), ("자재그룹", .str "MG1"), ("요청수량", .num 10)]

/-- The row `boltRow` with the number 0 as lead time. -/
def zeroLeadRow : Row := boltRow.set "LEAD_TIME" (.num 0)

/-- The row `boltRow` with the number 0 as unit-price contract number. -/
def zeroContractRow : Row := boltRow.set "단가계약번호" (.num 0)

/-- The row `boltRow` after steps 1 to 4. -/
def scoredBolt : Row :=
  urgencyRow quietEnv (classifyRow quietEnv (validateRow quietEnv (keyPR quietEnv boltRow)))

/-- The severity of an urgency tier: 여유 < 일반 < 긴급. -/
def severity (tier : JSVal) : Nat :=
  if tier = .str "긴급" then 2 else if tier = .str "일반" then 1 else 0

/-- The row `boltRow` with an earlier required-by date. -/
def earlyRow : Row := boltRow.set "PR납기일" (.str "2026-01-04")

/-- The row `earlyRow` after steps 1 to 4. -/
def scoredEarly : Row :=
  urgencyRow quietEnv (classifyRow quietEnv (validateRow quietEnv (keyPR quietEnv earlyRow)))

/-- A PR row like `boltRow` whose required-by date leaves 3 days: tier 일반. -/
def normalRow : Row :=
  (boltRow.set "구매요청" (.str "PR-N")).set "PR납기일" (.str "2026-01-07")

/-- Whether the group average is taken: `poUnitPrices[key]` is a non-empty own array. -/
def hasGroup (poUnitPrices : Dict (List JSNum)) (key : String) : Bool :=
  match poUnitPrices.get key with
  | .own prices => decide (prices ≠ [])
  | _ => false

/-- Equality of two outcomes is decidable. -/
instance {α : Type} [DecidableEq α] : DecidableEq (Except String α) := fun a b =>
  match a, b with
  | .ok x, .ok y =>
    if h : x = y then isTrue (congrArg Except.ok h) else isFalse (fun e => h (Except.ok.inj e))
  | .error x, .error y =>
    if h : x = y then isTrue (congrArg Except.error h)
    else isFalse (fun e => h (Except.error.inj e))
  | .ok _, .error _ => isFalse (fun e => Except.noConfusion e)
  | .error _, .ok _ => isFalse (fun e => Except.noConfusion e)

/-- A PO row for the material `AB1234`, description `BOLT`: 5 units for 5000. -/
def boltOrder : Row :=
  [("자재번호", .str "S001AB1234"), ("자재내역", .str "BOLT"), ("발주수량", .num 5),
   ("발주금액(KRW)-변환", .num 5000), ("업체코드", .str "200123"), ("업체명", .str "ACME")]

/-- The result of the run on `boltRow` with the PO history `boltOrder`. -/
def boltRun : Result :=
  match processAgent quietEnv [boltRow] [boltOrder] with
  | .ok res => res
  | .error _ => ⟨⟨0, 0, 0, 0, 0, 0, ⟨0, 0, 0⟩, 0⟩, [], []⟩

/-- The record the run `boltRun` returns. -/
def boltRecord : Row := boltRun.quotationData.headD []

/-- The own properties of `poLookup` after the rows `seen`: the first row of each composite
key that is not an inherited property name. -/
def IndexOf (env : Env) (tbl : Dict Row) (seen : List Row) : Prop :=
  ∀ k, List.lookup k tbl =
    if (objectPrototype.lookup k).isSome then none
    else seen.find? (fun row => decide (compositeKey env row "자재내역" = k))

/-- A PR row with material key `A` and description `B_C`. -/
def collideRow : Row :=
  (boltRow.set "자재번호" (.str "PZAFA")).set "내역" (.str "B_C")

/-- A PO row with material key `A_B` and description `C`. -/
def collideOrder : Row :=
  [("자재번호", .str "S001A_B"), ("자재내역", .str "C"), ("발주수량", .num 2),
   ("발주금액(KRW)-변환", .num 300), ("업체코드", .str "100777"), ("업체명", .str "OTHER")]

/-- The row `boltRow` after steps 1 to 5, matched against `boltOrder`. -/
def matchedBolt : Row := (matched quietEnv [boltRow] [boltOrder]).headD []

/-- A PR row whose composite key is the inherited property name `__proto__`. -/
def protoRow : Row :=
  (boltRow.set "자재번호" (.str "PZAF__proto")).set "내역" (.str "_")

/-- An environment with an API key whose collaborator answers every call with the bare
object holding the price -5. -/
def negativeEnv : Env :=
  demoEnv true (fun _ => some "\x7b\"예정단가\": -5\x7d") (fun _ => 0)

/-- The estimation of the run on `boltRow` without PO history, the collaborator answering
-5. -/
def negativeEstimates : List Row × Nat :=
  match estimation negativeEnv [boltRow] [] with
  | .ok p => p
  | .error _ => ([], 0)

/-- The row `matchedBolt` with its order method. -/
def boltSelected : Row := orderMethodRow matchedBolt

/-- The expression `amount / qty` of the loop that builds `poUnitPrices`, for a PO row. -/
def unitPriceOf (env : Env) (row : Row) : JSNum :=
  divD (floatOr env row "발주금액(KRW)-변환" 0) (floatOr env row "발주수량" 1)

/-- The own properties of `poUnitPrices` after the rows `seen`: for each material key the
unit prices of the rows with that key, in order. -/
def GroupsOf (env : Env) (tbl : Dict (List JSNum)) (seen : List Row) : Prop :=
  ∀ k, List.lookup k tbl =
    if seen.filter (fun row => decide (toStr env (row.get "자재번호_키") = k)) = [] then none
    else some ((seen.filter (fun row => decide (toStr env (row.get "자재번호_키") = k))).map
      (unitPriceOf env))

/-- The body of the loop that builds `poUnitPrices`. -/
def unitPriceStep (env : Env) (poUnitPrices : Dict (List JSNum)) (row : Row) :
    Except String (Dict (List JSNum)) :=
  match poUnitPrices.get (toStr env (row.get "자재번호_키")) with
  | .absent => .ok (poUnitPrices.set (toStr env (row.get "자재번호_키")) [unitPriceOf env row])
  | .own prices =>
    .ok (poUnitPrices.set (toStr env (row.get "자재번호_키")) (prices ++ [unitPriceOf env row]))
  | .inherited _ => .error "TypeError: poUnitPrices[key].push is not a function"

/-- A second PO row of the material `AB1234`, with another description: 4 units for 2000. -/
def nutOrder : Row :=
  [("자재번호", .str "S002AB1234"), ("자재내역", .str "NUT"), ("발주수량", .num 4),
   ("발주금액(KRW)-변환", .num 2000), ("업체코드", .str "100555"), ("업체명", .str "NUTCO")]

/-- A third PO row of the material `AB1234`, description `WASHER`: 2 units for 3000. -/
def washerOrder : Row :=
  [("자재번호", .str "S003AB1234"), ("자재내역", .str "WASHER"), ("발주수량", .num 2),
   ("발주금액(KRW)-변환", .num 3000), ("업체코드", .str "100556"), ("업체명", .str "WASHCO")]

/-- The result of the run on `boltRow` with the PO history `nutOrder`, `washerOrder`. -/
def groupRun : Result :=
  match processAgent quietEnv [boltRow] [nutOrder, washerOrder] with
  | .ok res => res
  | .error _ => ⟨⟨0, 0, 0, 0, 0, 0, ⟨0, 0, 0⟩, 0⟩, [], []⟩

/-- The record the run `groupRun` returns. -/
def groupRecord : Row := groupRun.quotationData.headD []

/-- Eleven PR rows like `boltRow`. -/
def elevenRows : List Row := List.replicate 11 boltRow

/-- The result of the run on `elevenRows` without PO history, every call answered -5. -/
def elevenRun : Result :=
  match processAgent negativeEnv elevenRows [] with
  | .ok res => res
  | .error _ => ⟨⟨0, 0, 0, 0, 0, 0, ⟨0, 0, 0⟩, 0⟩, [], []⟩

/-- The test `process.env.ANTHROPIC_API_KEY && llmCallCount < 10` that guards the call of
the collaborator. -/
def callGuard (env : Env) (llmCallCount : Nat) : Bool :=
  env.apiKey && decide (llmCallCount < 10)

/-- Whether the estimation of a row goes to the external tier: `poLookup[matchKey]` is falsy
and no group average is taken. -/
def reachesExternal (env : Env) (poLookup : Dict Row) (poUnitPrices : Dict (List JSNum))
    (row : Row) : Bool :=
  (findMatch poLookup (compositeKey env row "내역")).isNone &&
    !hasGroup poUnitPrices (toStr env (row.get "자재번호_키"))

/-- An environment with an API key whose collaborator fails on the first record and
answers the price 7 for every other record. -/
def flakyEnv : Env :=
  demoEnv true (fun i => if i = 0 then none else some "\x7b\"예정단가\": 7\x7d") (fun _ => 0)

/-- The estimation of the run on `elevenRows` without PO history in `flakyEnv`. -/
def flakyEstimates : List Row × Nat :=
  match estimation flakyEnv elevenRows [] with
  | .ok p => p
  | .error _ => ([], 0)

/-- The row `boltRow` as it enters the price estimation without PO history. -/
def boltInput : Row := (quotationInput flakyEnv elevenRows []).headD []

/-- The expression `changeRate` of the appropriateness loop, read off a row. -/
def changeRateOf (env : Env) (row : Row) : JSNum :=
  if jsLt env (.num 0) (orElse (row.get "최근발주단가") (row.get "예정단가")) then
    dblOp mulD
      (dblOp subD
        (dblOp divD (toNumber env (row.get "견적단가"))
          (toNumber env (orElse (row.get "최근발주단가") (row.get "예정단가"))))
        (some 1))
      (some 100)
  else some 0

/-- The test `comp === '우수' && qPrice < dumpingThreshold` of the appropriateness loop, read
off a row. -/
def isDumping (env : Env) (row : Row) : Bool :=
  decide (row.get "견적경쟁력" = .str "우수") &&
    jsLt env (row.get "견적단가")
      (ofNum (numOp (· * ·) (toNumber env (row.get "예정단가")) (some 0.7)))

/-- The row after the first three assignments of the quotation loop: the simulated amount,
the quoted unit price and the estimated unit price. -/
def quoteBase (env : Env) (idx : Nat) (row : Row) : Row :=
  let estimated := orElse (row.get "입찰예정가") (.num 1000000)
  let row := row.set "Mock_견적금액"
    (ofNum (numOp (· * ·) (toNumber env estimated) (some (0.8 + env.random idx * 0.4))))
  let row := row.set "견적단가"
    (ofNum (numOp (· / ·) (toNumber env (row.get "Mock_견적금액"))
      (some (floatOr env row "요청수량" 1))))
  row.set "예정단가"
    (ofNum (numOp (· / ·) (toNumber env (row.get "입찰예정가"))
      (some (floatOr env row "요청수량" 1))))

/-- An environment without API key whose random source always draws 7/8: the simulated
quotation is 1.15 times the estimate. -/
def boundaryEnv : Env := demoEnv false (fun _ => none) (fun _ => 7 / 8)

/-- A PO row for the material `AB1234`, description `BOLT`: 5 units for 500. -/
def hundredOrder : Row :=
  [("자재번호", .str "S001AB1234"), ("자재내역", .str "BOLT"), ("발주수량", .num 5),
   ("발주금액(KRW)-변환", .num 500), ("업체코드", .str "200123"), ("업체명", .str "ACME")]

/-- The result of the run on `boltRow` with the PO history `hundredOrder` in `boundaryEnv`. -/
def boundaryRun : Result :=
  match processAgent boundaryEnv [boltRow] [hundredOrder] with
  | .ok res => res
  | .error _ => ⟨⟨0, 0, 0, 0, 0, 0, ⟨0, 0, 0⟩, 0⟩, [], []⟩

/-- The record the run `boundaryRun` returns. -/
def boundaryRecord : Row := boundaryRun.quotationData.headD []

/-- The result of the run on `boltRow` without PO history in `quietEnv`. -/
def bidRun : Result :=
  match processAgent quietEnv [boltRow] [] with
  | .ok res => res
  | .error _ => ⟨⟨0, 0, 0, 0, 0, 0, ⟨0, 0, 0⟩, 0⟩, [], []⟩

/-- The record the run `bidRun` returns. -/
def bidRecord : Row := bidRun.quotationData.headD []

/-- Parses an object with the one property `예정단가` holding a text without escapes. -/
def parseTextPriceObject (s : String) : Option (List (String × JSVal) ⊕ JSVal) :=
  let opening := "\x7b\"예정단가\": \"".data
  if opening <+: s.data then
    let rest := s.data.drop opening.length
    if rest.dropWhile (fun c => c ≠ Char.ofNat 34) = [Char.ofNat 34, Char.ofNat 125] then
      some (.inl [("예정단가", .str ⟨rest.takeWhile (fun c => c ≠ Char.ofNat 34)⟩)])
    else none
  else none

/-- An environment with an API key whose collaborator answers every call with the bare
object holding the text `about 5000` as price. -/
def textEnv : Env :=
  { demoEnv true (fun _ => some "\x7b\"예정단가\": \"about 5000\"\x7d") (fun _ => 0) with
    jsonParse := parseTextPriceObject }

/-- The result of the run on `boltRow` without PO history in `textEnv`. -/
def textRun : Result :=
  match processAgent textEnv [boltRow] [] with
  | .ok res => res
  | .error _ => ⟨⟨0, 0, 0, 0, 0, 0, ⟨0, 0, 0⟩, 0⟩, [], []⟩

/-- The record the run `textRun` returns. -/
def textRecord : Row := textRun.quotationData.headD []

/-- A PO row for the material `AB1234`, description `BOLT`: 5 units for the amount 0. -/
def freeOrder : Row :=
  [("자재번호", .str "S001AB1234"), ("자재내역", .str "BOLT"), ("발주수량", .num 5),
   ("발주금액(KRW)-변환", .num 0), ("업체코드", .str "200123"), ("업체명", .str "ACME")]

/-- The result of the run on `boltRow` with the PO history `freeOrder`. -/
def freeRun : Result :=
  match processAgent quietEnv [boltRow] [freeOrder] with
  | .ok res => res
  | .error _ => ⟨⟨0, 0, 0, 0, 0, 0, ⟨0, 0, 0⟩, 0⟩, [], []⟩

/-- The record the run `freeRun` returns. -/
def freeRecord : Row := freeRun.quotationData.headD []

/-- A PR row like `boltRow` whose material number does not contain PZAF. -/
def otherRow : Row := boltRow.set "자재번호" (.str "XXXXAB1234")

/-- The result of the run on `boltRow` and `otherRow` with the PO history `boltOrder`. -/
def mixedRun : Result :=
  match processAgent quietEnv [boltRow, otherRow] [boltOrder] with
  | .ok res => res
  | .error _ => ⟨⟨0, 0, 0, 0, 0, 0, ⟨0, 0, 0⟩, 0⟩, [], []⟩

/-- A list of property writes `row[k] = v`, in order. -/
abbrev Writes := List (String × JSVal)

/-- The row after the writes. -/
def applyWrites (r : Row) (ws : Writes) : Row :=
  ws.foldl (fun r kv => r.set kv.1 kv.2) r

/-- Whether a row has the own property `k`. -/
def Row.has (r : Row) (k : String) : Prop := (List.lookup k r).isSome = true

/-- A stage of the pipeline seen as writes computed from the row, with the properties it
reads and the properties it may write. -/
structure Stage where
  writes : Row → Writes
  reads : List String
  keys : List String

/-- The row after a stage. -/
def Stage.run (s : Stage) (r : Row) : Row := applyWrites r (s.writes r)

/-- A stage computes its writes from the properties it reads, writes within its keys, and
writes each property once. -/
structure Stage.Ok (s : Stage) : Prop where
  congr : ∀ r r' : Row, (∀ k ∈ s.reads, r.get k = r'.get k) → s.writes r = s.writes r'
  within : ∀ (r : Row) (kv : String × JSVal), kv ∈ s.writes r → kv.1 ∈ s.keys
  nodup : ∀ r : Row, ((s.writes r).map Prod.fst).Nodup

/-- The row after a list of stages. -/
def runStages (ss : List Stage) (r : Row) : Row := ss.foldl (fun r s => s.run r) r

/-- No stage writes what it or an earlier stage reads, and no two stages write the same
property. -/
def Ordered : List Stage → Prop
  | [] => True
  | s :: rest =>
    (∀ k ∈ s.reads, k ∉ s.keys) ∧
    (∀ t ∈ rest, (∀ k ∈ s.reads, k ∉ t.keys) ∧ (∀ k ∈ s.keys, k ∉ t.keys)) ∧ Ordered rest

/-- The key stage of a PR row as writes. -/
def keyStage (env : Env) : Stage where
  writes := fun r =>
    [("자재번호_키", .str (materialKey (matNoOf env r))),
     ("PZAF여부", .bool (includes (matNoOf env r) "PZAF"))]
  reads := ["자재번호"]
  keys := ["자재번호_키", "PZAF여부"]

/-- The validation of a row as writes. -/
def validateStage (env : Env) : Stage where
  writes := fun r =>
    if (missingColumns env r).length > 0 then
      [("누락항목", .str (join ", " (missingColumns env r))), ("검증결과", .str "FAIL")]
    else [("검증결과", .str "PASS")]
  reads := REQUIRED_COLUMNS
  keys := ["누락항목", "검증결과"]

/-- The contract classification of a row as writes. -/
def classifyStage (env : Env) : Stage where
  writes := fun r =>
    if hasValue env (r.get "단가계약번호") && hasValue env (r.get "자동배량그룹") then
      [("계약분류", .str "표준단가")]
    else if hasValue env (r.get "단가계약번호") && !hasValue env (r.get "자동배량그룹") then
      [("계약분류", .str "비표준단가")]
    else [("계약분류", .str "NA")]
  reads := ["단가계약번호", "자동배량그룹"]
  keys := ["계약분류"]

/-- The urgency scoring of a row as writes. -/
def urgencyStage (env : Env) : Stage where
  writes := fun r =>
    if truthy (r.get "PR납기일") then
      let row := r.set "납기까지일수" (calculateDaysDiff env (r.get "PR납기일") SIMULATION_DATE)
      let row := row.set "실제잔여일수"
        (ofNum (numOp (· - ·)
          (toNumber env (calculateDaysDiff env (r.get "PR납기일") SIMULATION_DATE))
          (some ((intOr (jsParseInt env (r.get "LEAD_TIME")) 0 : ℤ) : ℚ))))
      [("납기까지일수", calculateDaysDiff env (r.get "PR납기일") SIMULATION_DATE),
       ("실제잔여일수", ofNum (numOp (· - ·)
          (toNumber env (calculateDaysDiff env (r.get "PR납기일") SIMULATION_DATE))
          (some ((intOr (jsParseInt env (r.get "LEAD_TIME")) 0 : ℤ) : ℚ))))] ++
      (if numLe (toNumber env (row.get "실제잔여일수")) (some URGENCY_URGENT) then
        [("긴급도", .str "긴급"), ("긴급도_신호", .str "🔴")]
      else if numLe (toNumber env (row.get "실제잔여일수")) (some URGENCY_NORMAL) then
        [("긴급도", .str "일반"), ("긴급도_신호", .str "🟡")]
      else [("긴급도", .str "여유"), ("긴급도_신호", .str "🟢")])
    else [("긴급도", .str "일반"), ("긴급도_신호", .str "🟡")]
  reads := ["PR납기일", "LEAD_TIME"]
  keys := ["납기까지일수", "실제잔여일수", "긴급도", "긴급도_신호"]

/-- The supplier matching of a row as writes. -/
def matchStage (env : Env) (poLookup : Dict Row) : Stage where
  writes := fun r =>
    match findMatch poLookup (compositeKey env r "내역") with
    | some m =>
      [("매칭업체코드", m.get "업체코드"), ("매칭업체명", m.get "업체명"),
       ("매칭발주수량", m.get "발주수량"), ("매칭발주금액", m.get "발주금액(KRW)-변환"),
       ("매칭_발주중량",
         orElse (orElse (orElse (m.get "발주중량") (m.get "중량")) (m.get "총중량"))
           (m.get "발주수량")),
       ("업체매칭여부", .bool true)]
    | none => [("업체매칭여부", .bool false)]
  reads := ["자재번호_키", "내역"]
  keys := ["매칭업체코드", "매칭업체명", "매칭발주수량", "매칭발주금액", "매칭_발주중량",
    "업체매칭여부"]

/-- The order method of a row as writes. -/
def orderStage : Stage where
  writes := fun r =>
    [("발주방식",
      .str (if r.get "계약분류" = .str "표준단가" then "배량 후 발주" else "입찰(견적) 진행"))]
  reads := ["계약분류"]
  keys := ["발주방식"]

/-- The contract method and the fixed fields of a row as writes. -/
def contractStage (env : Env) (poMaterialKeys : List JSVal) : Stage where
  writes := fun r =>
    let target : JSVal := .bool (decide (r.get "자재번호_키" ∈ poMaterialKeys))
    let method : JSVal :=
      if r.get "계약분류" = .str "비표준단가" then .str "비표준단가계약"
      else if truthy target then .str "수의계약"
      else .str "지명경쟁"
    [("수의계약대상", target),
     ("계약방식", method),
     ("접수기간_일",
       .num (if r.get "PR생성형태" = .str "초긴급" ∨ r.get "PR생성형태" = .str "긴급" then 1
         else 3)),
     ("계약방식_선정사유",
       .str (if method = .str "지명경쟁" then REASON_DESIGNATED
         else if method = .str "수의계약" then REASON_PRIVATE else "")),
     ("미승인사유코드", .str "002_2"),
     ("미승인사유", .str "BULK 재료로서 생산 BOM에 의거 구매요청 발행"),
     ("기술평가대상",
       .str (if startsWith (toStr env (orElse (r.get "매칭업체코드") (.str ""))) "2" then "Y"
         else "N"))]
  reads := ["자재번호_키", "계약분류", "PR생성형태", "매칭업체코드"]
  keys := ["수의계약대상", "계약방식", "접수기간_일", "계약방식_선정사유", "미승인사유코드",
    "미승인사유", "기술평가대상"]

/-- The assignments of the default price as writes. -/
def defaultWrites : Writes :=
  [("입찰예정가", .num 1000000), ("예정가_산정방법", .str "기본값")]

/-- The branch of the estimator that tries the pricing collaborator, as writes and the
counter after it. -/
def externalWrites (env : Env) (llmCallCount idx : Nat) (qty : ℚ) : Writes × Nat :=
  if env.apiKey && decide (llmCallCount < 10) then
    if truthy (resultPrice (parseLLMJson env (callLLM env idx))) then
      ([("입찰예정가",
          ofNum (mathRound (dblOp mulD
            (jsParseFloat env (resultPrice (parseLLMJson env (callLLM env idx)))) (some qty)))),
        ("예정가_산정방법", .str "LLM 산정"),
        ("LLM응답", .object "[object Object]")], llmCallCount + 1)
    else (defaultWrites, llmCallCount)
  else (defaultWrites, llmCallCount)

/-- The branch of the estimator for a truthy `exactMatch`, as writes. -/
def exactWrites (env : Env) (exactMatch : Row) (qty : ℚ) : Writes :=
  [("입찰예정가",
     ofNum (mathRound (dblOp mulD
       (divD (floatOr env exactMatch "발주금액(KRW)-변환" 0) (floatOr env exactMatch "발주수량" 1))
       (some qty)))),
   ("예정가_산정방법", .str "자재+내역 일치"),
   ("최근발주단가",
     ofNum (divD (floatOr env exactMatch "발주금액(KRW)-변환" 0)
       (floatOr env exactMatch "발주수량" 1)))]

/-- The branch of the estimator for a non-empty array `poUnitPrices[key]`, as writes. -/
def groupWrites (prices : List JSNum) (qty : ℚ) : Writes :=
  [("입찰예정가",
     ofNum (mathRound (dblOp mulD
       (dblOp divD (prices.foldl (dblOp addD) (some 0)) (some (prices.length : ℚ)))
       (some qty)))),
   ("예정가_산정방법", .str "그룹 평균"),
   ("최근발주단가",
     ofNum (dblOp divD (prices.foldl (dblOp addD) (some 0)) (some (prices.length : ℚ))))]

/-- The body of the price estimation loop as a function of what it reads of the row: the
writes and the counter after it. -/
def estimateCore (env : Env) (poLookup : Dict Row) (poUnitPrices : Dict (List JSNum))
    (llmCallCount idx : Nat) (key : String) (qty : ℚ) (matchKey : String) :
    Except String (Writes × Nat) :=
  match findMatch poLookup matchKey with
  | some exactMatch => .ok (exactWrites env exactMatch qty, llmCallCount)
  | none =>
    match poUnitPrices.get key with
    | .own prices =>
      if prices.length > 0 then .ok (groupWrites prices qty, llmCallCount)
      else .ok (externalWrites env llmCallCount idx qty)
    | .inherited (some n) =>
      if n > 0 then .error "TypeError: poUnitPrices[key].reduce is not a function"
      else .ok (externalWrites env llmCallCount idx qty)
    | .inherited none => .ok (externalWrites env llmCallCount idx qty)
    | .absent => .ok (externalWrites env llmCallCount idx qty)

/-- The price estimation of the record at position `idx` as writes. -/
def estimateStage (env : Env) (poLookup : Dict Row) (poUnitPrices : Dict (List JSNum))
    (llmCallCount idx : Nat) : Stage where
  writes := fun r =>
    match estimateCore env poLookup poUnitPrices llmCallCount idx
        (toStr env (r.get "자재번호_키")) (floatOr env r "요청수량" 1)
        (compositeKey env r "내역") with
    | .ok (ws, _) => ws
    | .error _ => []
  reads := ["자재번호_키", "내역", "요청수량"]
  keys := ["입찰예정가", "예정가_산정방법", "최근발주단가", "LLM응답"]

/-- The properties the estimator writes, by branch. -/
def estimateShape (ws : Writes) : Prop :=
  ws.map Prod.fst = ["입찰예정가", "예정가_산정방법", "최근발주단가"] ∨
  ws.map Prod.fst = ["입찰예정가", "예정가_산정방법", "LLM응답"] ∨
  ws.map Prod.fst = ["입찰예정가", "예정가_산정방법"]

/-- The simulated quotation and its competitiveness for the record at position `idx`, as
writes. -/
def quoteStage (env : Env) (idx : Nat) : Stage where
  writes := fun r =>
    let row := quoteBase env idx r
    [("Mock_견적금액", row.get "Mock_견적금액"), ("견적단가", row.get "견적단가"),
     ("예정단가", row.get "예정단가")] ++
    (if jsLe env (row.get "견적단가") (row.get "예정단가") then
      [("견적경쟁력", .str "우수"), ("견적경쟁력_신호", .str "🟢")]
    else if jsLe env (row.get "견적단가")
        (orElse (row.get "최근발주단가") (row.get "예정단가")) then
      [("견적경쟁력", .str "보통"), ("견적경쟁력_신호", .str "🟡")]
    else [("견적경쟁력", .str "열위"), ("견적경쟁력_신호", .str "🔴")])
  reads := ["입찰예정가", "요청수량", "최근발주단가"]
  keys := ["Mock_견적금액", "견적단가", "예정단가", "견적경쟁력", "견적경쟁력_신호"]

/-- The appropriateness review of a row as writes. -/
def reviewStage (env : Env) : Stage where
  writes := fun r =>
    if r.get "계약방식" = .str "수의계약" then
      let changeRate := changeRateOf env r
      if numLe changeRate (some 15) then
        [("단가변동률", ofNum changeRate), ("수의계약_적정성", .str "적정"),
         ("HITL필요", .bool false), ("처리상태", .str "자동완료"), ("승인상태", .str "승인대기")]
      else
        [("단가변동률", ofNum changeRate), ("수의계약_적정성", .str "협상필요"),
         ("HITL필요", .bool true), ("처리상태", .str "검토필요"), ("승인상태", .str "검토대기")]
    else
      if isDumping env r then
        [("최저가_적정성", .str "덤핑의심"), ("HITL필요", .bool true),
         ("처리상태", .str "검토필요"), ("승인상태", .str "검토대기")]
      else if r.get "견적경쟁력" = .str "열위" then
        [("최저가_적정성", .str "검토필요"), ("HITL필요", .bool true),
         ("처리상태", .str "검토필요"), ("승인상태", .str "검토대기")]
      else
        [("최저가_적정성", .str "적정"), ("HITL필요", .bool false),
         ("처리상태", .str "자동완료"), ("승인상태", .str "승인대기")]
  reads := ["견적경쟁력", "견적단가", "예정단가", "계약방식", "최근발주단가"]
  keys := ["단가변동률", "수의계약_적정성", "HITL필요", "처리상태", "최저가_적정성", "승인상태"]

/-- The stages every row goes through. -/
def stagesHead (env : Env) : List Stage := [keyStage env, validateStage env]

/-- The stages a validated row goes through. -/
def stagesValid (env : Env) (poLookup : Dict Row) : List Stage :=
  stagesHead env ++ [classifyStage env, urgencyStage env, matchStage env poLookup]

/-- The stages of a record of `quotationData` after its order method is set: the record at
position `idx`, estimated with the counter at `llmCallCount`. -/
def stagesQuote (env : Env) (poLookup : Dict Row) (poMaterialKeys : List JSVal)
    (poUnitPrices : Dict (List JSNum)) (llmCallCount idx : Nat) : List Stage :=
  [contractStage env poMaterialKeys, estimateStage env poLookup poUnitPrices llmCallCount idx,
   quoteStage env idx, reviewStage env]

/-- All the stages of a record of `quotationData`. -/
def stagesFull (env : Env) (poLookup : Dict Row) (poMaterialKeys : List JSVal)
    (poUnitPrices : Dict (List JSNum)) (llmCallCount idx : Nat) : List Stage :=
  stagesValid env poLookup ++
    (orderStage :: stagesQuote env poLookup poMaterialKeys poUnitPrices llmCallCount idx)

/-- The properties of a validated row that the stages after supplier matching leave alone
and that a second run reads. -/
def keptColumns : List String :=
  ["계약분류", "긴급도", "PZAF여부", "자재번호_키", "요청수량"] ++ REQUIRED_COLUMNS

/-- What holds of the row `f` that a run leaves for the validated PR row `p`. -/
structure ValidFacts (env : Env) (lk : Dict Row) (p f : Row) : Prop where
  key : keyPR env f = f
  missing : missingColumns env f = missingColumns env (keyPR env p)
  validate : validateRow env f = f
  classify : classifyRow env f = f
  urgency : urgencyRow env f = f
  matching : matchRow env lk f = f
  contractClass :
    f.get "계약분류" = (classifyRow env (validateRow env (keyPR env p))).get "계약분류"
  tier :
    f.get "긴급도" =
      (urgencyRow env (classifyRow env (validateRow env (keyPR env p)))).get "긴급도"
  pzaf : f.get "PZAF여부" = (keyPR env p).get "PZAF여부"

/-- A validated PR row after supplier matching. -/
def matchedRow (env : Env) (poLookup : Dict Row) (p : Row) : Row :=
  matchRow env poLookup (urgencyRow env (classifyRow env (validateRow env (keyPR env p))))

/-- A record of `quotationData` when the price estimation starts, from its PR row. -/
def inputRow (env : Env) (poLookup : Dict Row) (poMaterialKeys : List JSVal) (p : Row) : Row :=
  contractMethodRow env poMaterialKeys (orderMethodRow (matchedRow env poLookup p))

/-- Whether a PR row reaches `quotationData`: it passes validation, is PZAF and is not of
class 표준단가. -/
def toQuotation (env : Env) (poLookup : Dict Row) (p : Row) : Bool :=
  decide (missingColumns env (keyPR env p) = []) &&
    (truthy ((matchedRow env poLookup p).get "PZAF여부") &&
      decide ((matchedRow env poLookup p).get "계약분류" ≠ .str "표준단가"))

/-- The rows of `globalState.prData` after a run that returned.  The rows are annotated in
place: a row that failed validation is left with its validation result, a validated row
that is not PZAF is left as matched, a PZAF row that does not go to quotation is left with
its order method, and a row of `quotationData` is left as the reviewed record (`reviewed`
holds the records after the appropriateness loop, in loop order). -/
def leftBy (env : Env) (poLookup : Dict Row) : List Row → List Row → List Row
  | [], _ => []
  | p :: rest, reviewed =>
    if (missingColumns env (keyPR env p)).length > 0 then
      validateRow env (keyPR env p) :: leftBy env poLookup rest reviewed
    else if truthy ((matchedRow env poLookup p).get "PZAF여부") then
      if (orderMethodRow (matchedRow env poLookup p)).get "발주방식" = .str "입찰(견적) 진행" then
        match reviewed with
        | r :: reviewed => r :: leftBy env poLookup rest reviewed
        | [] => orderMethodRow (matchedRow env poLookup p) :: leftBy env poLookup rest []
      else orderMethodRow (matchedRow env poLookup p) :: leftBy env poLookup rest reviewed
    else matchedRow env poLookup p :: leftBy env poLookup rest reviewed

/-- The rows of `globalState.prData` as a run leaves them, when it returns. -/
def leftRows (env : Env) (prData poHistory : List Row) : Except String (List Row) :=
  match groupInvalid env (validate env (prData.map (keyPR env))).2 with
  | .error e => .error e
  | .ok _ =>
    match estimation env prData poHistory with
    | .error e => .error e
    | .ok (quotationData, _) =>
      .ok (leftBy env (lookupIndex env poHistory) prData
        ((quoteLoop env 0 quotationData).map (reviewRow env)))

/-- How the row `f` that a run leaves relates to its PR row `p`. -/
def LeftRel (env : Env) (lk : Dict Row) (p f : Row) : Prop :=
  (missingColumns env (keyPR env p) ≠ [] ∧ f = validateRow env (keyPR env p)) ∨
  (missingColumns env (keyPR env p) = [] ∧ ValidFacts env lk p f)

/-- The test that selects `quotationData` among the rows a run left. -/
def selected (env : Env) (f : Row) : Bool :=
  decide (missingColumns env f = []) &&
    (truthy (f.get "PZAF여부") && decide (f.get "계약분류" ≠ .str "표준단가"))

/-- Three PR rows: one that goes to quotation, one that is validated and not PZAF, and one
that fails validation. -/
def threeRows : List Row := [boltRow, otherRow, zeroLeadRow]

/-- The result of the run on `threeRows` with the PO history `boltOrder`. -/
def threeRun : Result :=
  match processAgent quietEnv threeRows [boltOrder] with
  | .ok res => res
  | .error _ => ⟨⟨0, 0, 0, 0, 0, 0, ⟨0, 0, 0⟩, 0⟩, [], []⟩

/-- The rows the run on `threeRows` leaves. -/
def threeLeft : List Row :=
  match leftRows quietEnv threeRows [boltOrder] with
  | .ok rows => rows
  | .error _ => []

/-- The change rate `((q / P) - 1) * 100` on doubles. -/
def changeOf (q P : ℚ) : JSNum :=
  dblOp mulD (dblOp subD (divD q P) (some 1)) (some 100)

/-- A PO row for the material `AB1234`, description `BOLT`: 6 units for 13. -/
def thirteenOrder : Row :=
  [("자재번호", .str "S001AB1234"), ("자재내역", .str "BOLT"), ("발주수량", .num 6),
   ("발주금액(KRW)-변환", .num 13), ("업체코드", .str "200123"), ("업체명", .str "ACME")]

/-- The row `boltRow` with 27 units requested. -/
def bulkRow : Row := boltRow.set "요청수량" (.num 27)

/-- The result of the run on `bulkRow` with the PO history `thirteenOrder`. -/
def roundedRun : Result :=
  match processAgent quietEnv [bulkRow] [thirteenOrder] with
  | .ok res => res
  | .error _ => ⟨⟨0, 0, 0, 0, 0, 0, ⟨0, 0, 0⟩, 0⟩, [], []⟩

/-- The record the run `roundedRun` returns. -/
def roundedRecord : Row := roundedRun.quotationData.headD []

/-- A PO row of the material `AB1234`, description `NUT`: 1 unit for 1. -/
def unitOrder : Row :=
  [("자재번호", .str "S002AB1234"), ("자재내역", .str "NUT"), ("발주수량", .num 1),
   ("발주금액(KRW)-변환", .num 1), ("업체코드", .str "100555"), ("업체명", .str "NUTCO")]

/-- A PO row of the material `AB1234`, description `WASHER`: 3 units for 2. -/
def thirdsOrder : Row :=
  [("자재번호", .str "S003AB1234"), ("자재내역", .str "WASHER"), ("발주수량", .num 3),
   ("발주금액(KRW)-변환", .num 2), ("업체코드", .str "100556"), ("업체명", .str "WASHCO")]

/-- The row `boltRow` with 9 units requested. -/
def nineRow : Row := boltRow.set "요청수량" (.num 9)

/-- The result of the run on `nineRow` with the PO history `unitOrder`, `thirdsOrder`. -/
def meanRun : Result :=
  match processAgent quietEnv [nineRow] [unitOrder, thirdsOrder] with
  | .ok res => res
  | .error _ => ⟨⟨0, 0, 0, 0, 0, 0, ⟨0, 0, 0⟩, 0⟩, [], []⟩

/-- The record the run `meanRun` returns. -/
def meanRecord : Row := meanRun.quotationData.headD []

/-- An environment with an API key whose collaborator answers every call with the bare
object holding the price 1.005. -/
def decimalEnv : Env :=
  demoEnv true (fun _ => some "\x7b\"예정단가\": 1.005\x7d") (fun _ => 0)

/-- The row `boltRow` with 100 units requested. -/
def centRow : Row := boltRow.set "요청수량" (.num 100)

/-- The estimation of the run on `centRow` without PO history, the collaborator answering
1.005. -/
def decimalEstimates : List Row × Nat :=
  match estimation decimalEnv [centRow] [] with
  | .ok p => p
  | .error _ => ([], 0)

/-- An environment without API key whose random source always gives 1 / 2, so that the
multiplier `0.8 + 0.5 * 0.4` is 1. -/
def halfEnv : Env := demoEnv false (fun _ => none) (fun _ => 1 / 2)

/-- A PO row for the material `AB1234`, description `BOLT`: 23 units for 20. -/
def twentyOrder : Row :=
  [("자재번호", .str "S001AB1234"), ("자재내역", .str "BOLT"), ("발주수량", .num 23),
   ("발주금액(KRW)-변환", .num 20), ("업체코드", .str "200123"), ("업체명", .str "ACME")]

/-- The row `boltRow` with 1 unit requested. -/
def unitRow : Row := boltRow.set "요청수량" (.num 1)

/-- The result of the run on `unitRow` with the PO history `twentyOrder` in `halfEnv`. -/
def halfRun : Result :=
  match processAgent halfEnv [unitRow] [twentyOrder] with
  | .ok res => res
  | .error _ => ⟨⟨0, 0, 0, 0, 0, 0, ⟨0, 0, 0⟩, 0⟩, [], []⟩

/-- The record the run `halfRun` returns. -/
def halfRecord : Row := halfRun.quotationData.headD []

/-- A 수의계약 row as it enters the appropriateness loop, quoted at 115 against the
reference price 100. -/
def boundaryExample : Row :=
  [("계약방식", .str "수의계약"), ("견적단가", .num 115), ("예정단가", .num 100),
   ("최근발주단가", .num 100), ("견적경쟁력", .str "열위")]

/-- A 수의계약 row as it enters the appropriateness loop, quoted at the double 1862.77
against the reference price 1619.8 (a double). -/
def narrowExample : Row :=
  [("계약방식", .str "수의계약"), ("견적단가", .num (4096274549744599 / 2199023255552)),
   ("예정단가", .num (7123955738686259 / 4398046511104)),
   ("최근발주단가", .num (7123955738686259 / 4398046511104)), ("견적경쟁력", .str "열위")]

/-- A PO row for the material `AB1234`, description `BOLT`: 2 units for 1. -/
def halfOrder : Row :=
  [("자재번호", .str "S001AB1234"), ("자재내역", .str "BOLT"), ("발주수량", .num 2),
   ("발주금액(KRW)-변환", .num 1), ("업체코드", .str "200123"), ("업체명", .str "ACME")]

/-- A PO row of the material `AB1234`, description `NUT`: 2 units for 1. -/
def halfNutOrder : Row :=
  [("자재번호", .str "S002AB1234"), ("자재내역", .str "NUT"), ("발주수량", .num 2),
   ("발주금액(KRW)-변환", .num 1), ("업체코드", .str "100555"), ("업체명", .str "NUTCO")]

/-- The row `zeroLeadRow`, which fails validation, with the requester `constructor`. -/
def namedRow : Row := zeroLeadRow.set "구매요청자" (.str "constructor")

/-! ## Rows: reading after writing -/

theorem Row.get_cons (k0 : String) (v0 : JSVal) (rest : Row) (k : String) :
    Row.get ((k0, v0) :: rest) k = if k = k0 then v0 else Row.get rest k := by
  by_cases h : k = k0
  · have hb : (k == k0) = true := by simpa using h
    simp [Row.get, List.lookup, hb, h]
  · have hb : (k == k0) = false := by simpa using h
    simp [Row.get, List.lookup, hb, h]

theorem Row.get_nil (k : String) : Row.get [] k = .undefined := rfl

@[simp] theorem Row.get_set (r : Row) (k k' : String) (v : JSVal) :
    (r.set k v).get k' = if k' = k then v else r.get k' := by
  induction r with
  | nil => simp [Row.set, Row.get_cons, Row.get_nil]
  | cons p rest ih =>
    obtain ⟨k0, v0⟩ := p
    by_cases h0 : k0 = k
    · subst h0
      by_cases h1 : k' = k0 <;> simp [Row.set, Row.get_cons, h1]
    · simp only [Row.set, h0, if_false, Row.get_cons, ih]
      by_cases h1 : k' = k0
      · have : k' ≠ k := by rw [h1]; exact h0
        simp [h1, h0]
      · simp [h1]

theorem classifyRow_get (env : Env) (row : Row) (k : String) (hk : k ≠ "계약분류") :
    (classifyRow env row).get k = row.get k := by
  unfold classifyRow
  simp only []
  split_ifs <;> simp [hk]

theorem classifyRow_class (env : Env) (row : Row) :
    (classifyRow env row).get "계약분류" =
      .str (if hasValue env (row.get "단가계약번호") then
        (if hasValue env (row.get "자동배량그룹") then "표준단가" else "비표준단가") else "NA") := by
  unfold classifyRow
  cases hasValue env (row.get "단가계약번호") <;> cases hasValue env (row.get "자동배량그룹") <;> simp


/-! ## Validation, classification, urgency: lemmas -/

theorem validate_fst (env : Env) (rows : List Row) :
    (validate env rows).1 =
      (rows.filter (fun r => decide (missingColumns env r = []))).map (validateRow env) := by
  induction rows with
  | nil => rfl
  | cons r rest ih =>
    by_cases h : missingColumns env r = []
    · simp [validate, h, ih]
    · have : 0 < (missingColumns env r).length := List.length_pos.mpr h
      simp [validate, h, ih, this]

theorem validate_snd (env : Env) (rows : List Row) :
    (validate env rows).2 =
      (rows.filter (fun r => !decide (missingColumns env r = []))).map (validateRow env) := by
  induction rows with
  | nil => rfl
  | cons r rest ih =>
    by_cases h : missingColumns env r = []
    · simp [validate, h, ih]
    · have : 0 < (missingColumns env r).length := List.length_pos.mpr h
      simp [validate, h, ih, this]

theorem mem_classified (env : Env) (prData : List Row) (r : Row) :
    r ∈ classified env prData ↔
      ∃ p ∈ prData, missingColumns env (keyPR env p) = [] ∧
        r = classifyRow env (validateRow env (keyPR env p)) := by
  simp only [classified, validate_fst, List.mem_map, List.mem_filter, decide_eq_true_eq]
  constructor
  · rintro ⟨w, ⟨v, ⟨⟨p, hp, rfl⟩, hv⟩, rfl⟩, rfl⟩
    exact ⟨p, hp, hv, rfl⟩
  · rintro ⟨p, hp, hv, rfl⟩
    exact ⟨_, ⟨_, ⟨⟨p, hp, rfl⟩, hv⟩, rfl⟩, rfl⟩

/-- C9 (counterexample): a validated row whose contract number is the number 0, string form
"0", is classified NA although its contract number is non-empty after trimming. -/
theorem contract_number_zero_is_na :
    (classified quietEnv [zeroContractRow]).map
        (fun r => (r.get "단가계약번호", trim (toStr quietEnv (r.get "단가계약번호")),
          r.get "계약분류")) =
      [(.num 0, "0", .str "NA")] := by
  decide!

/-- C9 (amended): every validated row gets exactly one classification: 표준단가 iff both
the contract number and the auto-allocation group are truthy and non-empty after trimming,
비표준단가 iff only the contract number is, NA iff the contract number is not; and every
validated row is classified. -/
theorem contract_classification (env : Env) (prData : List Row) (r : Row)
    (h : r ∈ classified env prData) :
    (r.get "계약분류" = .str "표준단가" ↔
      hasValue env (r.get "단가계약번호") = true ∧ hasValue env (r.get "자동배량그룹") = true) ∧
    (r.get "계약분류" = .str "비표준단가" ↔
      hasValue env (r.get "단가계약번호") = true ∧ hasValue env (r.get "자동배량그룹") = false) ∧
    (r.get "계약분류" = .str "NA" ↔ hasValue env (r.get "단가계약번호") = false) ∧
    (classified env prData).length = (validate env (prData.map (keyPR env))).1.length := by
  obtain ⟨p, -, -, rfl⟩ := (mem_classified env prData r).mp h
  refine ⟨?_, ?_, ?_, by simp [classified]⟩
  all_goals
    simp only [classifyRow_class, classifyRow_get _ _ "단가계약번호" (by decide),
      classifyRow_get _ _ "자동배량그룹" (by decide)]
    cases hasValue env ((validateRow env (keyPR env p)).get "단가계약번호") <;>
      cases hasValue env ((validateRow env (keyPR env p)).get "자동배량그룹") <;> simp

theorem contract_classification_witness :
    (classifyRow quietEnv (validateRow quietEnv (keyPR quietEnv zeroContractRow))).get "계약분류"
      = .str "NA" :=
  ((contract_classification quietEnv [zeroContractRow] _ (by decide!)).2.2.1).mpr (by decide!)

theorem toNumber_ofNum (env : Env) (x : JSNum) : toNumber env (ofNum x) = x := by
  cases x <;> rfl

theorem ceilDiv_eq_ceil (x d : ℤ) (hd : 0 < d) : ceilDiv x d = ⌈((x : ℚ) / (d : ℚ))⌉ := by
  unfold ceilDiv
  have h : ⌊((-x : ℤ) : ℚ) / (d : ℚ)⌋ = (-x) / d := by
    have := Rat.floor_intCast_div_natCast (-x) d.toNat
    rw [show ((d.toNat : ℕ) : ℤ) = d from Int.toNat_of_nonneg hd.le] at this
    rw [← this]
    congr 2
    have : ((d.toNat : ℕ) : ℤ) = d := Int.toNat_of_nonneg hd.le
    exact_mod_cast this.symm
  rw [← h, Int.cast_neg, neg_div, Int.floor_neg, neg_neg]

theorem keyPR_get (env : Env) (row : Row) (k : String) (h1 : k ≠ "자재번호_키")
    (h2 : k ≠ "PZAF여부") : (keyPR env row).get k = row.get k := by
  simp [keyPR, h1, h2]

theorem validateRow_get (env : Env) (row : Row) (k : String) (h1 : k ≠ "누락항목")
    (h2 : k ≠ "검증결과") : (validateRow env row).get k = row.get k := by
  unfold validateRow
  simp only []
  split_ifs <;> simp [h1, h2]

theorem urgencyRow_get (env : Env) (row : Row) (k : String) (h1 : k ≠ "납기까지일수")
    (h2 : k ≠ "실제잔여일수") (h3 : k ≠ "긴급도") (h4 : k ≠ "긴급도_신호") :
    (urgencyRow env row).get k = row.get k := by
  unfold urgencyRow
  simp only []
  split_ifs <;> simp [h1, h2, h3, h4]

/-- The days until the deadline and the remaining days of a row, as `urgencyRow` computes them
for a deadline with time value `d`. -/
theorem urgencyRow_spec (env : Env) (row : Row) (d : ℤ)
    (ht : truthy (row.get "PR납기일") = true) (hd : newDate env (row.get "PR납기일") = some d) :
    let days : ℤ := ceilDiv (d - SIMULATION_DATE) msPerDay
    let rem : ℤ := days - intOr (jsParseInt env (row.get "LEAD_TIME")) 0
    (urgencyRow env row).get "납기까지일수" = .num days ∧
    (urgencyRow env row).get "실제잔여일수" = .num rem ∧
    (urgencyRow env row).get "긴급도" =
      .str (if rem ≤ 2 then "긴급" else if rem ≤ 5 then "일반" else "여유") ∧
    (urgencyRow env row).get "긴급도_신호" =
      .str (if rem ≤ 2 then "🔴" else if rem ≤ 5 then "🟡" else "🟢") := by
  intro days rem
  have h2 : ((rem : ℤ) : ℚ) ≤ 2 ↔ rem ≤ 2 := by exact_mod_cast Iff.rfl
  have h5 : ((rem : ℤ) : ℚ) ≤ 5 ↔ rem ≤ 5 := by exact_mod_cast Iff.rfl
  have hrem : ((days : ℤ) : ℚ) - ((intOr (jsParseInt env (row.get "LEAD_TIME")) 0 : ℤ) : ℚ)
      = ((rem : ℤ) : ℚ) := by simp [rem]
  unfold urgencyRow
  simp only [ht, if_true, calculateDaysDiff, hd, Bool.not_true, Bool.false_eq_true, if_false,
    Row.get_set, toNumber, numOp, ofNum, numLe, URGENCY_URGENT, URGENCY_NORMAL, hrem,
    decide_eq_true_eq, h2, h5]
  by_cases c2 : rem ≤ 2
  · simp [c2, days, rem]
  · by_cases c5 : rem ≤ 5
    · simp [c2, c5, days, rem]
    · simp [c2, c5, days, rem]

theorem valid_column (env : Env) (row : Row) (col : String)
    (hv : missingColumns env row = []) (hc : col ∈ REQUIRED_COLUMNS) :
    truthy (row.get col) = true ∧ trim (toStr env (row.get col)) ≠ "" := by
  have h := (List.filter_eq_nil_iff.mp hv) col hc
  simpa [isMissing] using h

theorem mem_scored (env : Env) (prData : List Row) (r : Row) :
    r ∈ scored env prData ↔
      ∃ p ∈ prData, missingColumns env (keyPR env p) = [] ∧
        r = urgencyRow env (classifyRow env (validateRow env (keyPR env p))) := by
  simp only [scored, List.mem_map, mem_classified]
  constructor
  · rintro ⟨w, ⟨p, hp, hv, rfl⟩, rfl⟩
    exact ⟨p, hp, hv, rfl⟩
  · rintro ⟨p, hp, hv, rfl⟩
    exact ⟨_, ⟨p, hp, hv, rfl⟩, rfl⟩

/-- The urgency fields of a scored row with a valid deadline. -/
theorem scored_spec (env : Env) (prData : List Row) (r : Row) (d : ℤ)
    (h : r ∈ scored env prData) (hd : newDate env (r.get "PR납기일") = some d) :
    r.get "납기까지일수" = .num (ceilDiv (d - SIMULATION_DATE) msPerDay : ℤ) ∧
    r.get "실제잔여일수" = .num (ceilDiv (d - SIMULATION_DATE) msPerDay
      - intOr (jsParseInt env (r.get "LEAD_TIME")) 0 : ℤ) ∧
    r.get "긴급도" = .str (if ceilDiv (d - SIMULATION_DATE) msPerDay
        - intOr (jsParseInt env (r.get "LEAD_TIME")) 0 ≤ 2 then "긴급"
      else if ceilDiv (d - SIMULATION_DATE) msPerDay
        - intOr (jsParseInt env (r.get "LEAD_TIME")) 0 ≤ 5 then "일반" else "여유") ∧
    r.get "긴급도_신호" = .str (if ceilDiv (d - SIMULATION_DATE) msPerDay
        - intOr (jsParseInt env (r.get "LEAD_TIME")) 0 ≤ 2 then "🔴"
      else if ceilDiv (d - SIMULATION_DATE) msPerDay
        - intOr (jsParseInt env (r.get "LEAD_TIME")) 0 ≤ 5 then "🟡" else "🟢") := by
  obtain ⟨p, -, hv, rfl⟩ := (mem_scored env prData r).mp h
  have hk : ∀ k : String, k ≠ "납기까지일수" → k ≠ "실제잔여일수" → k ≠ "긴급도" →
      k ≠ "긴급도_신호" → k ≠ "계약분류" → k ≠ "누락항목" → k ≠ "검증결과" →
      (urgencyRow env (classifyRow env (validateRow env (keyPR env p)))).get k =
        (classifyRow env (validateRow env (keyPR env p))).get k := by
    intro k a1 a2 a3 a4 _ _ _
    exact urgencyRow_get env _ k a1 a2 a3 a4
  have hdead := hk "PR납기일" (by decide) (by decide) (by decide) (by decide) (by decide)
    (by decide) (by decide)
  have hlead := hk "LEAD_TIME" (by decide) (by decide) (by decide) (by decide) (by decide)
    (by decide) (by decide)
  have ht : truthy ((classifyRow env (validateRow env (keyPR env p))).get "PR납기일") = true := by
    rw [classifyRow_get _ _ _ (by decide), validateRow_get _ _ _ (by decide) (by decide)]
    exact (valid_column env _ "PR납기일" hv (by decide)).1
  rw [hdead] at hd
  rw [hlead]
  exact urgencyRow_spec env _ d ht hd

/-- C7: for a validated record whose required-by date has time value `D`, with lead time
`L = parseInt(LEAD_TIME) || 0`: the days until the deadline are `⌈(D - 2026-01-01) / 1 day⌉`,
the remaining days are that minus `L`, and the tier is 긴급 (🔴) iff remaining ≤ 2, 일반 (🟡)
iff 3 ≤ remaining ≤ 5, 여유 (🟢) iff remaining ≥ 6. -/

theorem urgency_tier (env : Env) (prData : List Row) (r : Row) (D : ℤ)
    (h : r ∈ scored env prData) (hD : newDate env (r.get "PR납기일") = some D) :
    ∃ days remaining : ℤ,
      days = ⌈((D - SIMULATION_DATE : ℤ) : ℚ) / ((msPerDay : ℤ) : ℚ)⌉ ∧
      remaining = days - intOr (jsParseInt env (r.get "LEAD_TIME")) 0 ∧
      r.get "납기까지일수" = .num days ∧
      r.get "실제잔여일수" = .num remaining ∧
      (r.get "긴급도" = .str "긴급" ↔ remaining ≤ 2) ∧
      (r.get "긴급도" = .str "일반" ↔ 3 ≤ remaining ∧ remaining ≤ 5) ∧
      (r.get "긴급도" = .str "여유" ↔ 6 ≤ remaining) ∧
      (r.get "긴급도_신호" = .str "🔴" ↔ remaining ≤ 2) ∧
      (r.get "긴급도_신호" = .str "🟡" ↔ 3 ≤ remaining ∧ remaining ≤ 5) ∧
      (r.get "긴급도_신호" = .str "🟢" ↔ 6 ≤ remaining) := by
  obtain ⟨h1, h2, h3, h4⟩ := scored_spec env prData r D h hD
  refine ⟨ceilDiv (D - SIMULATION_DATE) msPerDay,
    ceilDiv (D - SIMULATION_DATE) msPerDay - intOr (jsParseInt env (r.get "LEAD_TIME")) 0,
    ceilDiv_eq_ceil _ _ (by decide), rfl, h1, h2, ?_⟩
  rw [h3, h4]
  generalize ceilDiv (D - SIMULATION_DATE) msPerDay
    - intOr (jsParseInt env (r.get "LEAD_TIME")) 0 = rem
  by_cases c2 : rem ≤ 2
  · simp [c2]; omega
  · by_cases c5 : rem ≤ 5
    · simp [c2, c5]; omega
    · simp [c2, c5]; omega

theorem urgency_tier_witness :
    scoredBolt ∈ scored quietEnv [boltRow] ∧
    newDate quietEnv (scoredBolt.get "PR납기일") = some 1768003200000 ∧
    scoredBolt.get "긴급도" = .str "여유" := by
  refine ⟨by decide!, by decide!, ?_⟩
  obtain ⟨days, remaining, -, -, -, hrem, -, -, h, -⟩ :=
    urgency_tier quietEnv [boltRow] scoredBolt 1768003200000 (by decide!) (by decide!)
  have h6 : scoredBolt.get "실제잔여일수" = .num ((6 : ℤ) : ℚ) := by decide!
  rw [h6] at hrem
  have : (6 : ℤ) = remaining := by exact_mod_cast JSVal.num.inj hrem
  exact h.mpr (by omega)

theorem ceilDiv_mono (x y d : ℤ) (hd : 0 < d) (h : x ≤ y) : ceilDiv x d ≤ ceilDiv y d := by
  unfold ceilDiv
  have := Int.ediv_le_ediv hd (neg_le_neg h)
  omega

theorem severity_tier (a b : Prop) [Decidable a] [Decidable b] :
    severity (.str (if a then "긴급" else if b then "일반" else "여유")) =
      if a then 2 else if b then 1 else 0 := by
  by_cases ha : a
  · simp only [ha, if_true]; decide
  · by_cases hb : b
    · simp only [ha, hb, if_true, if_false]; decide
    · simp only [ha, hb, if_false]; decide

/-- C8: for the same lead time, a validated record with the earlier required-by date is at
least as severe as one with the later date (여유 < 일반 < 긴급). -/

theorem urgency_monotone (env : Env) (prData₁ prData₂ : List Row) (r₁ r₂ : Row) (D₁ D₂ : ℤ)
    (h₁ : r₁ ∈ scored env prData₁) (h₂ : r₂ ∈ scored env prData₂)
    (hL : r₁.get "LEAD_TIME" = r₂.get "LEAD_TIME")
    (hD₁ : newDate env (r₁.get "PR납기일") = some D₁)
    (hD₂ : newDate env (r₂.get "PR납기일") = some D₂) (hle : D₁ ≤ D₂) :
    severity (r₂.get "긴급도") ≤ severity (r₁.get "긴급도") := by
  obtain ⟨-, -, t₁, -⟩ := scored_spec env prData₁ r₁ D₁ h₁ hD₁
  obtain ⟨-, -, t₂, -⟩ := scored_spec env prData₂ r₂ D₂ h₂ hD₂
  have hm := ceilDiv_mono (D₁ - SIMULATION_DATE) (D₂ - SIMULATION_DATE) msPerDay (by decide)
    (by omega)
  rw [t₁, t₂, hL]
  generalize intOr (jsParseInt env (r₂.get "LEAD_TIME")) 0 = L
  generalize ceilDiv (D₁ - SIMULATION_DATE) msPerDay = a at hm
  generalize ceilDiv (D₂ - SIMULATION_DATE) msPerDay = b at hm
  rw [severity_tier, severity_tier]
  split_ifs <;> omega

theorem urgency_monotone_witness :
    scoredEarly.get "긴급도" = .str "긴급" ∧ scoredBolt.get "긴급도" = .str "여유" ∧
    severity (scoredBolt.get "긴급도") ≤ severity (scoredEarly.get "긴급도") :=
  ⟨by decide!, by decide!,
    urgency_monotone quietEnv [earlyRow] [boltRow] scoredEarly scoredBolt
      1767484800000 1768003200000 (by decide!) (by decide!) (by decide!) (by decide!)
      (by decide!) (by decide)⟩

/-- C5 (failing input): a row with every required column filled and the number 0, string
form "0", as lead time is rejected, with LEAD_TIME listed as missing. -/
theorem zero_lead_time_rejected :
    (invalidOf (processAgent quietEnv [zeroLeadRow] [])).map
        (fun r => (r.get "LEAD_TIME", trim (toStr quietEnv (r.get "LEAD_TIME")),
          r.get "검증결과", r.get "누락항목")) =
      [(.num 0, "0", .str "FAIL", .str "LEAD_TIME")] ∧
    quotationOf (processAgent quietEnv [zeroLeadRow] []) = [] := by
  decide!

/-- C4 (failing input): with a 일반 row loaded before a 긴급 row, the returned quotation set
still has the 일반 record first: the rank of a 긴급 row is 1, as for a 일반 row. -/
theorem sort_leaves_normal_before_urgent :
    (quotationOf (processAgent quietEnv [normalRow, earlyRow] [])).map
        (fun r => (r.get "구매요청", r.get "긴급도")) =
      [(.str "PR-N", .str "일반"), (.str "PR-1", .str "긴급")] ∧
    urgencyRank quietEnv scoredEarly = some 1 := by
  decide!

theorem matchRow_get (env : Env) (lk : Dict Row) (row : Row) (k : String)
    (h1 : k ≠ "매칭업체코드") (h2 : k ≠ "매칭업체명") (h3 : k ≠ "매칭발주수량")
    (h4 : k ≠ "매칭발주금액") (h5 : k ≠ "매칭_발주중량") (h6 : k ≠ "업체매칭여부") :
    (matchRow env lk row).get k = row.get k := by
  unfold matchRow
  simp only []
  split <;> simp [h1, h2, h3, h4, h5, h6]

theorem orderMethodRow_get (row : Row) (k : String) (h1 : k ≠ "발주방식") :
    (orderMethodRow row).get k = row.get k := by
  simp [orderMethodRow, h1]

theorem contractMethodRow_get (env : Env) (keys : List JSVal) (row : Row) (k : String)
    (h1 : k ≠ "수의계약대상") (h2 : k ≠ "계약방식") (h3 : k ≠ "접수기간_일")
    (h4 : k ≠ "계약방식_선정사유") (h5 : k ≠ "미승인사유코드") (h6 : k ≠ "미승인사유")
    (h7 : k ≠ "기술평가대상") : (contractMethodRow env keys row).get k = row.get k := by
  unfold contractMethodRow
  simp only []
  split_ifs <;> simp [h1, h2, h3, h4, h5, h6, h7]

theorem defaultPrice_get (row : Row) (k : String) (h1 : k ≠ "입찰예정가")
    (h2 : k ≠ "예정가_산정방법") : (defaultPrice row).get k = row.get k := by
  simp [defaultPrice, h1, h2]

theorem estimateExternal_get (env : Env) (c idx : Nat) (qty : ℚ) (row : Row) (k : String)
    (h1 : k ≠ "입찰예정가") (h2 : k ≠ "예정가_산정방법") (h3 : k ≠ "LLM응답") :
    (estimateExternal env c idx qty row).1.get k = row.get k := by
  unfold estimateExternal
  simp only []
  split_ifs <;> simp [defaultPrice, h1, h2, h3]

/-- The three ways in which the body of the estimation loop returns. -/
theorem estimateRow_cases (env : Env) (lk : Dict Row) (pr : Dict (List JSNum)) (c idx : Nat)
    (row e : Row) (c' : Nat) (h : estimateRow env lk pr c idx row = .ok (e, c')) :
    (∃ m, findMatch lk (compositeKey env row "내역") = some m ∧
      e = exactPrice env m (floatOr env row "요청수량" 1) row ∧ c' = c) ∨
    (findMatch lk (compositeKey env row "내역") = none ∧
      ∃ prices, pr.get (toStr env (row.get "자재번호_키")) = .own prices ∧ prices ≠ [] ∧
        e = groupPrice prices (floatOr env row "요청수량" 1) row ∧ c' = c) ∨
    (findMatch lk (compositeKey env row "내역") = none ∧
      hasGroup pr (toStr env (row.get "자재번호_키")) = false ∧
      estimateExternal env c idx (floatOr env row "요청수량" 1) row = (e, c')) := by
  unfold estimateRow at h
  simp only [] at h
  cases hm : findMatch lk (compositeKey env row "내역") with
  | some m =>
    rw [hm] at h
    simp only [Except.ok.injEq, Prod.mk.injEq] at h
    exact Or.inl ⟨m, rfl, h.1.symm, h.2.symm⟩
  | none =>
    rw [hm] at h
    simp only [] at h
    cases hp : pr.get (toStr env (row.get "자재번호_키")) with
    | own prices =>
      rw [hp] at h
      simp only [] at h
      by_cases hl : prices.length > 0
      · simp only [hl, if_true, Except.ok.injEq, Prod.mk.injEq] at h
        exact Or.inr (Or.inl ⟨rfl, prices, rfl, List.length_pos.mp hl, h.1.symm, h.2.symm⟩)
      · simp only [hl, if_false, Except.ok.injEq] at h
        refine Or.inr (Or.inr ⟨rfl, ?_, h⟩)
        have : prices = [] := by
          cases prices with
          | nil => rfl
          | cons a t => simp at hl
        simp [hasGroup, hp, this]
    | inherited n =>
      rw [hp] at h
      have hng : hasGroup pr (toStr env (row.get "자재번호_키")) = false := by
        simp [hasGroup, hp]
      cases n with
      | none =>
        simp only [Except.ok.injEq] at h
        exact Or.inr (Or.inr ⟨rfl, hng, h⟩)
      | some n =>
        simp only [] at h
        by_cases hn : n > 0
        · simp [hn] at h
        · simp only [hn, if_false, Except.ok.injEq] at h
          exact Or.inr (Or.inr ⟨rfl, hng, h⟩)
    | absent =>
      rw [hp] at h
      simp only [Except.ok.injEq] at h
      refine Or.inr (Or.inr ⟨rfl, ?_, h⟩)
      simp [hasGroup, hp]

theorem exactPrice_get (env : Env) (m : Row) (qty : ℚ) (row : Row) (k : String)
    (h1 : k ≠ "입찰예정가") (h2 : k ≠ "예정가_산정방법") (h4 : k ≠ "최근발주단가") :
    (exactPrice env m qty row).get k = row.get k := by
  simp [exactPrice, h1, h2, h4]

theorem groupPrice_get (prices : List JSNum) (qty : ℚ) (row : Row) (k : String)
    (h1 : k ≠ "입찰예정가") (h2 : k ≠ "예정가_산정방법") (h4 : k ≠ "최근발주단가") :
    (groupPrice prices qty row).get k = row.get k := by
  simp [groupPrice, h1, h2, h4]

theorem estimateRow_get (env : Env) (lk : Dict Row) (pr : Dict (List JSNum)) (c idx : Nat)
    (row e : Row) (c' : Nat) (k : String) (h : estimateRow env lk pr c idx row = .ok (e, c'))
    (h1 : k ≠ "입찰예정가") (h2 : k ≠ "예정가_산정방법") (h3 : k ≠ "LLM응답")
    (h4 : k ≠ "최근발주단가") : e.get k = row.get k := by
  rcases estimateRow_cases env lk pr c idx row e c' h with
    ⟨m, -, rfl, -⟩ | ⟨-, prices, -, -, rfl, -⟩ | ⟨-, -, hx⟩
  · exact exactPrice_get env m _ row k h1 h2 h4
  · exact groupPrice_get prices _ row k h1 h2 h4
  · have := estimateExternal_get env c idx (floatOr env row "요청수량" 1) row k h1 h2 h3
    rw [hx] at this
    exact this

theorem quoteRow_get (env : Env) (idx : Nat) (row : Row) (k : String)
    (h1 : k ≠ "Mock_견적금액") (h2 : k ≠ "견적단가") (h3 : k ≠ "예정단가")
    (h4 : k ≠ "견적경쟁력") (h5 : k ≠ "견적경쟁력_신호") :
    (quoteRow env idx row).get k = row.get k := by
  unfold quoteRow
  simp only []
  split_ifs <;> simp [h1, h2, h3, h4, h5]

theorem reviewRow_get (env : Env) (row : Row) (k : String)
    (h1 : k ≠ "단가변동률") (h2 : k ≠ "수의계약_적정성") (h3 : k ≠ "HITL필요")
    (h4 : k ≠ "처리상태") (h5 : k ≠ "최저가_적정성") (h6 : k ≠ "승인상태") :
    (reviewRow env row).get k = row.get k := by
  unfold reviewRow
  simp only []
  split_ifs <;> simp [h1, h2, h3, h4, h5, h6]

theorem countOf_cons (r : Row) (rows : List Row) (col text : String) :
    countOf (r :: rows) col text =
      (if r.get col = .str text then 1 else 0) + countOf rows col text := by
  unfold countOf
  by_cases h : r.get col = .str text
  · simp [h, List.filter_cons]; omega
  · simp [h, List.filter_cons]

theorem countOf_nil (col text : String) : countOf [] col text = 0 := rfl

theorem estimateExternal_tag (env : Env) (c idx : Nat) (qty : ℚ) (row : Row) :
    ((estimateExternal env c idx qty row).1.get "예정가_산정방법" = .str "LLM 산정" ∧
      (estimateExternal env c idx qty row).2 = c + 1 ∧
      env.apiKey = true ∧ c < 10 ∧
      truthy (resultPrice (parseLLMJson env (callLLM env idx))) = true ∧
      (estimateExternal env c idx qty row).1.get "입찰예정가" =
        ofNum (mathRound (dblOp mulD
          (jsParseFloat env (resultPrice (parseLLMJson env (callLLM env idx)))) (some qty)))) ∨
    ((estimateExternal env c idx qty row).1.get "예정가_산정방법" = .str "기본값" ∧
      (estimateExternal env c idx qty row).2 = c ∧
      ¬ (env.apiKey = true ∧ c < 10 ∧
        truthy (resultPrice (parseLLMJson env (callLLM env idx))) = true) ∧
      (estimateExternal env c idx qty row).1.get "입찰예정가" = .num 1000000) := by
  unfold estimateExternal
  by_cases hk : env.apiKey = true
  · by_cases hc : c < 10
    · by_cases hp : truthy (resultPrice (parseLLMJson env (callLLM env idx))) = true
      · left
        simp [hk, hc, hp]
      · right
        simp [hk, hc, hp, defaultPrice]
    · right
      simp [hk, hc, defaultPrice]
  · right
    simp [hk, defaultPrice]

theorem estimateRow_count (env : Env) (lk : Dict Row) (pr : Dict (List JSNum)) (c idx : Nat)
    (row e : Row) (c' : Nat) (h : estimateRow env lk pr c idx row = .ok (e, c')) :
    c' = c + (if e.get "예정가_산정방법" = .str "LLM 산정" then 1 else 0) := by
  rcases estimateRow_cases env lk pr c idx row e c' h with
    ⟨m, -, rfl, rfl⟩ | ⟨-, prices, -, -, rfl, rfl⟩ | ⟨-, -, hx⟩
  · simp [exactPrice]
  · simp [groupPrice]
  · rcases estimateExternal_tag env c idx (floatOr env row "요청수량" 1) row with
      ⟨ht, hc, -⟩ | ⟨ht, hc, -⟩
    · rw [hx] at ht hc
      simp only [] at ht hc
      simp [ht, hc]
    · rw [hx] at ht hc
      simp only [] at ht hc
      simp [ht, hc]

/-- The estimation loop row by row: the record at position `i` is estimated with the
counter at the number of earlier records tagged `LLM 산정`. -/
theorem estimateLoop_spec (env : Env) (lk : Dict Row) (pr : Dict (List JSNum)) :
    ∀ (l : List Row) (idx c : Nat) (l' : List Row) (c' : Nat),
      estimateLoop env lk pr idx c l = .ok (l', c') →
      l'.length = l.length ∧ c' = c + countOf l' "예정가_산정방법" "LLM 산정" ∧
      ∀ (i : Nat) (q : Row), l[i]? = some q → ∃ e, l'[i]? = some e ∧
        estimateRow env lk pr (c + countOf (l'.take i) "예정가_산정방법" "LLM 산정") (idx + i) q
          = .ok (e, c + countOf (l'.take (i + 1)) "예정가_산정방법" "LLM 산정") := by
  intro l
  induction l with
  | nil =>
    intro idx c l' c' h
    simp only [estimateLoop, Except.ok.injEq, Prod.mk.injEq] at h
    obtain ⟨rfl, rfl⟩ := h
    simp [countOf_nil]
  | cons row rest ih =>
    intro idx c l' c' h
    unfold estimateLoop at h
    cases hr : estimateRow env lk pr c idx row with
    | error e => rw [hr] at h; simp at h
    | ok p =>
      obtain ⟨e, c1⟩ := p
      rw [hr] at h
      simp only [] at h
      cases hl : estimateLoop env lk pr (idx + 1) c1 rest with
      | error e => rw [hl] at h; simp at h
      | ok p2 =>
        obtain ⟨rest', fin⟩ := p2
        rw [hl] at h
        simp only [Except.ok.injEq, Prod.mk.injEq] at h
        obtain ⟨rfl, rfl⟩ := h
        obtain ⟨ih1, ih2, ih3⟩ := ih (idx + 1) c1 rest' fin hl
        have hc1 := estimateRow_count env lk pr c idx row e c1 hr
        refine ⟨by simp [ih1], ?_, ?_⟩
        · rw [countOf_cons, ih2, hc1]; omega
        · intro i q hq
          cases i with
          | zero =>
            simp only [List.getElem?_cons_zero, Option.some.injEq] at hq
            subst hq
            refine ⟨e, by simp, ?_⟩
            simp only [List.take_zero, countOf_nil, Nat.add_zero, zero_add, List.take_succ_cons,
              countOf_cons]
            rw [hr, hc1]
          | succ i =>
            simp only [List.getElem?_cons_succ] at hq
            obtain ⟨e', he', hrow⟩ := ih3 i q hq
            refine ⟨e', by simpa using he', ?_⟩
            simp only [List.take_succ_cons, countOf_cons]
            rw [hc1] at hrow
            have e1 : idx + (i + 1) = idx + 1 + i := by omega
            rw [e1]
            have e2 : ∀ n : Nat, c + ((if e.get "예정가_산정방법" = .str "LLM 산정" then 1 else 0) + n)
                = c + (if e.get "예정가_산정방법" = .str "LLM 산정" then 1 else 0) + n := by
              intro n; omega
            rw [e2, e2]
            exact hrow

theorem compositeKey_congr (env : Env) (r r' : Row) (col : String)
    (h1 : r.get "자재번호_키" = r'.get "자재번호_키") (h2 : r.get col = r'.get col) :
    compositeKey env r col = compositeKey env r' col := by
  simp [compositeKey, h1, h2]

theorem floatOr_congr (env : Env) (r r' : Row) (col : String) (d : ℚ)
    (h : r.get col = r'.get col) : floatOr env r col d = floatOr env r' col d := by
  simp [floatOr, h]

theorem mem_quoteLoop (env : Env) (l : List Row) :
    ∀ (idx : Nat) (r : Row), r ∈ quoteLoop env idx l → ∃ e ∈ l, ∃ j, r = quoteRow env j e := by
  induction l with
  | nil => intro idx r h; simp [quoteLoop] at h
  | cons a rest ih =>
    intro idx r h
    simp only [quoteLoop, List.mem_cons] at h
    rcases h with rfl | h
    · exact ⟨a, by simp, idx, rfl⟩
    · obtain ⟨e, he, j, rfl⟩ := ih (idx + 1) r h
      exact ⟨e, by simp [he], j, rfl⟩

theorem mem_sortByUrgency (env : Env) (l : List Row) (r : Row) :
    r ∈ sortByUrgency env l ↔ r ∈ l :=
  (List.perm_insertionSort (urgencyLe env) l).mem_iff

/-- What a run that returns is made of. -/
theorem processAgent_valid (env : Env) (prData poHistory : List Row) (res : Result)
    (h : processAgent env prData poHistory = .ok res) :
    processValid env prData poHistory = .ok res ∧
    ∃ grouped, groupInvalid env (validate env (prData.map (keyPR env))).2 = .ok grouped := by
  unfold processAgent at h
  cases hn : groupInvalid env (validate env (prData.map (keyPR env))).2 with
  | error e =>
    rw [hn] at h
    cases h
  | ok grouped =>
    rw [hn] at h
    exact ⟨h, grouped, rfl⟩

theorem processAgent_ok (env : Env) (prData poHistory : List Row) (res : Result)
    (h : processAgent env prData poHistory = .ok res) :
    ∃ es n prices, buildUnitPrices env (keyedHistory env poHistory) = .ok prices ∧
      estimateLoop env (lookupIndex env poHistory) prices 0 0
        (quotationInput env prData poHistory) = .ok (es, n) ∧
      res.quotationData = sortByUrgency env ((quoteLoop env 0 es).map (reviewRow env)) ∧
      res.summary.llmCalls = n ∧
      res.invalidPR = (validate env (prData.map (keyPR env))).2 := by
  replace h := (processAgent_valid env prData poHistory res h).1
  unfold processValid at h
  simp only [] at h
  cases he : estimation env prData poHistory with
  | error e => rw [he] at h; simp at h
  | ok p =>
    obtain ⟨es, n⟩ := p
    rw [he] at h
    simp only [Except.ok.injEq] at h
    unfold estimation at he
    cases hb : buildUnitPrices env (keyedHistory env poHistory) with
    | error e => rw [hb] at he; simp at he
    | ok prices =>
      rw [hb] at he
      simp only [] at he
      refine ⟨es, n, prices, rfl, he, ?_, ?_, ?_⟩ <;> rw [← h]

/-- Every returned record is an estimated, quoted and reviewed record of the quotation
list. -/
theorem mem_quotationData (env : Env) (prData poHistory : List Row) (res : Result) (r : Row)
    (h : processAgent env prData poHistory = .ok res) (hr : r ∈ res.quotationData) :
    ∃ q ∈ quotationInput env prData poHistory, ∃ prices c idx e c' j,
      buildUnitPrices env (keyedHistory env poHistory) = .ok prices ∧
      estimateRow env (lookupIndex env poHistory) prices c idx q = .ok (e, c') ∧
      r = reviewRow env (quoteRow env j e) := by
  obtain ⟨es, n, prices, hb, hl, hq, -, -⟩ := processAgent_ok env prData poHistory res h
  rw [hq, mem_sortByUrgency, List.mem_map] at hr
  obtain ⟨x, hx, rfl⟩ := hr
  obtain ⟨e, he, j, rfl⟩ := mem_quoteLoop env es 0 x hx
  obtain ⟨hlen, -, hrow⟩ := estimateLoop_spec env _ prices _ 0 0 es n hl
  obtain ⟨i, hi, hei⟩ := List.getElem_of_mem he
  have hi' : i < (quotationInput env prData poHistory).length := by omega
  obtain ⟨e', he', hrow'⟩ := hrow i _ (List.getElem?_eq_getElem hi')
  rw [List.getElem?_eq_getElem hi, Option.some.injEq] at he'
  rw [← he', hei] at hrow'
  exact ⟨_, List.getElem_mem hi', prices, _, _, e, _, j, hb, hrow', rfl⟩

/-- The fields of a returned record that the quotation and the review leave alone. -/
theorem final_get (env : Env) (j : Nat) (e : Row) (k : String)
    (h1 : k ≠ "Mock_견적금액") (h2 : k ≠ "견적단가") (h3 : k ≠ "예정단가")
    (h4 : k ≠ "견적경쟁력") (h5 : k ≠ "견적경쟁력_신호")
    (g1 : k ≠ "단가변동률") (g2 : k ≠ "수의계약_적정성") (g3 : k ≠ "HITL필요")
    (g4 : k ≠ "처리상태") (g5 : k ≠ "최저가_적정성") (g6 : k ≠ "승인상태") :
    (reviewRow env (quoteRow env j e)).get k = e.get k := by
  rw [reviewRow_get env _ k g1 g2 g3 g4 g5 g6, quoteRow_get env j e k h1 h2 h3 h4 h5]

theorem findMatch_own (lk : Dict Row) (k : String) (m : Row) (h : lk.get k = .own m) :
    findMatch lk k = some m := by
  simp [findMatch, h]

/-- The fields of a returned record that go back to the estimation. -/
theorem final_fields (env : Env) (lk : Dict Row) (pr : Dict (List JSNum)) (c idx j : Nat)
    (q e : Row) (c' : Nat) (h : estimateRow env lk pr c idx q = .ok (e, c')) :
    compositeKey env (reviewRow env (quoteRow env j e)) "내역" = compositeKey env q "내역" ∧
    floatOr env (reviewRow env (quoteRow env j e)) "요청수량" 1 = floatOr env q "요청수량" 1 ∧
    (reviewRow env (quoteRow env j e)).get "예정가_산정방법" = e.get "예정가_산정방법" ∧
    (reviewRow env (quoteRow env j e)).get "입찰예정가" = e.get "입찰예정가" ∧
    (reviewRow env (quoteRow env j e)).get "최근발주단가" = e.get "최근발주단가" := by
  have f : ∀ k : String, k ≠ "Mock_견적금액" → k ≠ "견적단가" → k ≠ "예정단가" →
      k ≠ "견적경쟁력" → k ≠ "견적경쟁력_신호" → k ≠ "단가변동률" → k ≠ "수의계약_적정성" →
      k ≠ "HITL필요" → k ≠ "처리상태" → k ≠ "최저가_적정성" → k ≠ "승인상태" →
      (reviewRow env (quoteRow env j e)).get k = e.get k := final_get env j e
  have g : ∀ k : String, k ≠ "입찰예정가" → k ≠ "예정가_산정방법" → k ≠ "LLM응답" →
      k ≠ "최근발주단가" → e.get k = q.get k :=
    fun k => estimateRow_get env lk pr c idx q e c' k h
  have k1 : (reviewRow env (quoteRow env j e)).get "자재번호_키" = q.get "자재번호_키" := by
    rw [f _ (by decide) (by decide) (by decide) (by decide) (by decide) (by decide) (by decide)
      (by decide) (by decide) (by decide) (by decide),
      g _ (by decide) (by decide) (by decide) (by decide)]
  have k2 : (reviewRow env (quoteRow env j e)).get "내역" = q.get "내역" := by
    rw [f _ (by decide) (by decide) (by decide) (by decide) (by decide) (by decide) (by decide)
      (by decide) (by decide) (by decide) (by decide),
      g _ (by decide) (by decide) (by decide) (by decide)]
  have k3 : (reviewRow env (quoteRow env j e)).get "요청수량" = q.get "요청수량" := by
    rw [f _ (by decide) (by decide) (by decide) (by decide) (by decide) (by decide) (by decide)
      (by decide) (by decide) (by decide) (by decide),
      g _ (by decide) (by decide) (by decide) (by decide)]
  exact ⟨compositeKey_congr env _ _ _ k1 k2, floatOr_congr env _ _ _ _ k3,
    f _ (by decide) (by decide) (by decide) (by decide) (by decide) (by decide) (by decide)
      (by decide) (by decide) (by decide) (by decide),
    f _ (by decide) (by decide) (by decide) (by decide) (by decide) (by decide) (by decide)
      (by decide) (by decide) (by decide) (by decide),
    f _ (by decide) (by decide) (by decide) (by decide) (by decide) (by decide) (by decide)
      (by decide) (by decide) (by decide) (by decide)⟩

/-- C1: in every run that returns, each record of the quotation set carries exactly one of
the four price-method tags, and the tag is 자재+내역 일치 whenever the lookup index holds an
entry for the composite key of the record, whatever the unit-price groups hold. -/
theorem price_method_tag (env : Env) (prData poHistory : List Row) (res : Result) (r : Row)
    (h : processAgent env prData poHistory = .ok res) (hr : r ∈ res.quotationData) :
    (r.get "예정가_산정방법" = .str "자재+내역 일치" ∨ r.get "예정가_산정방법" = .str "그룹 평균" ∨
      r.get "예정가_산정방법" = .str "LLM 산정" ∨ r.get "예정가_산정방법" = .str "기본값") ∧
    ∀ m, (lookupIndex env poHistory).get (compositeKey env r "내역") = .own m →
      r.get "예정가_산정방법" = .str "자재+내역 일치" := by
  obtain ⟨q, -, prices, c, idx, e, c', j, -, he, rfl⟩ :=
    mem_quotationData env prData poHistory res r h hr
  obtain ⟨hk, -, ht, -, -⟩ := final_fields env _ prices c idx j q e c' he
  rw [ht, hk]
  rcases estimateRow_cases env _ prices c idx q e c' he with
    ⟨m, -, rfl, -⟩ | ⟨hn, ps, -, -, rfl, -⟩ | ⟨hn, -, hx⟩
  · exact ⟨Or.inl (by simp [exactPrice]), fun _ _ => by simp [exactPrice]⟩
  · refine ⟨Or.inr (Or.inl (by simp [groupPrice])), fun m hm => ?_⟩
    rw [findMatch_own _ _ m hm] at hn
    cases hn
  · have he1 : e = (estimateExternal env c idx (floatOr env q "요청수량" 1) q).1 := by rw [hx]
    refine ⟨?_, fun m hm => ?_⟩
    · rcases estimateExternal_tag env c idx (floatOr env q "요청수량" 1) q with
        ⟨t, -⟩ | ⟨t, -⟩
      · exact Or.inr (Or.inr (Or.inl (he1 ▸ t)))
      · exact Or.inr (Or.inr (Or.inr (he1 ▸ t)))
    · rw [findMatch_own _ _ m hm] at hn
      cases hn

theorem price_method_tag_witness :
    processAgent quietEnv [boltRow] [boltOrder] = .ok boltRun ∧
    boltRecord ∈ boltRun.quotationData ∧
    boltRecord.get "예정가_산정방법" = .str "자재+내역 일치" :=
  ⟨by decide!, by decide!,
    (price_method_tag quietEnv [boltRow] [boltOrder] boltRun boltRecord (by decide!)
      (by decide!)).2 (keyPO quietEnv boltOrder) (by decide!)⟩

theorem lookup_append_single {α : Type} (tbl : Dict α) (k k0 : String) (a : α) :
    List.lookup k (tbl ++ [(k0, a)]) =
      match List.lookup k tbl with
      | some x => some x
      | none => if k = k0 then some a else none := by
  induction tbl with
  | nil =>
    by_cases h : k = k0
    · have hb : (k == k0) = true := by simpa using h
      simp [List.lookup, hb, h]
    · have hb : (k == k0) = false := by simpa using h
      simp [List.lookup, hb, h]
  | cons p rest ih =>
    obtain ⟨k1, a1⟩ := p
    by_cases h1 : k = k1
    · have hb : (k == k1) = true := by simpa using h1
      simp [List.lookup, hb]
    · have hb : (k == k1) = false := by simpa using h1
      simp only [List.cons_append, List.lookup, hb]
      exact ih

theorem Dict.get_of_lookup_none {α : Type} (d : Dict α) (k : String)
    (h : List.lookup k d = none) :
    d.get k = match objectPrototype.lookup k with
      | some n => .inherited n
      | none => .absent := by
  simp [Dict.get, h]

theorem buildLookup_step (env : Env) (tbl : Dict Row) (seen : List Row) (row : Row)
    (h : IndexOf env tbl seen) :
    IndexOf env
      (match tbl.get (compositeKey env row "자재내역") with
        | .absent => tbl ++ [(compositeKey env row "자재내역", row)]
        | _ => tbl) (seen ++ [row]) := by
  intro k
  have hk := h k
  cases hl : List.lookup k objectPrototype with
  | some n =>
    simp only [hl, Option.isSome_some, if_true] at hk ⊢
    cases hg : tbl.get (compositeKey env row "자재내역") with
    | own a => exact hk
    | inherited n => exact hk
    | absent =>
      simp only []
      rw [lookup_append_single, hk]
      by_cases hkk : k = compositeKey env row "자재내역"
      · subst hkk
        rw [Dict.get_of_lookup_none _ _ hk, hl] at hg
        cases hg
      · simp [hkk]
  | none =>
    simp only [hl, Option.isSome_none, Bool.false_eq_true, if_false] at hk ⊢
    rw [List.find?_append]
    cases hf : seen.find? (fun row => decide (compositeKey env row "자재내역" = k)) with
    | some x =>
      rw [hf] at hk
      cases hg : tbl.get (compositeKey env row "자재내역") with
      | own a => simpa using hk
      | inherited n => simpa using hk
      | absent =>
        simp only []
        rw [lookup_append_single, hk]
        simp
    | none =>
      rw [hf] at hk
      simp only [Option.none_or, List.find?_cons, List.find?_nil]
      by_cases hkk : compositeKey env row "자재내역" = k
      · subst hkk
        rw [Dict.get_of_lookup_none _ _ hk, hl]
        simp only []
        rw [lookup_append_single, hk]
        simp
      · have hkk' : ¬ k = compositeKey env row "자재내역" := fun e => hkk e.symm
        cases hg : tbl.get (compositeKey env row "자재내역") with
        | own a => simpa [hkk] using hk
        | inherited n => simpa [hkk] using hk
        | absent =>
          simp only []
          rw [lookup_append_single, hk]
          simp [hkk, hkk']

theorem buildLookup_fold (env : Env) (rest : List Row) :
    ∀ (tbl : Dict Row) (seen : List Row), IndexOf env tbl seen →
      IndexOf env (rest.foldl (fun poLookup row =>
        match poLookup.get (compositeKey env row "자재내역") with
        | .absent => poLookup ++ [(compositeKey env row "자재내역", row)]
        | _ => poLookup) tbl) (seen ++ rest) := by
  induction rest with
  | nil => intro tbl seen h; simpa using h
  | cons row rest ih =>
    intro tbl seen h
    have := ih _ _ (buildLookup_step env tbl seen row h)
    simpa [List.foldl_cons, List.append_assoc] using this

/-- The lookup index holds, for each composite key that is not an inherited property name,
the first PO row with that key. -/
theorem buildLookup_spec (env : Env) (poHistory : List Row) :
    IndexOf env (buildLookup env poHistory) poHistory := by
  have h0 : IndexOf env [] [] := by
    intro k
    simp [List.lookup]
  have := buildLookup_fold env poHistory [] [] h0
  simpa [buildLookup] using this

theorem Dict.get_own_iff {α : Type} (d : Dict α) (k : String) (a : α) :
    d.get k = .own a ↔ List.lookup k d = some a := by
  unfold Dict.get
  cases h : List.lookup k d with
  | some x => simp
  | none =>
    simp only []
    cases objectPrototype.lookup k <;> simp

/-- An own entry of the lookup index is the first PO row with its composite key. -/
theorem lookupIndex_own (env : Env) (poHistory : List Row) (k : String) (m : Row)
    (h : (lookupIndex env poHistory).get k = .own m) :
    (keyedHistory env poHistory).find?
      (fun row => decide (compositeKey env row "자재내역" = k)) = some m := by
  have hs := buildLookup_spec env (keyedHistory env poHistory) k
  have hl := (Dict.get_own_iff _ _ _).mp h
  unfold lookupIndex at hl
  rw [hl] at hs
  by_cases hp : (objectPrototype.lookup k).isSome = true
  · simp [hp] at hs
  · simp only [hp] at hs
    exact hs.symm

/-- C2 (amended): a returned record whose composite key has an entry `m` in the lookup
index (the first PO row with that key) has the estimated total `Math.round((A / Q) * R)`, with
`A = parseFloat(m.발주금액) || 0`, `Q = parseFloat(m.발주수량) || 1` and
`R = parseFloat(요청수량) || 1`, the quotient and the product being rounded to binary64
before `Math.round`; its unit price is the quotient `A / Q` and its tag 자재+내역 일치. -/
theorem exact_match_total (env : Env) (prData poHistory : List Row) (res : Result)
    (r m : Row) (h : processAgent env prData poHistory = .ok res)
    (hr : r ∈ res.quotationData)
    (hm : (lookupIndex env poHistory).get (compositeKey env r "내역") = .own m) :
    (keyedHistory env poHistory).find?
      (fun row => decide (compositeKey env row "자재내역" = compositeKey env r "내역")) = some m ∧
    r.get "입찰예정가" =
      ofNum (mathRound (dblOp mulD
        (divD (floatOr env m "발주금액(KRW)-변환" 0) (floatOr env m "발주수량" 1))
        (some (floatOr env r "요청수량" 1)))) ∧
    r.get "최근발주단가" =
      ofNum (divD (floatOr env m "발주금액(KRW)-변환" 0) (floatOr env m "발주수량" 1)) ∧
    r.get "예정가_산정방법" = .str "자재+내역 일치" := by
  refine ⟨lookupIndex_own env poHistory _ m hm, ?_⟩
  obtain ⟨q, -, prices, c, idx, e, c', j, -, he, rfl⟩ :=
    mem_quotationData env prData poHistory res r h hr
  obtain ⟨hk, hq, ht, hp, hu⟩ := final_fields env _ prices c idx j q e c' he
  rw [ht, hp, hu, hq]
  rw [hk] at hm
  have hf := findMatch_own _ _ m hm
  rcases estimateRow_cases env _ prices c idx q e c' he with
    ⟨m', hm', rfl, -⟩ | ⟨hn, -⟩ | ⟨hn, -⟩
  · rw [hf] at hm'
    cases hm'
    simp [exactPrice]
  · rw [hf] at hn; cases hn
  · rw [hf] at hn; cases hn

/-- C2 (witness): the scenario of the specification (5 units for 5000, 10 requested: unit
price 1000, total 10000), and 6 units for 13 with 27 requested: the quotient is the double
2.1666666666666665, the product 58.49999999999999 and the total 58. -/
theorem exact_match_total_witness :
    processAgent quietEnv [boltRow] [boltOrder] = .ok boltRun ∧
    boltRecord ∈ boltRun.quotationData ∧
    (lookupIndex quietEnv [boltOrder]).get (compositeKey quietEnv boltRecord "내역")
      = .own (keyPO quietEnv boltOrder) ∧
    compositeKey quietEnv boltRecord "내역" = "AB1234_BOLT" ∧
    boltRecord.get "최근발주단가" = .num 1000 ∧ boltRecord.get "입찰예정가" = .num 10000 ∧
    processAgent quietEnv [bulkRow] [thirteenOrder] = .ok roundedRun ∧
    roundedRecord.get "최근발주단가" = .num (4878899596318037 / 2251799813685248) ∧
    roundedRecord.get "입찰예정가" = .num 58 :=
  have h := exact_match_total quietEnv [boltRow] [boltOrder] boltRun boltRecord
    (keyPO quietEnv boltOrder) (by decide!) (by decide!) (by decide!)
  have h2 := exact_match_total quietEnv [bulkRow] [thirteenOrder] roundedRun roundedRecord
    (keyPO quietEnv thirteenOrder) (by decide!) (by decide!) (by decide!)
  ⟨by decide!, by decide!, by decide!, by decide!, h.2.2.1.trans (by decide!),
    h.2.1.trans (by decide!), by decide!, h2.2.2.1.trans (by decide!),
    h2.2.1.trans (by decide!)⟩

theorem findMatch_eq_find (env : Env) (poHistory : List Row) (k : String)
    (hk : objectPrototype.lookup k = none) :
    findMatch (lookupIndex env poHistory) k =
      (keyedHistory env poHistory).find?
        (fun row => decide (compositeKey env row "자재내역" = k)) := by
  have hs := buildLookup_spec env (keyedHistory env poHistory) k
  simp only [hk, Option.isSome_none, Bool.false_eq_true, if_false] at hs
  unfold findMatch Dict.get lookupIndex
  rw [hs, hk]
  cases (keyedHistory env poHistory).find?
    (fun row => decide (compositeKey env row "자재내역" = k)) <;> rfl

theorem mem_matched (env : Env) (prData poHistory : List Row) (r : Row) :
    r ∈ matched env prData poHistory ↔
      ∃ w ∈ scored env prData, r = matchRow env (lookupIndex env poHistory) w := by
  simp only [matched, List.mem_map]
  constructor
  · rintro ⟨w, hw, rfl⟩; exact ⟨w, hw, rfl⟩
  · rintro ⟨w, hw, rfl⟩; exact ⟨w, hw, rfl⟩

theorem matchRow_key (env : Env) (lk : Dict Row) (w : Row) :
    compositeKey env (matchRow env lk w) "내역" = compositeKey env w "내역" :=
  compositeKey_congr env _ _ _
    (matchRow_get env lk w _ (by decide) (by decide) (by decide) (by decide) (by decide)
      (by decide))
    (matchRow_get env lk w _ (by decide) (by decide) (by decide) (by decide) (by decide)
      (by decide))

theorem matchRow_spec (env : Env) (lk : Dict Row) (w : Row) :
    (∃ m, findMatch lk (compositeKey env w "내역") = some m ∧
      (matchRow env lk w).get "업체매칭여부" = .bool true ∧
      (matchRow env lk w).get "매칭업체코드" = m.get "업체코드" ∧
      (matchRow env lk w).get "매칭업체명" = m.get "업체명" ∧
      (matchRow env lk w).get "매칭발주수량" = m.get "발주수량" ∧
      (matchRow env lk w).get "매칭발주금액" = m.get "발주금액(KRW)-변환") ∨
    (findMatch lk (compositeKey env w "내역") = none ∧
      (matchRow env lk w).get "업체매칭여부" = .bool false) := by
  cases hf : findMatch lk (compositeKey env w "내역") with
  | some m =>
    left
    exact ⟨m, rfl, by simp [matchRow, hf], by simp [matchRow, hf], by simp [matchRow, hf],
      by simp [matchRow, hf], by simp [matchRow, hf]⟩
  | none => right; exact ⟨rfl, by simp [matchRow, hf]⟩

/-- C6 (counterexample): the PR row with key `A` and description `B_C` is flagged as matched
by the PO row with key `A_B` and description `C`, whose key and description both differ. -/
theorem match_on_colliding_composite_key :
    (matched quietEnv [collideRow] [collideOrder]).map
        (fun r => (r.get "자재번호_키", r.get "내역", r.get "업체매칭여부", r.get "매칭업체코드")) =
      [(.str "A", .str "B_C", .bool true, .str "100777")] ∧
    (keyedHistory quietEnv [collideOrder]).map
        (fun row => (row.get "자재번호_키", row.get "자재내역")) =
      [(.str "A_B", .str "C")] := by
  decide!

/-- C6 (amended): for a validated record whose composite key (material key, `_`, trimmed
upper-cased description) is not an inherited property name, the matched flag is true iff
some PO row has the same composite key, which is so whenever key and description agree;
the vendor code, vendor name, ordered quantity and ordered amount copied onto the record are
those of the first such PO row. -/
theorem supplier_match (env : Env) (prData poHistory : List Row) (r : Row)
    (h : r ∈ matched env prData poHistory)
    (hk : objectPrototype.lookup (compositeKey env r "내역") = none) :
    (r.get "업체매칭여부" = .bool true ↔
      ∃ row ∈ keyedHistory env poHistory,
        compositeKey env row "자재내역" = compositeKey env r "내역") ∧
    (r.get "업체매칭여부" = .bool false ↔
      ¬ ∃ row ∈ keyedHistory env poHistory,
        compositeKey env row "자재내역" = compositeKey env r "내역") ∧
    (∀ row ∈ keyedHistory env poHistory,
      row.get "자재번호_키" = r.get "자재번호_키" →
      env.toUpperCase (trim (toStr env (orElse (row.get "자재내역") (.str "")))) =
        env.toUpperCase (trim (toStr env (orElse (r.get "내역") (.str "")))) →
      r.get "업체매칭여부" = .bool true) ∧
    (∀ m, (keyedHistory env poHistory).find?
        (fun row => decide (compositeKey env row "자재내역" = compositeKey env r "내역")) = some m →
      r.get "매칭업체코드" = m.get "업체코드" ∧ r.get "매칭업체명" = m.get "업체명" ∧
      r.get "매칭발주수량" = m.get "발주수량" ∧
      r.get "매칭발주금액" = m.get "발주금액(KRW)-변환") := by
  obtain ⟨w, -, rfl⟩ := (mem_matched env prData poHistory r).mp h
  rw [matchRow_key] at hk ⊢
  have hfind := findMatch_eq_find env poHistory _ hk
  have hiff : (∃ row ∈ keyedHistory env poHistory,
      compositeKey env row "자재내역" = compositeKey env w "내역") ↔
      ((keyedHistory env poHistory).find?
        (fun row => decide (compositeKey env row "자재내역" = compositeKey env w "내역"))).isSome
        = true := by
    rw [List.find?_isSome]
    simp
  have key : (matchRow env (lookupIndex env poHistory) w).get "업체매칭여부" = .bool true ↔
      ∃ row ∈ keyedHistory env poHistory,
        compositeKey env row "자재내역" = compositeKey env w "내역" := by
    rw [hiff, ← hfind]
    rcases matchRow_spec env (lookupIndex env poHistory) w with ⟨m, hm, hflag, -⟩ | ⟨hn, hflag⟩
    · simp [hm, hflag]
    · simp [hn, hflag]
  have key2 : (matchRow env (lookupIndex env poHistory) w).get "업체매칭여부" = .bool false ↔
      ¬ ∃ row ∈ keyedHistory env poHistory,
        compositeKey env row "자재내역" = compositeKey env w "내역" := by
    rw [hiff, ← hfind]
    rcases matchRow_spec env (lookupIndex env poHistory) w with ⟨m, hm, hflag, -⟩ | ⟨hn, hflag⟩
    · simp [hm, hflag]
    · simp [hn, hflag]
  refine ⟨key, key2, ?_, ?_⟩
  · intro row hrow hkey hdesc
    refine key.mpr ⟨row, hrow, ?_⟩
    have hkey' : row.get "자재번호_키" = w.get "자재번호_키" := by
      rw [hkey]
      exact matchRow_get env _ w _ (by decide) (by decide) (by decide) (by decide) (by decide)
        (by decide)
    have hd' : (matchRow env (lookupIndex env poHistory) w).get "내역" = w.get "내역" :=
      matchRow_get env _ w _ (by decide) (by decide) (by decide) (by decide) (by decide)
        (by decide)
    rw [hd'] at hdesc
    simp only [compositeKey, hkey', hdesc]
  · intro m hm
    rw [← hfind] at hm
    rcases matchRow_spec env (lookupIndex env poHistory) w with
      ⟨m', hm', -, a1, a2, a3, a4⟩ | ⟨hn, -⟩
    · rw [hm] at hm'
      cases hm'
      exact ⟨a1, a2, a3, a4⟩
    · rw [hm] at hn
      cases hn

theorem supplier_match_witness :
    matchedBolt ∈ matched quietEnv [boltRow] [boltOrder] ∧
    objectPrototype.lookup (compositeKey quietEnv matchedBolt "내역") = none ∧
    matchedBolt.get "업체매칭여부" = .bool true ∧
    matchedBolt.get "매칭업체코드" = .str "200123" :=
  have h := supplier_match quietEnv [boltRow] [boltOrder] matchedBolt (by decide!) (by decide!)
  ⟨by decide!, by decide!, h.1.mpr ⟨keyPO quietEnv boltOrder, by decide!, by decide!⟩,
    (h.2.2.2 (keyPO quietEnv boltOrder) (by decide!)).1.trans (by decide!)⟩

/-- A record whose composite key is an inherited property name is flagged as matched without
any PO history. -/
theorem match_on_inherited_name :
    (matched quietEnv [protoRow] []).map
        (fun r => (compositeKey quietEnv r "내역", r.get "업체매칭여부", r.get "매칭업체코드")) =
      [("__proto__", .bool true, .undefined)] := by
  decide!

theorem estimation_ok (env : Env) (prData poHistory : List Row) (es : List Row) (n : Nat)
    (h : estimation env prData poHistory = .ok (es, n)) :
    ∃ prices, buildUnitPrices env (keyedHistory env poHistory) = .ok prices ∧
      estimateLoop env (lookupIndex env poHistory) prices 0 0
        (quotationInput env prData poHistory) = .ok (es, n) := by
  unfold estimation at h
  cases hb : buildUnitPrices env (keyedHistory env poHistory) with
  | error e => rw [hb] at h; simp at h
  | ok prices =>
    rw [hb] at h
    exact ⟨prices, rfl, h⟩

theorem resultPrice_empty : truthy (resultPrice (.inl [])) = false := rfl

theorem parseLLMJson_none (env : Env) : parseLLMJson env none = .inl [] := rfl

/-- C3 (counterexample): with the collaborator answering the price -5 for a record with no
PO history, the record is tagged LLM 산정 with the total -50 instead of the default. -/
theorem negative_price_is_llm_estimated :
    (quotationOf (processAgent negativeEnv [boltRow] [])).map
        (fun r => (r.get "예정가_산정방법", r.get "입찰예정가")) =
      [(.str "LLM 산정", .num (-50))] ∧
    resultPrice (parseLLMJson negativeEnv (callLLM negativeEnv 0)) = .num (-5) := by
  decide!

/-- C3 (amended): for the record at position `i` of the quotation list that reaches the
external tier (no truthy lookup entry, no group average), with `count` the number of earlier
records tagged LLM 산정 and `price` the property 예정단가 of the parsed answer: the tag is
LLM 산정 iff the API key is set, `count < 10` and `price` is truthy (a negative number is
truthy), and then the total is `round(parseFloat(price) * R)`; otherwise the tag is 기본값
and the total 1,000,000.  No answer and an answer that does not parse give a falsy price. -/
theorem external_estimate (env : Env) (prData poHistory : List Row) (es : List Row) (n i : Nat)
    (q e : Row) (h : estimation env prData poHistory = .ok (es, n))
    (hq : (quotationInput env prData poHistory)[i]? = some q) (he : es[i]? = some e)
    (hx : findMatch (lookupIndex env poHistory) (compositeKey env q "내역") = none)
    (hg : ∀ prices, buildUnitPrices env (keyedHistory env poHistory) = .ok prices →
      hasGroup prices (toStr env (q.get "자재번호_키")) = false) :
    (e.get "예정가_산정방법" = .str "LLM 산정" ↔
      env.apiKey = true ∧ countOf (es.take i) "예정가_산정방법" "LLM 산정" < 10 ∧
        truthy (resultPrice (parseLLMJson env (callLLM env i))) = true) ∧
    (e.get "예정가_산정방법" = .str "LLM 산정" →
      e.get "입찰예정가" = ofNum (mathRound (dblOp mulD
        (jsParseFloat env (resultPrice (parseLLMJson env (callLLM env i))))
        (some (floatOr env q "요청수량" 1))))) ∧
    (e.get "예정가_산정방법" ≠ .str "LLM 산정" →
      e.get "예정가_산정방법" = .str "기본값" ∧ e.get "입찰예정가" = .num 1000000) ∧
    (callLLM env i = none → truthy (resultPrice (parseLLMJson env (callLLM env i))) = false) ∧
    (parseLLMJson env (callLLM env i) = .inl [] →
      truthy (resultPrice (parseLLMJson env (callLLM env i))) = false) := by
  obtain ⟨prices, hb, hl⟩ := estimation_ok env prData poHistory es n h
  obtain ⟨-, -, hrow⟩ := estimateLoop_spec env _ prices _ 0 0 es n hl
  obtain ⟨e', he', hr⟩ := hrow i q hq
  rw [he, Option.some.injEq] at he'
  subst he'
  simp only [zero_add] at hr
  have hlast : (callLLM env i = none →
        truthy (resultPrice (parseLLMJson env (callLLM env i))) = false) ∧
      (parseLLMJson env (callLLM env i) = .inl [] →
        truthy (resultPrice (parseLLMJson env (callLLM env i))) = false) := by
    constructor
    · intro hc; rw [hc]; rfl
    · intro hc; rw [hc]; rfl
  rcases estimateRow_cases env _ prices _ i q e _ hr with
    ⟨m, hm, -⟩ | ⟨-, ps, hps, hne, -⟩ | ⟨-, -, hext⟩
  · rw [hx] at hm; cases hm
  · have := hg prices hb
    simp [hasGroup, hps, hne] at this
  · have he1 : e = (estimateExternal env (countOf (es.take i) "예정가_산정방법" "LLM 산정") i
        (floatOr env q "요청수량" 1) q).1 := by rw [hext]
    rcases estimateExternal_tag env (countOf (es.take i) "예정가_산정방법" "LLM 산정") i
        (floatOr env q "요청수량" 1) q with ⟨t, -, a, b, c, p⟩ | ⟨t, -, nc, p⟩
    · rw [← he1] at t p
      refine ⟨⟨fun _ => ⟨a, b, c⟩, fun _ => t⟩, fun _ => p, fun hne => absurd t hne, hlast⟩
    · rw [← he1] at t p
      have hne : e.get "예정가_산정방법" ≠ .str "LLM 산정" := by
        rw [t]; decide
      exact ⟨⟨fun hh => absurd hh hne, fun hh => absurd hh nc⟩,
        fun hh => absurd hh hne, fun _ => ⟨t, p⟩, hlast⟩

theorem external_estimate_witness :
    estimation negativeEnv [boltRow] [] = .ok negativeEstimates ∧
    (negativeEstimates.1.headD []).get "예정가_산정방법" = .str "LLM 산정" ∧
    (negativeEstimates.1.headD []).get "입찰예정가" = .num (-50) ∧
    estimation decimalEnv [centRow] [] = .ok decimalEstimates ∧
    (decimalEstimates.1.headD []).get "입찰예정가" = .num 100 :=
  have h := external_estimate negativeEnv [boltRow] [] negativeEstimates.1 negativeEstimates.2 0
    ((quotationInput negativeEnv [boltRow] []).headD []) (negativeEstimates.1.headD [])
    (by decide!) (by decide!) (by decide!) (by decide!)
    (fun prices hp => by
      have h0 : buildUnitPrices negativeEnv (keyedHistory negativeEnv []) = .ok [] := rfl
      rw [h0] at hp
      cases hp
      decide!)
  ⟨by decide!, h.1.mpr ⟨by decide!, by decide!, by decide!⟩,
    (h.2.1 (h.1.mpr ⟨by decide!, by decide!, by decide!⟩)).trans (by decide!),
    by decide!, by decide!⟩

theorem validateRow_pass (env : Env) (row : Row) (h : missingColumns env row = []) :
    (validateRow env row).get "검증결과" = .str "PASS" := by
  simp [validateRow, h]

theorem keyPR_flag (env : Env) (row : Row) :
    (keyPR env row).get "PZAF여부" = .bool (includes (matNoOf env row) "PZAF") := by
  simp [keyPR]

theorem matNoOf_congr (env : Env) (r r' : Row) (h : r.get "자재번호" = r'.get "자재번호") :
    matNoOf env r = matNoOf env r' := by
  simp [matNoOf, h]

/-- The fields of a matched row that go back to validation and classification. -/
theorem matched_fields (env : Env) (prData poHistory : List Row) (w : Row)
    (h : w ∈ matched env prData poHistory) :
    w.get "검증결과" = .str "PASS" ∧
    w.get "PZAF여부" = .bool (includes (matNoOf env w) "PZAF") := by
  obtain ⟨s, hs, rfl⟩ := (mem_matched env prData poHistory w).mp h
  obtain ⟨p, -, hv, rfl⟩ := (mem_scored env prData s).mp hs
  have f : ∀ k : String, k ≠ "매칭업체코드" → k ≠ "매칭업체명" → k ≠ "매칭발주수량" →
      k ≠ "매칭발주금액" → k ≠ "매칭_발주중량" → k ≠ "업체매칭여부" → k ≠ "납기까지일수" →
      k ≠ "실제잔여일수" → k ≠ "긴급도" → k ≠ "긴급도_신호" → k ≠ "계약분류" →
      (matchRow env (lookupIndex env poHistory) (urgencyRow env (classifyRow env
        (validateRow env (keyPR env p))))).get k = (validateRow env (keyPR env p)).get k := by
    intro k a1 a2 a3 a4 a5 a6 b1 b2 b3 b4 c1
    rw [matchRow_get env _ _ k a1 a2 a3 a4 a5 a6, urgencyRow_get env _ k b1 b2 b3 b4,
      classifyRow_get env _ k c1]
  have h1 := f "검증결과" (by decide) (by decide) (by decide) (by decide) (by decide) (by decide)
    (by decide) (by decide) (by decide) (by decide) (by decide)
  have h2 := f "PZAF여부" (by decide) (by decide) (by decide) (by decide) (by decide) (by decide)
    (by decide) (by decide) (by decide) (by decide) (by decide)
  have h3 := f "자재번호" (by decide) (by decide) (by decide) (by decide) (by decide) (by decide)
    (by decide) (by decide) (by decide) (by decide) (by decide)
  rw [validateRow_get env _ _ (by decide) (by decide)] at h2
  rw [validateRow_get env _ _ (by decide) (by decide),
    keyPR_get env _ _ (by decide) (by decide)] at h3
  refine ⟨h1.trans (validateRow_pass env _ hv), ?_⟩
  rw [h2, keyPR_flag, matNoOf_congr env _ p h3]

theorem orderMethodRow_method (w : Row) :
    (orderMethodRow w).get "발주방식" =
      .str (if w.get "계약분류" = .str "표준단가" then "배량 후 발주" else "입찰(견적) 진행") := by
  simp [orderMethodRow]

theorem orderMethodRow_bid (w : Row) :
    (orderMethodRow w).get "발주방식" = .str "입찰(견적) 진행" ↔
      w.get "계약분류" ≠ .str "표준단가" := by
  rw [orderMethodRow_method]
  by_cases h : w.get "계약분류" = .str "표준단가"
  · simp only [h, if_true, ne_eq, not_true_eq_false, iff_false]
    decide
  · simp [h]

theorem mem_selectQuotation (ws : List Row) (r : Row) :
    r ∈ selectQuotation ws ↔
      ∃ w ∈ ws, truthy (w.get "PZAF여부") = true ∧ w.get "계약분류" ≠ .str "표준단가" ∧
        r = orderMethodRow w := by
  simp only [selectQuotation, List.mem_filter, List.mem_map, decide_eq_true_eq]
  constructor
  · rintro ⟨⟨w, ⟨hw, hp⟩, rfl⟩, hb⟩
    exact ⟨w, hw, hp, (orderMethodRow_bid w).mp hb, rfl⟩
  · rintro ⟨w, hw, hp, hc, rfl⟩
    exact ⟨⟨w, ⟨hw, hp⟩, rfl⟩, (orderMethodRow_bid w).mpr hc⟩

/-- The fields of a row of the quotation set as first selected. -/
theorem selected_fields (env : Env) (prData poHistory : List Row) (r : Row)
    (h : r ∈ selectQuotation (matched env prData poHistory)) :
    r.get "검증결과" = .str "PASS" ∧ includes (matNoOf env r) "PZAF" = true ∧
    r.get "계약분류" ≠ .str "표준단가" ∧ r.get "발주방식" = .str "입찰(견적) 진행" := by
  obtain ⟨w, hw, hp, hc, rfl⟩ := (mem_selectQuotation _ r).mp h
  obtain ⟨h1, h2⟩ := matched_fields env prData poHistory w hw
  rw [h2] at hp
  refine ⟨?_, ?_, ?_, (orderMethodRow_bid w).mpr hc⟩
  · rw [orderMethodRow_get w _ (by decide)]; exact h1
  · rw [matNoOf_congr env _ w (orderMethodRow_get w _ (by decide))]
    simpa [truthy] using hp
  · rw [orderMethodRow_get w _ (by decide)]; exact hc

theorem length_quoteLoop (env : Env) (l : List Row) :
    ∀ idx : Nat, (quoteLoop env idx l).length = l.length := by
  induction l with
  | nil => intro idx; rfl
  | cons a rest ih => intro idx; simp [quoteLoop, ih]

/-- C10: the quotation set holds exactly the validated records whose raw material number
contains PZAF and whose classification is not 표준단가; a validated PZAF record classified
표준단가 gets the order method 배량 후 발주, every other validated PZAF record 입찰(견적) 진행;
and the records a run returns are as many as, and have these fields of, the quotation set. -/
theorem quotation_set (env : Env) (prData poHistory : List Row) :
    (∀ r ∈ selectQuotation (matched env prData poHistory),
      r.get "검증결과" = .str "PASS" ∧ includes (matNoOf env r) "PZAF" = true ∧
      r.get "계약분류" ≠ .str "표준단가" ∧ r.get "발주방식" = .str "입찰(견적) 진행") ∧
    (∀ w ∈ matched env prData poHistory,
      w.get "검증결과" = .str "PASS" ∧
      (orderMethodRow w ∈ selectQuotation (matched env prData poHistory) ↔
        includes (matNoOf env w) "PZAF" = true ∧ w.get "계약분류" ≠ .str "표준단가") ∧
      (orderMethodRow w).get "발주방식" =
        .str (if w.get "계약분류" = .str "표준단가" then "배량 후 발주" else "입찰(견적) 진행")) ∧
    (∀ v ∈ (validate env (prData.map (keyPR env))).2, v.get "검증결과" = .str "FAIL") ∧
    (∀ res, processAgent env prData poHistory = .ok res →
      res.quotationData.length = (selectQuotation (matched env prData poHistory)).length ∧
      ∀ r ∈ res.quotationData,
        r.get "검증결과" = .str "PASS" ∧ includes (matNoOf env r) "PZAF" = true ∧
        r.get "계약분류" ≠ .str "표준단가" ∧ r.get "발주방식" = .str "입찰(견적) 진행") := by
  refine ⟨fun r hr => selected_fields env prData poHistory r hr, ?_, ?_, ?_⟩
  · intro w hw
    obtain ⟨h1, h2⟩ := matched_fields env prData poHistory w hw
    refine ⟨h1, ⟨?_, ?_⟩, orderMethodRow_method w⟩
    · intro hm
      obtain ⟨-, a, b, -⟩ := selected_fields env prData poHistory _ hm
      rw [matNoOf_congr env _ w (orderMethodRow_get w _ (by decide))] at a
      rw [orderMethodRow_get w _ (by decide)] at b
      exact ⟨a, b⟩
    · rintro ⟨a, b⟩
      refine (mem_selectQuotation _ _).mpr ⟨w, hw, ?_, b, rfl⟩
      rw [h2, a]
      rfl
  · intro v hv
    rw [validate_snd, List.mem_map] at hv
    obtain ⟨x, hx, rfl⟩ := hv
    have hne : missingColumns env x ≠ [] := by
      simpa using (List.mem_filter.mp hx).2
    have hpos : 0 < (missingColumns env x).length := List.length_pos.mpr hne
    simp [validateRow, hpos]
  · intro res h
    obtain ⟨es, n, prices, -, hl, hq, -, -⟩ := processAgent_ok env prData poHistory res h
    obtain ⟨hlen, -, -⟩ := estimateLoop_spec env _ prices _ 0 0 es n hl
    constructor
    · rw [hq]
      unfold sortByUrgency
      rw [List.length_insertionSort, List.length_map, length_quoteLoop, hlen]
      simp [quotationInput]
    · intro r hr
      obtain ⟨q, hqm, pr, c, idx, e, c', j, -, he, rfl⟩ :=
        mem_quotationData env prData poHistory res r h hr
      simp only [quotationInput, List.mem_map] at hqm
      obtain ⟨s, hs, rfl⟩ := hqm
      obtain ⟨a1, a2, a3, a4⟩ := selected_fields env prData poHistory s hs
      have f : ∀ k : String, k ≠ "Mock_견적금액" → k ≠ "견적단가" → k ≠ "예정단가" →
          k ≠ "견적경쟁력" → k ≠ "견적경쟁력_신호" → k ≠ "단가변동률" → k ≠ "수의계약_적정성" →
          k ≠ "HITL필요" → k ≠ "처리상태" → k ≠ "최저가_적정성" → k ≠ "승인상태" →
          k ≠ "입찰예정가" → k ≠ "예정가_산정방법" → k ≠ "LLM응답" → k ≠ "최근발주단가" →
          k ≠ "수의계약대상" → k ≠ "계약방식" → k ≠ "접수기간_일" → k ≠ "계약방식_선정사유" →
          k ≠ "미승인사유코드" → k ≠ "미승인사유" → k ≠ "기술평가대상" →
          (reviewRow env (quoteRow env j e)).get k = s.get k := by
        intro k b1 b2 b3 b4 b5 b6 b7 b8 b9 b10 b11 c1 c2 c3 c4 d1 d2 d3 d4 d5 d6 d7
        rw [final_get env j e k b1 b2 b3 b4 b5 b6 b7 b8 b9 b10 b11,
          estimateRow_get env _ pr c idx _ e c' k he c1 c2 c3 c4,
          contractMethodRow_get env _ s k d1 d2 d3 d4 d5 d6 d7]
      have g1 := f "검증결과" (by decide) (by decide) (by decide) (by decide) (by decide)
        (by decide) (by decide) (by decide) (by decide) (by decide) (by decide) (by decide)
        (by decide) (by decide) (by decide) (by decide) (by decide) (by decide) (by decide)
        (by decide) (by decide) (by decide)
      have g2 := f "자재번호" (by decide) (by decide) (by decide) (by decide) (by decide)
        (by decide) (by decide) (by decide) (by decide) (by decide) (by decide) (by decide)
        (by decide) (by decide) (by decide) (by decide) (by decide) (by decide) (by decide)
        (by decide) (by decide) (by decide)
      have g3 := f "계약분류" (by decide) (by decide) (by decide) (by decide) (by decide)
        (by decide) (by decide) (by decide) (by decide) (by decide) (by decide) (by decide)
        (by decide) (by decide) (by decide) (by decide) (by decide) (by decide) (by decide)
        (by decide) (by decide) (by decide)
      have g4 := f "발주방식" (by decide) (by decide) (by decide) (by decide) (by decide)
        (by decide) (by decide) (by decide) (by decide) (by decide) (by decide) (by decide)
        (by decide) (by decide) (by decide) (by decide) (by decide) (by decide) (by decide)
        (by decide) (by decide) (by decide)
      rw [g1, g3, g4, matNoOf_congr env _ s g2]
      exact ⟨a1, a2, a3, a4⟩

theorem quotation_set_witness :
    matchedBolt ∈ matched quietEnv [boltRow] [boltOrder] ∧
    boltSelected ∈ selectQuotation (matched quietEnv [boltRow] [boltOrder]) ∧
    boltSelected.get "발주방식" = .str "입찰(견적) 진행" ∧
    boltRun.quotationData.length = 1 :=
  have h := quotation_set quietEnv [boltRow] [boltOrder]
  ⟨by decide!, (h.2.1 matchedBolt (by decide!)).2.1.mpr ⟨by decide!, by decide!⟩,
    (h.1 boltSelected (by decide!)).2.2.2,
    ((h.2.2.2 boltRun (by decide!)).1).trans (by decide!)⟩

theorem contractMethodRow_spec (env : Env) (keys : List JSVal) (s : Row) :
    (contractMethodRow env keys s).get "수의계약대상" =
      .bool (decide (s.get "자재번호_키" ∈ keys)) ∧
    (contractMethodRow env keys s).get "계약방식" =
      .str (if s.get "계약분류" = .str "비표준단가" then "비표준단가계약"
        else if s.get "자재번호_키" ∈ keys then "수의계약" else "지명경쟁") := by
  unfold contractMethodRow
  by_cases h1 : s.get "계약분류" = .str "비표준단가"
  · by_cases h2 : s.get "자재번호_키" ∈ keys <;> simp [h1, h2, truthy]
  · by_cases h2 : s.get "자재번호_키" ∈ keys <;> simp [h1, h2, truthy]

/-- The fields of a returned record that go back to the quotation list. -/
theorem final_of_input (env : Env) (lk : Dict Row) (pr : Dict (List JSNum)) (c idx j : Nat)
    (q e : Row) (c' : Nat) (h : estimateRow env lk pr c idx q = .ok (e, c')) (k : String)
    (b1 : k ≠ "Mock_견적금액") (b2 : k ≠ "견적단가") (b3 : k ≠ "예정단가")
    (b4 : k ≠ "견적경쟁력") (b5 : k ≠ "견적경쟁력_신호") (b6 : k ≠ "단가변동률")
    (b7 : k ≠ "수의계약_적정성") (b8 : k ≠ "HITL필요") (b9 : k ≠ "처리상태")
    (b10 : k ≠ "최저가_적정성") (b11 : k ≠ "승인상태") (c1 : k ≠ "입찰예정가")
    (c2 : k ≠ "예정가_산정방법") (c3 : k ≠ "LLM응답") (c4 : k ≠ "최근발주단가") :
    (reviewRow env (quoteRow env j e)).get k = q.get k := by
  rw [final_get env j e k b1 b2 b3 b4 b5 b6 b7 b8 b9 b10 b11,
    estimateRow_get env lk pr c idx q e c' k h c1 c2 c3 c4]

/-- C11: a returned record is eligible for a private contract iff its material key is the
material key of some PO history row, whatever the description; its contract method is
비표준단가계약 if the classification is 비표준단가, else 수의계약 if it is eligible, else
지명경쟁, so a 비표준단가 record never gets 수의계약. -/
theorem contract_method (env : Env) (prData poHistory : List Row) (res : Result) (r : Row)
    (h : processAgent env prData poHistory = .ok res) (hr : r ∈ res.quotationData) :
    (r.get "수의계약대상" = .bool true ↔
      ∃ row ∈ keyedHistory env poHistory, row.get "자재번호_키" = r.get "자재번호_키") ∧
    (r.get "수의계약대상" = .bool false ↔
      ¬ ∃ row ∈ keyedHistory env poHistory, row.get "자재번호_키" = r.get "자재번호_키") ∧
    r.get "계약방식" =
      .str (if r.get "계약분류" = .str "비표준단가" then "비표준단가계약"
        else if r.get "수의계약대상" = .bool true then "수의계약" else "지명경쟁") ∧
    (r.get "계약분류" = .str "비표준단가" → r.get "계약방식" ≠ .str "수의계약") := by
  obtain ⟨q, hqm, pr, c, idx, e, c', j, -, he, rfl⟩ :=
    mem_quotationData env prData poHistory res r h hr
  simp only [quotationInput, List.mem_map] at hqm
  obtain ⟨s, -, rfl⟩ := hqm
  have f := final_of_input env _ pr c idx j _ e c' he
  have g := contractMethodRow_get env
    ((keyedHistory env poHistory).map (fun r => r.get "자재번호_키")) s
  obtain ⟨s1, s2⟩ := contractMethodRow_spec env
    ((keyedHistory env poHistory).map (fun r => r.get "자재번호_키")) s
  have e1 := f "수의계약대상" (by decide) (by decide) (by decide) (by decide) (by decide)
    (by decide) (by decide) (by decide) (by decide) (by decide) (by decide) (by decide)
    (by decide) (by decide) (by decide)
  have e2 := f "계약방식" (by decide) (by decide) (by decide) (by decide) (by decide)
    (by decide) (by decide) (by decide) (by decide) (by decide) (by decide) (by decide)
    (by decide) (by decide) (by decide)
  have e3 := f "자재번호_키" (by decide) (by decide) (by decide) (by decide) (by decide)
    (by decide) (by decide) (by decide) (by decide) (by decide) (by decide) (by decide)
    (by decide) (by decide) (by decide)
  have e4 := f "계약분류" (by decide) (by decide) (by decide) (by decide) (by decide)
    (by decide) (by decide) (by decide) (by decide) (by decide) (by decide) (by decide)
    (by decide) (by decide) (by decide)
  rw [g _ (by decide) (by decide) (by decide) (by decide) (by decide) (by decide)
    (by decide)] at e3 e4
  rw [e1, e2, e3, e4, s1, s2]
  have hmem : s.get "자재번호_키" ∈ (keyedHistory env poHistory).map
      (fun r => r.get "자재번호_키") ↔
      ∃ row ∈ keyedHistory env poHistory, row.get "자재번호_키" = s.get "자재번호_키" := by
    simp [List.mem_map]
  by_cases hm : s.get "자재번호_키" ∈ (keyedHistory env poHistory).map
      (fun r => r.get "자재번호_키")
  · have hex := hmem.mp hm
    refine ⟨by simp [hm, hex], by simp [hm, hex], by simp [hm], ?_⟩
    intro hc
    simp only [hc, if_true]
    decide
  · have hex : ¬ ∃ row ∈ keyedHistory env poHistory,
        row.get "자재번호_키" = s.get "자재번호_키" := fun hh => hm (hmem.mpr hh)
    refine ⟨by simp [hm, hex], by simp [hm, hex], by simp [hm], ?_⟩
    intro hc
    simp only [hc, if_true]
    decide

/-- C11 (witness): the record of `boltRun` shares its key with `boltOrder`, is eligible and
gets 수의계약. -/
theorem contract_method_witness :
    processAgent quietEnv [boltRow] [boltOrder] = .ok boltRun ∧
    boltRecord ∈ boltRun.quotationData ∧
    boltRecord.get "수의계약대상" = .bool true ∧ boltRecord.get "계약방식" = .str "수의계약" :=
  have h := contract_method quietEnv [boltRow] [boltOrder] boltRun boltRecord (by decide!)
    (by decide!)
  ⟨by decide!, by decide!, h.1.mpr ⟨keyPO quietEnv boltOrder, by decide!, by decide!⟩,
    h.2.2.1.trans (by decide!)⟩

theorem Dict.lookup_set {α : Type} (d : Dict α) (k k0 : String) (a : α) :
    List.lookup k (Dict.set d k0 a) = if k = k0 then some a else List.lookup k d := by
  induction d with
  | nil =>
    by_cases h : k = k0
    · have hb : (k == k0) = true := by simpa using h
      simp [Dict.set, List.lookup, hb, h]
    · have hb : (k == k0) = false := by simpa using h
      simp [Dict.set, List.lookup, hb, h]
  | cons p rest ih =>
    obtain ⟨k1, a1⟩ := p
    by_cases h1 : k1 = k0
    · subst h1
      by_cases h : k = k1
      · have hb : (k == k1) = true := by simpa using h
        simp [Dict.set, List.lookup, hb, h]
      · have hb : (k == k1) = false := by simpa using h
        simp [Dict.set, List.lookup, hb, h]
    · simp only [Dict.set, h1, if_false]
      by_cases h : k = k1
      · have hb : (k == k1) = true := by simpa using h
        have hne : ¬ k = k0 := by rw [h]; exact h1
        simp [List.lookup, hb, hne]
      · have hb : (k == k1) = false := by simpa using h
        simp only [List.lookup, hb]
        exact ih

theorem buildUnitPrices_eq (env : Env) (poHistory : List Row) :
    buildUnitPrices env poHistory = poHistory.foldlM (unitPriceStep env) [] := rfl

theorem unitPriceStep_spec (env : Env) (tbl tbl' : Dict (List JSNum)) (seen : List Row) (row : Row)
    (h : GroupsOf env tbl seen) (hs : unitPriceStep env tbl row = .ok tbl') :
    GroupsOf env tbl' (seen ++ [row]) := by
  unfold unitPriceStep at hs
  have hr := h (toStr env (row.get "자재번호_키"))
  cases hg : tbl.get (toStr env (row.get "자재번호_키")) with
  | inherited n => rw [hg] at hs; simp at hs
  | absent =>
    rw [hg] at hs
    simp only [Except.ok.injEq] at hs
    subst hs
    have hl : List.lookup (toStr env (row.get "자재번호_키")) tbl = none := by
      unfold Dict.get at hg
      cases hl : List.lookup (toStr env (row.get "자재번호_키")) tbl with
      | none => rfl
      | some x => rw [hl] at hg; simp at hg
    intro k
    rw [Dict.lookup_set, List.filter_append]
    by_cases hk : k = toStr env (row.get "자재번호_키")
    · subst hk
      rw [hl] at hr
      have hnil : seen.filter (fun r => decide (toStr env (r.get "자재번호_키")
          = toStr env (row.get "자재번호_키"))) = [] := by
        by_contra hne
        simp [hne] at hr
      simp [hnil]
    · have hk' : ¬ toStr env (row.get "자재번호_키") = k := fun e => hk e.symm
      simp only [hk, if_false, List.filter_cons, hk', decide_False, Bool.false_eq_true,
        List.filter_nil, List.append_nil]
      exact h k
  | own prices =>
    rw [hg] at hs
    simp only [Except.ok.injEq] at hs
    subst hs
    have hl := (Dict.get_own_iff _ _ _).mp hg
    rw [hl] at hr
    have hne : seen.filter (fun r => decide (toStr env (r.get "자재번호_키")
        = toStr env (row.get "자재번호_키"))) ≠ [] := by
      intro hnil
      simp [hnil] at hr
    simp only [hne, if_false, Option.some.injEq] at hr
    intro k
    rw [Dict.lookup_set, List.filter_append]
    by_cases hk : k = toStr env (row.get "자재번호_키")
    · subst hk
      simp [hr, hne]
    · have hk' : ¬ toStr env (row.get "자재번호_키") = k := fun e => hk e.symm
      simp only [hk, if_false, List.filter_cons, hk', decide_False, Bool.false_eq_true,
        List.filter_nil, List.append_nil]
      exact h k

theorem unitPrices_fold (env : Env) (rest : List Row) :
    ∀ (tbl res : Dict (List JSNum)) (seen : List Row), GroupsOf env tbl seen →
      rest.foldlM (unitPriceStep env) tbl = .ok res → GroupsOf env res (seen ++ rest) := by
  induction rest with
  | nil =>
    intro tbl res seen h hs
    simp only [List.foldlM, pure, Except.pure, Except.ok.injEq] at hs
    subst hs
    simpa using h
  | cons row rest ih =>
    intro tbl res seen h hs
    simp only [List.foldlM, bind, Except.bind] at hs
    cases hstep : unitPriceStep env tbl row with
    | error e => rw [hstep] at hs; simp at hs
    | ok tbl1 =>
      rw [hstep] at hs
      have := ih tbl1 res (seen ++ [row]) (unitPriceStep_spec env tbl tbl1 seen row h hstep) hs
      simpa [List.append_assoc] using this

/-- The unit-price groups of a run that does not throw: for each material key, the unit
prices of all the PO rows with that key, in PO-history order. -/
theorem buildUnitPrices_spec (env : Env) (poHistory : List Row) (prices : Dict (List JSNum))
    (h : buildUnitPrices env poHistory = .ok prices) : GroupsOf env prices poHistory := by
  rw [buildUnitPrices_eq] at h
  have h0 : GroupsOf env [] [] := by
    intro k
    simp [List.lookup]
  simpa using unitPrices_fold env poHistory [] prices [] h0 h

theorem keyPO_key (env : Env) (row : Row) :
    (keyPO env row).get "자재번호_키" = .str (materialKey (matNoOf env row)) := by
  simp [keyPO]

theorem keyPR_key (env : Env) (row : Row) :
    (keyPR env row).get "자재번호_키" = .str (materialKey (matNoOf env row)) := by
  simp [keyPR]

theorem keyedHistory_key (env : Env) (poHistory : List Row) (row : Row)
    (h : row ∈ keyedHistory env poHistory) : ∃ k, row.get "자재번호_키" = .str k := by
  simp only [keyedHistory, List.mem_map] at h
  obtain ⟨p, -, rfl⟩ := h
  exact ⟨_, keyPO_key env p⟩

theorem matched_key (env : Env) (prData poHistory : List Row) (w : Row)
    (h : w ∈ matched env prData poHistory) : ∃ k, w.get "자재번호_키" = .str k := by
  obtain ⟨s, hs, rfl⟩ := (mem_matched env prData poHistory w).mp h
  obtain ⟨p, -, -, rfl⟩ := (mem_scored env prData s).mp hs
  refine ⟨materialKey (matNoOf env p), ?_⟩
  rw [matchRow_get env _ _ _ (by decide) (by decide) (by decide) (by decide) (by decide)
    (by decide), urgencyRow_get env _ _ (by decide) (by decide) (by decide) (by decide),
    classifyRow_get env _ _ (by decide), validateRow_get env _ _ (by decide) (by decide)]
  exact keyPR_key env p

theorem input_key (env : Env) (prData poHistory : List Row) (q : Row)
    (h : q ∈ quotationInput env prData poHistory) : ∃ k, q.get "자재번호_키" = .str k := by
  simp only [quotationInput, List.mem_map] at h
  obtain ⟨s, hs, rfl⟩ := h
  obtain ⟨w, hw, -, -, rfl⟩ := (mem_selectQuotation _ s).mp hs
  obtain ⟨k, hk⟩ := matched_key env prData poHistory w hw
  refine ⟨k, ?_⟩
  rw [contractMethodRow_get env _ _ _ (by decide) (by decide) (by decide) (by decide)
    (by decide) (by decide) (by decide), orderMethodRow_get _ _ (by decide)]
  exact hk

theorem filter_key_eq (env : Env) (poHistory : List Row) (k : String) :
    (keyedHistory env poHistory).filter
        (fun row => decide (toStr env (row.get "자재번호_키") = k)) =
      (keyedHistory env poHistory).filter
        (fun row => decide (row.get "자재번호_키" = .str k)) := by
  apply List.filter_congr
  intro row hrow
  obtain ⟨a, ha⟩ := keyedHistory_key env poHistory row hrow
  rw [ha]
  simp [toStr]

/-- C12 (amended): a returned record with no truthy lookup entry whose material key is
the key of some PO row has the estimated total `Math.round(m * R)`, where `m` is the mean of `A / Q`
(`A = parseFloat(amount) || 0`, `Q = parseFloat(quantity) || 1`) over all the PO rows with
that material key, whatever their descriptions, and `R = parseFloat(요청수량) || 1`; the
quotients, the sum taken from 0 in PO-history order, the mean and the product are each
rounded to binary64.  Its unit price is `m` and its tag 그룹 평균. -/
theorem group_average_total (env : Env) (prData poHistory : List Row) (res : Result) (r : Row)
    (h : processAgent env prData poHistory = .ok res) (hr : r ∈ res.quotationData)
    (hx : findMatch (lookupIndex env poHistory) (compositeKey env r "내역") = none)
    (hk : ∃ row ∈ keyedHistory env poHistory,
      row.get "자재번호_키" = r.get "자재번호_키") :
    r.get "입찰예정가" =
      ofNum (mathRound (dblOp mulD
        (dblOp divD
          ((((keyedHistory env poHistory).filter
            (fun row => decide (row.get "자재번호_키" = r.get "자재번호_키"))).map
            (unitPriceOf env)).foldl (dblOp addD) (some 0))
          (some (((keyedHistory env poHistory).filter
            (fun row => decide (row.get "자재번호_키" = r.get "자재번호_키"))).length : ℚ)))
        (some (floatOr env r "요청수량" 1)))) ∧
    r.get "최근발주단가" =
      ofNum (dblOp divD
          ((((keyedHistory env poHistory).filter
            (fun row => decide (row.get "자재번호_키" = r.get "자재번호_키"))).map
            (unitPriceOf env)).foldl (dblOp addD) (some 0))
          (some (((keyedHistory env poHistory).filter
            (fun row => decide (row.get "자재번호_키" = r.get "자재번호_키"))).length : ℚ))) ∧
    r.get "예정가_산정방법" = .str "그룹 평균" := by
  obtain ⟨q, hqm, prices, c, idx, e, c', j, hb, he, rfl⟩ :=
    mem_quotationData env prData poHistory res r h hr
  obtain ⟨hck, hq, ht, hp, hu⟩ := final_fields env _ prices c idx j q e c' he
  have hkey := final_of_input env _ prices c idx j q e c' he "자재번호_키" (by decide)
    (by decide) (by decide) (by decide) (by decide) (by decide) (by decide) (by decide)
    (by decide) (by decide) (by decide) (by decide) (by decide) (by decide) (by decide)
  rw [ht, hp, hu, hq, hkey]
  rw [hck] at hx
  rw [hkey] at hk
  obtain ⟨k, hqk⟩ := input_key env prData poHistory q hqm
  have hspec := buildUnitPrices_spec env _ prices hb k
  rw [filter_key_eq, ← hqk] at hspec
  have hne : (keyedHistory env poHistory).filter
      (fun row => decide (row.get "자재번호_키" = q.get "자재번호_키")) ≠ [] := by
    obtain ⟨row, hrow, hrk⟩ := hk
    intro hnil
    have : row ∈ (keyedHistory env poHistory).filter
        (fun row => decide (row.get "자재번호_키" = q.get "자재번호_키")) :=
      List.mem_filter.mpr ⟨hrow, by simpa using hrk⟩
    rw [hnil] at this
    simp at this
  simp only [hne, if_false] at hspec
  have hown := (Dict.get_own_iff _ _ _).mpr hspec
  have hts : toStr env (q.get "자재번호_키") = k := by rw [hqk]; rfl
  rcases estimateRow_cases env _ prices c idx q e c' he with
    ⟨m, hm, -⟩ | ⟨-, ps, hps, -, rfl, -⟩ | ⟨-, hg, -⟩
  · rw [hx] at hm; cases hm
  · rw [hts, hown] at hps
    cases hps
    simp [groupPrice]
  · rw [hts] at hg
    have hne' : List.map (unitPriceOf env) ((keyedHistory env poHistory).filter
        (fun row => decide (row.get "자재번호_키" = q.get "자재번호_키"))) ≠ [] := by
      simpa using hne
    simp [hasGroup, hown, hne'] at hg

/-- C12 (witness): two PO rows of the key `AB1234` with other descriptions, unit prices 500
and 1500: the mean is 1000 and the total for 10 units 10000.  With the unit prices 1 and
2 / 3 and 9 units, the mean is the double 0.8333333333333333, the product
7.499999999999999 and the total 7. -/
theorem group_average_total_witness :
    processAgent quietEnv [boltRow] [nutOrder, washerOrder] = .ok groupRun ∧
    groupRecord ∈ groupRun.quotationData ∧
    groupRecord.get "예정가_산정방법" = .str "그룹 평균" ∧
    groupRecord.get "최근발주단가" = .num 1000 ∧ groupRecord.get "입찰예정가" = .num 10000 ∧
    processAgent quietEnv [nineRow] [unitOrder, thirdsOrder] = .ok meanRun ∧
    meanRecord.get "최근발주단가" = .num (3752999689475413 / 4503599627370496) ∧
    meanRecord.get "입찰예정가" = .num 7 :=
  have h := group_average_total quietEnv [boltRow] [nutOrder, washerOrder] groupRun groupRecord
    (by decide!) (by decide!) (by decide!) ⟨keyPO quietEnv nutOrder, by decide!, by decide!⟩
  have h2 := group_average_total quietEnv [nineRow] [unitOrder, thirdsOrder] meanRun meanRecord
    (by decide!) (by decide!) (by decide!) ⟨keyPO quietEnv unitOrder, by decide!, by decide!⟩
  ⟨by decide!, by decide!, h.2.2, h.2.1.trans (by decide!), h.1.trans (by decide!),
    by decide!, h2.2.1.trans (by decide!), h2.1.trans (by decide!)⟩

theorem estimateRow_llm (env : Env) (lk : Dict Row) (pr : Dict (List JSNum)) (c idx : Nat)
    (row e : Row) (c' : Nat) (h : estimateRow env lk pr c idx row = .ok (e, c'))
    (ht : e.get "예정가_산정방법" = .str "LLM 산정") :
    env.apiKey = true ∧ c < 10 ∧
      truthy (resultPrice (parseLLMJson env (callLLM env idx))) = true := by
  rcases estimateRow_cases env lk pr c idx row e c' h with
    ⟨m, -, rfl, -⟩ | ⟨-, prices, -, -, rfl, -⟩ | ⟨-, -, hx⟩
  · simp [exactPrice] at ht
  · simp [groupPrice] at ht
  · have he1 : e = (estimateExternal env c idx (floatOr env row "요청수량" 1) row).1 := by
      rw [hx]
    rcases estimateExternal_tag env c idx (floatOr env row "요청수량" 1) row with
      ⟨-, -, a, b, d, -⟩ | ⟨t, -⟩
    · exact ⟨a, b, d⟩
    · rw [← he1, ht] at t
      simp at t

theorem estimateLoop_le (env : Env) (lk : Dict Row) (pr : Dict (List JSNum)) :
    ∀ (l : List Row) (idx c : Nat) (l' : List Row) (c' : Nat),
      estimateLoop env lk pr idx c l = .ok (l', c') → c ≤ 10 → c' ≤ 10 := by
  intro l
  induction l with
  | nil =>
    intro idx c l' c' h hc
    simp only [estimateLoop, Except.ok.injEq, Prod.mk.injEq] at h
    omega
  | cons row rest ih =>
    intro idx c l' c' h hc
    unfold estimateLoop at h
    cases hr : estimateRow env lk pr c idx row with
    | error e => rw [hr] at h; simp at h
    | ok p =>
      obtain ⟨e, c1⟩ := p
      rw [hr] at h
      simp only [] at h
      cases hl : estimateLoop env lk pr (idx + 1) c1 rest with
      | error e => rw [hl] at h; simp at h
      | ok p2 =>
        obtain ⟨rest', fin⟩ := p2
        rw [hl] at h
        simp only [Except.ok.injEq, Prod.mk.injEq] at h
        obtain ⟨-, rfl⟩ := h
        have hc1 := estimateRow_count env lk pr c idx row e c1 hr
        have hle : c1 ≤ 10 := by
          by_cases ht : e.get "예정가_산정방법" = .str "LLM 산정"
          · have := (estimateRow_llm env lk pr c idx row e c1 hr ht).2.1
            simp only [ht, if_true] at hc1
            omega
          · simp only [ht, if_false] at hc1
            omega
        exact ih (idx + 1) c1 rest' fin hl hle

theorem countOf_perm (l₁ l₂ : List Row) (col text : String) (h : l₁.Perm l₂) :
    countOf l₁ col text = countOf l₂ col text := by
  unfold countOf
  exact (h.filter _).length_eq

theorem countOf_final (env : Env) (col text : String)
    (b1 : col ≠ "Mock_견적금액") (b2 : col ≠ "견적단가") (b3 : col ≠ "예정단가")
    (b4 : col ≠ "견적경쟁력") (b5 : col ≠ "견적경쟁력_신호") (b6 : col ≠ "단가변동률")
    (b7 : col ≠ "수의계약_적정성") (b8 : col ≠ "HITL필요") (b9 : col ≠ "처리상태")
    (b10 : col ≠ "최저가_적정성") (b11 : col ≠ "승인상태") (l : List Row) :
    ∀ idx : Nat,
      countOf ((quoteLoop env idx l).map (reviewRow env)) col text = countOf l col text := by
  induction l with
  | nil => intro idx; rfl
  | cons a rest ih =>
    intro idx
    simp only [quoteLoop, List.map_cons, countOf_cons, ih (idx + 1),
      final_get env idx a col b1 b2 b3 b4 b5 b6 b7 b8 b9 b10 b11]

/-- C13: in every run that returns, at most 10 records of the quotation set are tagged
LLM 산정, and the counter `llmCalls` of the summary is their number. -/
theorem llm_count_bounded (env : Env) (prData poHistory : List Row) (res : Result)
    (h : processAgent env prData poHistory = .ok res) :
    countOf res.quotationData "예정가_산정방법" "LLM 산정" ≤ 10 ∧
    res.summary.llmCalls = countOf res.quotationData "예정가_산정방법" "LLM 산정" := by
  obtain ⟨es, n, prices, -, hl, hq, hn, -⟩ := processAgent_ok env prData poHistory res h
  obtain ⟨-, hcount, -⟩ := estimateLoop_spec env _ prices _ 0 0 es n hl
  have hle := estimateLoop_le env _ prices _ 0 0 es n hl (by omega)
  have hsame : countOf res.quotationData "예정가_산정방법" "LLM 산정" =
      countOf es "예정가_산정방법" "LLM 산정" := by
    rw [hq]
    unfold sortByUrgency
    rw [countOf_perm _ _ _ _ (List.perm_insertionSort (urgencyLe env) _)]
    exact countOf_final env _ _ (by decide) (by decide) (by decide) (by decide) (by decide)
      (by decide) (by decide) (by decide) (by decide) (by decide) (by decide) es 0
  rw [hsame, hn]
  omega

/-- C13 (witness): eleven records reach the external tier and every call succeeds: ten are
tagged LLM 산정 and `llmCalls` is 10. -/
theorem llm_count_bounded_witness :
    processAgent negativeEnv elevenRows [] = .ok elevenRun ∧
    elevenRun.quotationData.length = 11 ∧ elevenRun.summary.llmCalls = 10 ∧
    countOf elevenRun.quotationData "예정가_산정방법" "LLM 산정" = 10 :=
  have h := llm_count_bounded negativeEnv elevenRows [] elevenRun (by decide!)
  ⟨by decide!, by decide!, by decide!, h.2.symm.trans (by decide!)⟩

theorem take_succ_countOf (es : List Row) (i : Nat) (e : Row) (col text : String)
    (he : es[i]? = some e) :
    countOf (es.take (i + 1)) col text =
      countOf (es.take i) col text + (if e.get col = .str text then 1 else 0) := by
  induction es generalizing i with
  | nil => simp at he
  | cons a rest ih =>
    cases i with
    | zero =>
      simp only [List.getElem?_cons_zero, Option.some.injEq] at he
      subst he
      simp [countOf_cons, countOf_nil]
    | succ i =>
      simp only [List.getElem?_cons_succ] at he
      simp only [List.take_succ_cons, countOf_cons, ih i he]
      omega

/-- The record at position `i` that reaches the external tier is estimated by
`estimateExternal`, with the counter at the number of earlier records tagged LLM 산정. -/
theorem external_step (env : Env) (prData poHistory : List Row) (es : List Row) (n i : Nat)
    (q e : Row) (prices : Dict (List JSNum)) (h : estimation env prData poHistory = .ok (es, n))
    (hb : buildUnitPrices env (keyedHistory env poHistory) = .ok prices)
    (hq : (quotationInput env prData poHistory)[i]? = some q) (he : es[i]? = some e)
    (hx : reachesExternal env (lookupIndex env poHistory) prices q = true) :
    estimateExternal env (countOf (es.take i) "예정가_산정방법" "LLM 산정") i
        (floatOr env q "요청수량" 1) q =
      (e, countOf (es.take (i + 1)) "예정가_산정방법" "LLM 산정") := by
  obtain ⟨prices', hb', hl⟩ := estimation_ok env prData poHistory es n h
  rw [hb] at hb'
  cases hb'
  obtain ⟨-, -, hrow⟩ := estimateLoop_spec env _ prices _ 0 0 es n hl
  obtain ⟨e', he', hr⟩ := hrow i q hq
  rw [he, Option.some.injEq] at he'
  subst he'
  simp only [zero_add] at hr
  simp only [reachesExternal, Bool.and_eq_true, Option.isNone_iff_eq_none,
    Bool.not_eq_true'] at hx
  rcases estimateRow_cases env _ prices _ i q e _ hr with
    ⟨m, hm, -⟩ | ⟨-, ps, hps, hne, -⟩ | ⟨-, -, hext⟩
  · rw [hx.1] at hm; cases hm
  · have := hx.2
    simp [hasGroup, hps, hne] at this
  · exact hext

/-- The records tagged LLM 산정 among the first `i` are records that reached the external
tier. -/
theorem llm_le_external (env : Env) (prData poHistory : List Row) (es : List Row) (n : Nat)
    (prices : Dict (List JSNum)) (h : estimation env prData poHistory = .ok (es, n))
    (hb : buildUnitPrices env (keyedHistory env poHistory) = .ok prices) :
    ∀ i : Nat, countOf (es.take i) "예정가_산정방법" "LLM 산정" ≤
      (((quotationInput env prData poHistory).take i).filter
        (reachesExternal env (lookupIndex env poHistory) prices)).length := by
  obtain ⟨prices', hb', hl⟩ := estimation_ok env prData poHistory es n h
  rw [hb] at hb'
  cases hb'
  obtain ⟨hlen, -, hrow⟩ := estimateLoop_spec env _ prices _ 0 0 es n hl
  intro i
  induction i with
  | zero => simp [countOf_nil]
  | succ i ih =>
    by_cases hi : i < (quotationInput env prData poHistory).length
    · have hqi := List.getElem?_eq_getElem hi
      obtain ⟨e, he, hr⟩ := hrow i _ hqi
      simp only [zero_add] at hr
      rw [take_succ_countOf es i e _ _ he, List.take_succ, hqi]
      simp only [Option.toList_some, List.filter_append, List.length_append]
      by_cases ht : e.get "예정가_산정방법" = .str "LLM 산정"
      · have hreach : reachesExternal env (lookupIndex env poHistory) prices
            ((quotationInput env prData poHistory)[i]) = true := by
          rcases estimateRow_cases env _ prices _ i _ e _ hr with
            ⟨m, -, rfl, -⟩ | ⟨-, ps, -, -, rfl, -⟩ | ⟨hn, hg, -⟩
          · simp [exactPrice] at ht
          · simp [groupPrice] at ht
          · simp [reachesExternal, hn, hg]
        simp only [ht, if_true, List.filter_cons, hreach, List.filter_nil, List.length_singleton]
        omega
      · simp only [ht, if_false]
        omega
    · have h1 : (quotationInput env prData poHistory).take (i + 1) =
          (quotationInput env prData poHistory).take i := by
        rw [List.take_of_length_le (by omega), List.take_of_length_le (by omega)]
      have h2 : es.take (i + 1) = es.take i := by
        rw [List.take_of_length_le (by omega), List.take_of_length_le (by omega)]
      rw [h1, h2]
      exact ih

/-- C14 (counterexample): eleven records reach the external tier, the call for the first
one fails and the others succeed: the eleventh record still causes a call and is tagged
LLM 산정 instead of getting the default price. -/
theorem eleventh_record_is_called :
    estimation flakyEnv elevenRows [] = .ok flakyEstimates ∧
    flakyEstimates.1.map (fun r => r.get "예정가_산정방법") =
      .str "기본값" :: List.replicate 10 (.str "LLM 산정") ∧
    ((quotationInput flakyEnv elevenRows []).filter
      (reachesExternal flakyEnv (lookupIndex flakyEnv []) [])).length = 11 ∧
    callGuard flakyEnv (countOf (flakyEstimates.1.take 10) "예정가_산정방법" "LLM 산정") = true := by
  decide!

/-- C14 (amended): with the API key set, the record at position `i` that reaches the
external tier is passed to `estimateExternal` with the counter at the number of earlier
records tagged LLM 산정, and it causes a call iff that number is below 10; so it causes a
call when fewer than 10 earlier records reached the tier, and without a call it gets the
tag 기본값 and the total 1,000,000. -/
theorem external_call_budget (env : Env) (prData poHistory : List Row) (es : List Row)
    (n i : Nat) (q e : Row) (prices : Dict (List JSNum))
    (h : estimation env prData poHistory = .ok (es, n))
    (hb : buildUnitPrices env (keyedHistory env poHistory) = .ok prices)
    (hq : (quotationInput env prData poHistory)[i]? = some q) (he : es[i]? = some e)
    (hx : reachesExternal env (lookupIndex env poHistory) prices q = true)
    (hkey : env.apiKey = true) :
    estimateExternal env (countOf (es.take i) "예정가_산정방법" "LLM 산정") i
        (floatOr env q "요청수량" 1) q =
      (e, countOf (es.take (i + 1)) "예정가_산정방법" "LLM 산정") ∧
    (callGuard env (countOf (es.take i) "예정가_산정방법" "LLM 산정") = true ↔
      countOf (es.take i) "예정가_산정방법" "LLM 산정" < 10) ∧
    ((((quotationInput env prData poHistory).take i).filter
        (reachesExternal env (lookupIndex env poHistory) prices)).length < 10 →
      callGuard env (countOf (es.take i) "예정가_산정방법" "LLM 산정") = true) ∧
    (callGuard env (countOf (es.take i) "예정가_산정방법" "LLM 산정") = false →
      e.get "예정가_산정방법" = .str "기본값" ∧ e.get "입찰예정가" = .num 1000000) := by
  have hstep := external_step env prData poHistory es n i q e prices h hb hq he hx
  have hle := llm_le_external env prData poHistory es n prices h hb i
  have hiff : callGuard env (countOf (es.take i) "예정가_산정방법" "LLM 산정") = true ↔
      countOf (es.take i) "예정가_산정방법" "LLM 산정" < 10 := by
    simp [callGuard, hkey]
  refine ⟨hstep, hiff, fun hlt => hiff.mpr (by omega), ?_⟩
  intro hoff
  have he1 : e = (estimateExternal env (countOf (es.take i) "예정가_산정방법" "LLM 산정") i
      (floatOr env q "요청수량" 1) q).1 := by rw [hstep]
  have hd : estimateExternal env (countOf (es.take i) "예정가_산정방법" "LLM 산정") i
      (floatOr env q "요청수량" 1) q =
      (defaultPrice q, countOf (es.take i) "예정가_산정방법" "LLM 산정") := by
    unfold estimateExternal
    unfold callGuard at hoff
    simp [hoff]
  rw [he1, hd]
  simp [defaultPrice]

/-- C14 (witness): in `flakyEnv` the eleventh record, with nine earlier records tagged
LLM 산정, causes a call. -/
theorem external_call_budget_witness :
    estimation flakyEnv elevenRows [] = .ok flakyEstimates ∧
    countOf (flakyEstimates.1.take 10) "예정가_산정방법" "LLM 산정" = 9 ∧
    callGuard flakyEnv (countOf (flakyEstimates.1.take 10) "예정가_산정방법" "LLM 산정") = true :=
  have h := external_call_budget flakyEnv elevenRows [] flakyEstimates.1 flakyEstimates.2 10
    boltInput (flakyEstimates.1.getD 10 []) [] (by decide!) (by decide!) (by decide!)
    (by decide!) (by decide!) (by decide!)
  ⟨by decide!, by decide!, h.2.1.mpr (by decide!)⟩

/-- C15: the record at position `i` is estimated with the counter at the number of earlier
records tagged LLM 산정, whatever the earlier calls returned; the counter grows by one
exactly when the record is tagged LLM 산정; and with the API key set a record that reaches
the external tier causes a call iff fewer than 10 earlier records are tagged LLM 산정. -/
theorem failed_call_keeps_budget (env : Env) (prData poHistory : List Row) (es : List Row)
    (n i : Nat) (q e : Row) (prices : Dict (List JSNum))
    (h : estimation env prData poHistory = .ok (es, n))
    (hb : buildUnitPrices env (keyedHistory env poHistory) = .ok prices)
    (hq : (quotationInput env prData poHistory)[i]? = some q) (he : es[i]? = some e) :
    ∃ c c' : Nat,
      estimateRow env (lookupIndex env poHistory) prices c i q = .ok (e, c') ∧
      c = countOf (es.take i) "예정가_산정방법" "LLM 산정" ∧
      (c' = c + 1 ↔ e.get "예정가_산정방법" = .str "LLM 산정") ∧
      (c' = c ↔ e.get "예정가_산정방법" ≠ .str "LLM 산정") ∧
      (reachesExternal env (lookupIndex env poHistory) prices q = true →
        env.apiKey = true → (callGuard env c = true ↔ c < 10)) ∧
      n = countOf es "예정가_산정방법" "LLM 산정" := by
  obtain ⟨prices', hb', hl⟩ := estimation_ok env prData poHistory es n h
  rw [hb] at hb'
  cases hb'
  obtain ⟨-, hn, hrow⟩ := estimateLoop_spec env _ prices _ 0 0 es n hl
  obtain ⟨e', he', hr⟩ := hrow i q hq
  rw [he, Option.some.injEq] at he'
  subst he'
  simp only [zero_add] at hr hn
  have hc := estimateRow_count env _ prices _ i q e _ hr
  refine ⟨_, _, hr, rfl, ?_, ?_, ?_, hn⟩
  · by_cases ht : e.get "예정가_산정방법" = .str "LLM 산정"
    · simp only [ht, if_true] at hc
      simp [ht, hc]
    · simp only [ht, if_false] at hc
      simp [ht, hc]
  · by_cases ht : e.get "예정가_산정방법" = .str "LLM 산정"
    · simp only [ht, if_true] at hc
      simp [ht, hc]
    · simp only [ht, if_false] at hc
      simp [ht, hc]
  · intro _ hkey
    simp [callGuard, hkey]

/-- C15 (witness): in `flakyEnv` the call for the first record fails and the ten later
records are tagged LLM 산정: the final counter is 10. -/
theorem failed_call_keeps_budget_witness :
    estimation flakyEnv elevenRows [] = .ok flakyEstimates ∧
    (flakyEstimates.1.getD 0 []).get "예정가_산정방법" = .str "기본값" ∧
    flakyEstimates.2 = countOf flakyEstimates.1 "예정가_산정방법" "LLM 산정" ∧
    flakyEstimates.2 = 10 := by
  obtain ⟨c, c', -, -, -, -, -, hn⟩ :=
    failed_call_keeps_budget flakyEnv elevenRows [] flakyEstimates.1 flakyEstimates.2 1
      boltInput (flakyEstimates.1.getD 1 []) [] (by decide!) (by decide!) (by decide!)
      (by decide!)
  exact ⟨by decide!, by decide!, hn, by decide!⟩

/-- The five ways through the body of the appropriateness loop. -/
theorem reviewRow_cases (env : Env) (x : Row) :
    (x.get "계약방식" = .str "수의계약" ∧ numLe (changeRateOf env x) (some 15) = true ∧
      (reviewRow env x).get "단가변동률" = ofNum (changeRateOf env x) ∧
      (reviewRow env x).get "수의계약_적정성" = .str "적정" ∧
      (reviewRow env x).get "HITL필요" = .bool false ∧
      (reviewRow env x).get "처리상태" = .str "자동완료" ∧
      (reviewRow env x).get "승인상태" = .str "승인대기") ∨
    (x.get "계약방식" = .str "수의계약" ∧ numLe (changeRateOf env x) (some 15) = false ∧
      (reviewRow env x).get "단가변동률" = ofNum (changeRateOf env x) ∧
      (reviewRow env x).get "수의계약_적정성" = .str "협상필요" ∧
      (reviewRow env x).get "HITL필요" = .bool true ∧
      (reviewRow env x).get "처리상태" = .str "검토필요" ∧
      (reviewRow env x).get "승인상태" = .str "검토대기") ∨
    (x.get "계약방식" ≠ .str "수의계약" ∧ isDumping env x = true ∧
      (reviewRow env x).get "최저가_적정성" = .str "덤핑의심" ∧
      (reviewRow env x).get "HITL필요" = .bool true ∧
      (reviewRow env x).get "처리상태" = .str "검토필요" ∧
      (reviewRow env x).get "승인상태" = .str "검토대기") ∨
    (x.get "계약방식" ≠ .str "수의계약" ∧ isDumping env x = false ∧
      x.get "견적경쟁력" = .str "열위" ∧
      (reviewRow env x).get "최저가_적정성" = .str "검토필요" ∧
      (reviewRow env x).get "HITL필요" = .bool true ∧
      (reviewRow env x).get "처리상태" = .str "검토필요" ∧
      (reviewRow env x).get "승인상태" = .str "검토대기") ∨
    (x.get "계약방식" ≠ .str "수의계약" ∧ isDumping env x = false ∧
      x.get "견적경쟁력" ≠ .str "열위" ∧
      (reviewRow env x).get "최저가_적정성" = .str "적정" ∧
      (reviewRow env x).get "HITL필요" = .bool false ∧
      (reviewRow env x).get "처리상태" = .str "자동완료" ∧
      (reviewRow env x).get "승인상태" = .str "승인대기") := by
  by_cases hp : x.get "계약방식" = .str "수의계약"
  · by_cases hc : numLe (changeRateOf env x) (some 15) = true
    · left
      have hc' := hc
      unfold changeRateOf at hc'
      refine ⟨hp, hc, ?_, ?_, ?_, ?_, ?_⟩ <;>
        simp [reviewRow, hp, hc', changeRateOf]
    · right; left
      have hc2 : numLe (changeRateOf env x) (some 15) = false := by simpa using hc
      have hc' := hc2
      unfold changeRateOf at hc'
      refine ⟨hp, hc2, ?_, ?_, ?_, ?_, ?_⟩ <;>
        simp [reviewRow, hp, hc', changeRateOf]
  · right; right
    by_cases hd : isDumping env x = true
    · left
      have hd' := hd
      unfold isDumping at hd'
      refine ⟨hp, hd, ?_, ?_, ?_, ?_⟩ <;> simp [reviewRow, hp, hd']
    · right
      have hd2 : isDumping env x = false := by simpa using hd
      have hd' := hd2
      unfold isDumping at hd'
      by_cases hw : x.get "견적경쟁력" = .str "열위"
      · left
        refine ⟨hp, hd2, hw, ?_, ?_, ?_, ?_⟩ <;> simp [reviewRow, hp, hd', hw]
      · right
        refine ⟨hp, hd2, hw, ?_, ?_, ?_, ?_⟩ <;> simp [reviewRow, hp, hd', hw]

theorem quoteRow_eq (env : Env) (j : Nat) (e : Row) :
    quoteRow env j e =
      if jsLe env ((quoteBase env j e).get "견적단가") ((quoteBase env j e).get "예정단가") then
        ((quoteBase env j e).set "견적경쟁력" (.str "우수")).set "견적경쟁력_신호" (.str "🟢")
      else if jsLe env ((quoteBase env j e).get "견적단가")
          (orElse ((quoteBase env j e).get "최근발주단가") ((quoteBase env j e).get "예정단가")) then
        ((quoteBase env j e).set "견적경쟁력" (.str "보통")).set "견적경쟁력_신호" (.str "🟡")
      else
        ((quoteBase env j e).set "견적경쟁력" (.str "열위")).set "견적경쟁력_신호" (.str "🔴") :=
  rfl

theorem quoteRow_spec (env : Env) (j : Nat) (e : Row) :
    (quoteRow env j e).get "견적경쟁력" =
      .str (if jsLe env ((quoteRow env j e).get "견적단가") ((quoteRow env j e).get "예정단가")
          then "우수"
        else if jsLe env ((quoteRow env j e).get "견적단가")
          (orElse ((quoteRow env j e).get "최근발주단가") ((quoteRow env j e).get "예정단가"))
          then "보통" else "열위") ∧
    (quoteRow env j e).get "견적경쟁력_신호" =
      .str (if jsLe env ((quoteRow env j e).get "견적단가") ((quoteRow env j e).get "예정단가")
          then "🟢"
        else if jsLe env ((quoteRow env j e).get "견적단가")
          (orElse ((quoteRow env j e).get "최근발주단가") ((quoteRow env j e).get "예정단가"))
          then "🟡" else "🔴") := by
  rw [quoteRow_eq]
  generalize quoteBase env j e = b
  by_cases h1 : jsLe env (b.get "견적단가") (b.get "예정단가") = true
  · simp [h1]
  · by_cases h2 : jsLe env (b.get "견적단가")
        (orElse (b.get "최근발주단가") (b.get "예정단가")) = true
    · simp [h1, h2]
    · simp [h1, h2]

theorem mem_reviewed (env : Env) (prData poHistory : List Row) (res : Result) (r : Row)
    (h : processAgent env prData poHistory = .ok res) (hr : r ∈ res.quotationData) :
    ∃ e j, r = reviewRow env (quoteRow env j e) := by
  obtain ⟨q, -, prices, c, idx, e, c', j, -, -, rfl⟩ :=
    mem_quotationData env prData poHistory res r h hr
  exact ⟨e, j, rfl⟩

theorem changeRateOf_review (env : Env) (x : Row) :
    changeRateOf env (reviewRow env x) = changeRateOf env x := by
  unfold changeRateOf
  rw [reviewRow_get env x "최근발주단가" (by decide) (by decide) (by decide) (by decide)
      (by decide) (by decide),
    reviewRow_get env x "예정단가" (by decide) (by decide) (by decide) (by decide)
      (by decide) (by decide),
    reviewRow_get env x "견적단가" (by decide) (by decide) (by decide) (by decide)
      (by decide) (by decide)]

theorem isDumping_review (env : Env) (x : Row) :
    isDumping env (reviewRow env x) = isDumping env x := by
  unfold isDumping
  rw [reviewRow_get env x "견적경쟁력" (by decide) (by decide) (by decide) (by decide)
      (by decide) (by decide),
    reviewRow_get env x "예정단가" (by decide) (by decide) (by decide) (by decide)
      (by decide) (by decide),
    reviewRow_get env x "견적단가" (by decide) (by decide) (by decide) (by decide)
      (by decide) (by decide)]

/-- The five ways through the appropriateness loop, read off the reviewed row itself. -/
theorem reviewed_cases (env : Env) (x : Row) :
    (fun r : Row =>
      (r.get "계약방식" = .str "수의계약" ∧ numLe (changeRateOf env r) (some 15) = true ∧
        r.get "단가변동률" = ofNum (changeRateOf env r) ∧
        r.get "수의계약_적정성" = .str "적정" ∧ r.get "HITL필요" = .bool false ∧
        r.get "처리상태" = .str "자동완료" ∧ r.get "승인상태" = .str "승인대기") ∨
      (r.get "계약방식" = .str "수의계약" ∧ numLe (changeRateOf env r) (some 15) = false ∧
        r.get "단가변동률" = ofNum (changeRateOf env r) ∧
        r.get "수의계약_적정성" = .str "협상필요" ∧ r.get "HITL필요" = .bool true ∧
        r.get "처리상태" = .str "검토필요" ∧ r.get "승인상태" = .str "검토대기") ∨
      (r.get "계약방식" ≠ .str "수의계약" ∧ isDumping env r = true ∧
        r.get "최저가_적정성" = .str "덤핑의심" ∧ r.get "HITL필요" = .bool true ∧
        r.get "처리상태" = .str "검토필요" ∧ r.get "승인상태" = .str "검토대기") ∨
      (r.get "계약방식" ≠ .str "수의계약" ∧ isDumping env r = false ∧
        r.get "견적경쟁력" = .str "열위" ∧
        r.get "최저가_적정성" = .str "검토필요" ∧ r.get "HITL필요" = .bool true ∧
        r.get "처리상태" = .str "검토필요" ∧ r.get "승인상태" = .str "검토대기") ∨
      (r.get "계약방식" ≠ .str "수의계약" ∧ isDumping env r = false ∧
        r.get "견적경쟁력" ≠ .str "열위" ∧
        r.get "최저가_적정성" = .str "적정" ∧ r.get "HITL필요" = .bool false ∧
        r.get "처리상태" = .str "자동완료" ∧ r.get "승인상태" = .str "승인대기"))
      (reviewRow env x) := by
  have hm : (reviewRow env x).get "계약방식" = x.get "계약방식" :=
    reviewRow_get env x _ (by decide) (by decide) (by decide) (by decide) (by decide)
      (by decide)
  have hw : (reviewRow env x).get "견적경쟁력" = x.get "견적경쟁력" :=
    reviewRow_get env x _ (by decide) (by decide) (by decide) (by decide) (by decide)
      (by decide)
  simp only [hm, hw, changeRateOf_review, isDumping_review]
  exact reviewRow_cases env x

theorem changeRateOf_pos (env : Env) (r : Row) (q P : ℚ)
    (hq : toNumber env (r.get "견적단가") = some q)
    (hP : toNumber env (orElse (r.get "최근발주단가") (r.get "예정단가")) = some P)
    (hpos : 0 < P) : changeRateOf env r = changeOf q P := by
  unfold changeRateOf jsLt
  rw [hq, hP]
  simp [toNumber, numLt, dblOp, changeOf, hpos]

/-- C16 (amended): for a returned record with contract method 수의계약, quoted unit price
`q` and reference price `P > 0` (최근발주단가, or the estimated unit price when that is
falsy), the change rate is `((q / P) - 1) * 100` as computed on doubles, each of the three
results being rounded to binary64; the record gets 적정, no review and 자동완료 iff the
computed change is at most 15, else 협상필요, review and 검토필요. -/
theorem private_contract_review (env : Env) (prData poHistory : List Row) (res : Result)
    (r : Row) (q P : ℚ) (h : processAgent env prData poHistory = .ok res)
    (hr : r ∈ res.quotationData) (hm : r.get "계약방식" = .str "수의계약")
    (hq : toNumber env (r.get "견적단가") = some q)
    (hP : toNumber env (orElse (r.get "최근발주단가") (r.get "예정단가")) = some P)
    (hpos : 0 < P) :
    r.get "단가변동률" = ofNum (changeOf q P) ∧
    (numLe (changeOf q P) (some 15) = true ↔
      r.get "수의계약_적정성" = .str "적정" ∧ r.get "HITL필요" = .bool false ∧
        r.get "처리상태" = .str "자동완료") ∧
    (numLe (changeOf q P) (some 15) = false ↔
      r.get "수의계약_적정성" = .str "협상필요" ∧ r.get "HITL필요" = .bool true ∧
        r.get "처리상태" = .str "검토필요") := by
  obtain ⟨e, j, rfl⟩ := mem_reviewed env prData poHistory res r h hr
  have hc := changeRateOf_pos env _ q P hq hP hpos
  have hcases := reviewed_cases env (quoteRow env j e)
  simp only [] at hcases
  rw [hc] at hcases
  rcases hcases with ⟨-, hle, a, b, c, d, -⟩ | ⟨-, hle, a, b, c, d, -⟩ | ⟨hn, -⟩ | ⟨hn, -⟩ |
    ⟨hn, -⟩
  · refine ⟨a, ⟨fun _ => ⟨b, c, d⟩, fun _ => hle⟩, ⟨fun hh => ?_, ?_⟩⟩
    · rw [hle] at hh
      cases hh
    · rintro ⟨b', -, -⟩
      rw [b] at b'
      exact absurd b' (by decide)
  · refine ⟨a, ⟨fun hh => ?_, ?_⟩, ⟨fun _ => ⟨b, c, d⟩, fun _ => hle⟩⟩
    · rw [hle] at hh
      cases hh
    · rintro ⟨b', -, -⟩
      rw [b] at b'
      exact absurd b' (by decide)
  · exact absurd hm hn
  · exact absurd hm hn
  · exact absurd hm hn

/-- C16 (witness): with the multiplier 1, one unit requested and the matched PO row of 23
units for 20, the quoted unit price is 1 and the reference price the double
0.8695652173913043: the computed change is 15.000000000000014 and the verdict 협상필요. -/
theorem private_contract_review_witness :
    processAgent halfEnv [unitRow] [twentyOrder] = .ok halfRun ∧
    halfRecord.get "계약방식" = .str "수의계약" ∧
    halfRecord.get "견적단가" = .num 1 ∧
    halfRecord.get "최근발주단가" = .num (7832347178035645 / 9007199254740992) ∧
    halfRecord.get "단가변동률" = .num (1055531162664961 / 70368744177664) ∧
    halfRecord.get "수의계약_적정성" = .str "협상필요" :=
  have h := private_contract_review halfEnv [unitRow] [twentyOrder] halfRun
    halfRecord 1 (7832347178035645 / 9007199254740992) (by decide!) (by decide!) (by decide!)
    (by decide!) (by decide!) (by norm_num)
  ⟨by decide!, by decide!, by decide!, by decide!, h.1.trans (by decide!),
    (h.2.2.mp (by decide!)).1⟩

/-- C16 (counterexample): in the body of the appropriateness loop, a 수의계약 row with the
quoted unit price 115 and the reference price 100 gets the change 14.999999999999991, not
15 (115 / 100 is the double 1.15, below 23 / 20); the verdict is 적정.  A row with the
prices 1862.77 and 1619.8 (as doubles) gets the same computed change and 적정, though the
exact change of these two doubles is above 15. -/
theorem boundary_change_is_rounded :
    (reviewRow quietEnv boundaryExample).get "단가변동률" =
      .num (8444249301319675 / 562949953421312) ∧
    (reviewRow quietEnv boundaryExample).get "단가변동률" ≠ .num 15 ∧
    (reviewRow quietEnv boundaryExample).get "수의계약_적정성" = .str "적정" ∧
    (reviewRow quietEnv narrowExample).get "단가변동률" =
      .num (8444249301319675 / 562949953421312) ∧
    (reviewRow quietEnv narrowExample).get "수의계약_적정성" = .str "적정" ∧
    (15 : ℚ) < ((4096274549744599 / 2199023255552 : ℚ) /
      (7123955738686259 / 4398046511104) - 1) * 100 := by
  refine ⟨by decide!, by decide!, by decide!, by decide!, by decide!, by norm_num⟩

/-- C17: for a returned record whose contract method is not 수의계약, the verdict is 덤핑의심
(with review) iff the competitiveness is 우수 and the quoted unit price is below 0.7 times
the estimated unit price; otherwise 검토필요 (with review) iff the competitiveness is 열위;
otherwise 적정, without review and with state 자동완료. -/
theorem bid_review (env : Env) (prData poHistory : List Row) (res : Result) (r : Row)
    (h : processAgent env prData poHistory = .ok res) (hr : r ∈ res.quotationData)
    (hm : r.get "계약방식" ≠ .str "수의계약") :
    (isDumping env r = true ↔
      r.get "견적경쟁력" = .str "우수" ∧
        numLt (toNumber env (r.get "견적단가"))
          (numOp (· * ·) (toNumber env (r.get "예정단가")) (some 0.7)) = true) ∧
    (r.get "최저가_적정성" = .str "덤핑의심" ↔ isDumping env r = true) ∧
    (r.get "최저가_적정성" = .str "검토필요" ↔
      isDumping env r = false ∧ r.get "견적경쟁력" = .str "열위") ∧
    (r.get "최저가_적정성" = .str "적정" ↔
      isDumping env r = false ∧ r.get "견적경쟁력" ≠ .str "열위") ∧
    (r.get "최저가_적정성" = .str "덤핑의심" ∨ r.get "최저가_적정성" = .str "검토필요" →
      r.get "HITL필요" = .bool true ∧ r.get "처리상태" = .str "검토필요") ∧
    (r.get "최저가_적정성" = .str "적정" →
      r.get "HITL필요" = .bool false ∧ r.get "처리상태" = .str "자동완료") := by
  obtain ⟨e, j, rfl⟩ := mem_reviewed env prData poHistory res r h hr
  have hcases := reviewed_cases env (quoteRow env j e)
  simp only [] at hcases
  refine ⟨?_, ?_⟩
  · simp [isDumping, jsLt, toNumber_ofNum]
  rcases hcases with ⟨hp, -⟩ | ⟨hp, -⟩ | ⟨-, hd, a, b, c, -⟩ | ⟨-, hd, hw, a, b, c, -⟩ |
    ⟨-, hd, hw, a, b, c, -⟩
  · exact absurd hp hm
  · exact absurd hp hm
  · rw [a, b, c, hd]
    simp
  · rw [a, b, c, hd]
    simp [hw]
  · rw [a, b, c, hd]
    simp [hw]

/-- C17 (witness): the record of `bidRun` is quoted at 0.8 times the default estimate: it
is 우수, not below the dumping threshold, and 적정. -/
theorem bid_review_witness :
    processAgent quietEnv [boltRow] [] = .ok bidRun ∧
    bidRecord.get "계약방식" = .str "지명경쟁" ∧ bidRecord.get "견적경쟁력" = .str "우수" ∧
    bidRecord.get "최저가_적정성" = .str "적정" :=
  have h := bid_review quietEnv [boltRow] [] bidRun bidRecord (by decide!) (by decide!)
    (by decide!)
  ⟨by decide!, by decide!, by decide!, h.2.2.2.1.mpr ⟨by decide!, by decide!⟩⟩

/-- C19: every returned record has the processing state 자동완료 or 검토필요; its approval
state is 승인대기 iff the processing state is 자동완료 and 검토대기 iff it is 검토필요; its
review flag is true iff the processing state is 검토필요. -/
theorem review_states (env : Env) (prData poHistory : List Row) (res : Result) (r : Row)
    (h : processAgent env prData poHistory = .ok res) (hr : r ∈ res.quotationData) :
    (r.get "처리상태" = .str "자동완료" ∨ r.get "처리상태" = .str "검토필요") ∧
    (r.get "승인상태" = .str "승인대기" ↔ r.get "처리상태" = .str "자동완료") ∧
    (r.get "승인상태" = .str "검토대기" ↔ r.get "처리상태" = .str "검토필요") ∧
    (r.get "HITL필요" = .bool true ↔ r.get "처리상태" = .str "검토필요") ∧
    (r.get "HITL필요" = .bool false ↔ r.get "처리상태" = .str "자동완료") := by
  obtain ⟨e, j, rfl⟩ := mem_reviewed env prData poHistory res r h hr
  have hcases := reviewed_cases env (quoteRow env j e)
  simp only [] at hcases
  rcases hcases with ⟨-, -, -, -, b, c, d⟩ | ⟨-, -, -, -, b, c, d⟩ | ⟨-, -, -, b, c, d⟩ |
    ⟨-, -, -, -, b, c, d⟩ | ⟨-, -, -, -, b, c, d⟩ <;>
  · rw [b, c, d]
    simp

/-- C19 (witness): the record of `bidRun` is 자동완료, 승인대기, without review. -/
theorem review_states_witness :
    processAgent quietEnv [boltRow] [] = .ok bidRun ∧ bidRecord ∈ bidRun.quotationData ∧
    bidRecord.get "처리상태" = .str "자동완료" ∧ bidRecord.get "승인상태" = .str "승인대기" :=
  have h := review_states quietEnv [boltRow] [] bidRun bidRecord (by decide!) (by decide!)
  ⟨by decide!, by decide!, by decide!, h.2.1.mpr (by decide!)⟩

/-- C18 (counterexample): with the collaborator answering a text as price, the estimated
unit price is NaN; the quoted unit price 80000 is not above it, yet the record is 열위. -/
theorem nan_estimate_is_poor :
    processAgent textEnv [boltRow] [] = .ok textRun ∧
    textRecord ∈ textRun.quotationData ∧
    textRecord.get "예정가_산정방법" = .str "LLM 산정" ∧
    textRecord.get "예정단가" = .nan ∧ textRecord.get "견적단가" = .num 80000 ∧
    numLt (toNumber textEnv (textRecord.get "예정단가"))
      (toNumber textEnv (textRecord.get "견적단가")) = false ∧
    textRecord.get "견적경쟁력" = .str "열위" := by
  decide!

/-- C18 (amended): for a returned record with quoted unit price `q`, estimated unit price
`e` and reference price `r` (최근발주단가, or `e` when that is falsy), the competitiveness is
우수 (🟢) iff `q <= e` holds, 보통 (🟡) iff `q <= e` fails and `q <= r` holds, 열위 (🔴) iff
both comparisons fail, as they do when a side is NaN; when the three are numbers these read
`q ≤ e`, `q > e ∧ q ≤ r` and `q > e ∧ q > r`. -/
theorem competitiveness (env : Env) (prData poHistory : List Row) (res : Result) (r : Row)
    (h : processAgent env prData poHistory = .ok res) (hr : r ∈ res.quotationData) :
    (r.get "견적경쟁력" = .str "우수" ↔
      jsLe env (r.get "견적단가") (r.get "예정단가") = true) ∧
    (r.get "견적경쟁력" = .str "보통" ↔
      jsLe env (r.get "견적단가") (r.get "예정단가") = false ∧
      jsLe env (r.get "견적단가") (orElse (r.get "최근발주단가") (r.get "예정단가")) = true) ∧
    (r.get "견적경쟁력" = .str "열위" ↔
      jsLe env (r.get "견적단가") (r.get "예정단가") = false ∧
      jsLe env (r.get "견적단가") (orElse (r.get "최근발주단가") (r.get "예정단가")) = false) ∧
    (r.get "견적경쟁력_신호" = .str "🟢" ↔ r.get "견적경쟁력" = .str "우수") ∧
    (r.get "견적경쟁력_신호" = .str "🟡" ↔ r.get "견적경쟁력" = .str "보통") ∧
    (r.get "견적경쟁력_신호" = .str "🔴" ↔ r.get "견적경쟁력" = .str "열위") ∧
    (∀ q e p : ℚ, toNumber env (r.get "견적단가") = some q →
      toNumber env (r.get "예정단가") = some e →
      toNumber env (orElse (r.get "최근발주단가") (r.get "예정단가")) = some p →
      (r.get "견적경쟁력" = .str "우수" ↔ q ≤ e) ∧
      (r.get "견적경쟁력" = .str "보통" ↔ e < q ∧ q ≤ p) ∧
      (r.get "견적경쟁력" = .str "열위" ↔ e < q ∧ p < q)) := by
  obtain ⟨x, j, rfl⟩ := mem_reviewed env prData poHistory res r h hr
  have f : ∀ k : String, k ≠ "단가변동률" → k ≠ "수의계약_적정성" → k ≠ "HITL필요" →
      k ≠ "처리상태" → k ≠ "최저가_적정성" → k ≠ "승인상태" →
      (reviewRow env (quoteRow env j x)).get k = (quoteRow env j x).get k :=
    reviewRow_get env (quoteRow env j x)
  obtain ⟨s1, s2⟩ := quoteRow_spec env j x
  rw [f "견적경쟁력" (by decide) (by decide) (by decide) (by decide) (by decide) (by decide),
    f "견적경쟁력_신호" (by decide) (by decide) (by decide) (by decide) (by decide) (by decide),
    f "견적단가" (by decide) (by decide) (by decide) (by decide) (by decide) (by decide),
    f "예정단가" (by decide) (by decide) (by decide) (by decide) (by decide) (by decide),
    f "최근발주단가" (by decide) (by decide) (by decide) (by decide) (by decide) (by decide),
    s1, s2]
  generalize (quoteRow env j x).get "견적단가" = qv
  generalize (quoteRow env j x).get "예정단가" = ev
  generalize (quoteRow env j x).get "최근발주단가" = pv
  have hnum : ∀ q e p : ℚ, toNumber env qv = some q → toNumber env ev = some e →
      toNumber env (orElse pv ev) = some p →
      (jsLe env qv ev = true ↔ q ≤ e) ∧ (jsLe env qv (orElse pv ev) = true ↔ q ≤ p) := by
    intro q e p hq he hp
    simp [jsLe, numLe, hq, he, hp]
  by_cases h1 : jsLe env qv ev = true
  · refine ⟨by simp [h1], by simp [h1], by simp [h1], by simp [h1], by simp [h1],
      by simp [h1], ?_⟩
    intro q e p hq he hp
    obtain ⟨n1, -⟩ := hnum q e p hq he hp
    have hle := n1.mp h1
    refine ⟨by simp [h1, hle], ?_, ?_⟩
    · simp only [h1, if_true]
      constructor
      · intro hh; exact absurd hh (by decide)
      · rintro ⟨hlt, -⟩; exact absurd hle (not_le.mpr hlt)
    · simp only [h1, if_true]
      constructor
      · intro hh; exact absurd hh (by decide)
      · rintro ⟨hlt, -⟩; exact absurd hle (not_le.mpr hlt)
  · have h1f : jsLe env qv ev = false := by simpa using h1
    by_cases h2 : jsLe env qv (orElse pv ev) = true
    · refine ⟨by simp [h1f, h2], by simp [h1f, h2], by simp [h1f, h2], by simp [h1f, h2],
        by simp [h1f, h2], by simp [h1f, h2], ?_⟩
      intro q e p hq he hp
      obtain ⟨n1, n2⟩ := hnum q e p hq he hp
      have hlt : e < q := not_le.mp (fun hh => h1 (n1.mpr hh))
      have hle := n2.mp h2
      refine ⟨?_, by simp [h1f, h2, hlt, hle], ?_⟩
      · simp only [h1f, h2, Bool.false_eq_true, if_false, if_true]
        constructor
        · intro hh; exact absurd hh (by decide)
        · intro hh; exact absurd hh (not_le.mpr hlt)
      · simp only [h1f, h2, Bool.false_eq_true, if_false, if_true]
        constructor
        · intro hh; exact absurd hh (by decide)
        · rintro ⟨-, hh⟩; exact absurd hle (not_le.mpr hh)
    · have h2f : jsLe env qv (orElse pv ev) = false := by simpa using h2
      refine ⟨by simp [h1f, h2f], by simp [h1f, h2f], by simp [h1f, h2f],
        by simp [h1f, h2f], by simp [h1f, h2f], by simp [h1f, h2f], ?_⟩
      intro q e p hq he hp
      obtain ⟨n1, n2⟩ := hnum q e p hq he hp
      have hlt : e < q := not_le.mp (fun hh => h1 (n1.mpr hh))
      have hlt2 : p < q := not_le.mp (fun hh => h2 (n2.mpr hh))
      refine ⟨?_, ?_, by simp [h1f, h2f, hlt, hlt2]⟩
      · simp only [h1f, h2f, Bool.false_eq_true, if_false]
        constructor
        · intro hh; exact absurd hh (by decide)
        · intro hh; exact absurd hh (not_le.mpr hlt)
      · simp only [h1f, h2f, Bool.false_eq_true, if_false]
        constructor
        · intro hh; exact absurd hh (by decide)
        · rintro ⟨-, hh⟩; exact absurd hh (not_le.mpr hlt2)

/-- C18 (witness): the record of `boundaryRun` is quoted at 115 against the estimate and
reference 100: 열위. -/
theorem competitiveness_witness :
    processAgent boundaryEnv [boltRow] [hundredOrder] = .ok boundaryRun ∧
    boundaryRecord ∈ boundaryRun.quotationData ∧
    boundaryRecord.get "견적경쟁력" = .str "열위" :=
  have h := competitiveness boundaryEnv [boltRow] [hundredOrder] boundaryRun boundaryRecord
    (by decide!) (by decide!)
  ⟨by decide!, by decide!, h.2.2.1.mpr ⟨by decide!, by decide!⟩⟩

/-- C20: with `s` the material identifier of a row as text (the empty text when the
identifier is missing or empty), the normalized key of a PR row and of a PO row is `s` when
`s` has at most 4 characters and `s` without its first 4 characters when it has more; and the
PZAF flag of a PR row is true iff `s` contains `PZAF`. -/
theorem key_normalization (env : Env) (row : Row) :
    (keyPR env row).get "자재번호_키" = .str (materialKey (matNoOf env row)) ∧
    (keyPO env row).get "자재번호_키" = .str (materialKey (matNoOf env row)) ∧
    ((matNoOf env row).length ≤ 4 → materialKey (matNoOf env row) = matNoOf env row) ∧
    ((matNoOf env row).length > 4 →
      materialKey (matNoOf env row) = ⟨(matNoOf env row).data.drop 4⟩ ∧
      (materialKey (matNoOf env row)).length = (matNoOf env row).length - 4) ∧
    (∀ s, row.get "자재번호" = .str s → matNoOf env row = s) ∧
    (row.get "자재번호" = .undefined → materialKey (matNoOf env row) = "") ∧
    ((keyPR env row).get "PZAF여부" = .bool true ↔ "PZAF".data <:+: (matNoOf env row).data) := by
  refine ⟨keyPR_key env row, keyPO_key env row, ?_, ?_, ?_, ?_, ?_⟩
  · intro hle
    have : ¬ (matNoOf env row).length > 4 := by omega
    simp [materialKey, this]
  · intro hgt
    have hk : materialKey (matNoOf env row) = ⟨(matNoOf env row).data.drop 4⟩ := by
      simp [materialKey, hgt, substringFrom]
    refine ⟨hk, ?_⟩
    rw [hk]
    show ((matNoOf env row).data.drop 4).length = (matNoOf env row).data.length - 4
    exact List.length_drop 4 _
  · intro s hs
    unfold matNoOf
    rw [hs]
    by_cases he : s = ""
    · subst he
      rfl
    · simp [orElse, truthy, he, toStr]
  · intro hu
    have : matNoOf env row = "" := by
      unfold matNoOf
      rw [hu]
      rfl
    rw [this]
    rfl
  · rw [keyPR_flag]
    simp [includes]

/-- C20 (witness): the identifier `PZAFAB1234` gives the key `AB1234` and the PZAF flag; the
identifier `PZA` is its own key. -/
theorem key_normalization_witness :
    (keyPR quietEnv boltRow).get "자재번호_키" = .str "AB1234" ∧
    (keyPR quietEnv boltRow).get "PZAF여부" = .bool true ∧
    materialKey "PZA" = "PZA" :=
  have h := key_normalization quietEnv boltRow
  ⟨h.1.trans (by decide!), h.2.2.2.2.2.2.mpr (by decide!), by decide!⟩

/-- A material key that is the key of some PO row has a group average in a run whose
unit-price groups are built without a throw. -/
theorem hasGroup_of_key (env : Env) (poHistory : List Row) (prices : Dict (List JSNum))
    (k : String) (hb : buildUnitPrices env (keyedHistory env poHistory) = .ok prices)
    (hk : ∃ row ∈ keyedHistory env poHistory, row.get "자재번호_키" = .str k) :
    hasGroup prices k = true := by
  have hspec := buildUnitPrices_spec env _ prices hb k
  rw [filter_key_eq] at hspec
  have hne : (keyedHistory env poHistory).filter
      (fun row => decide (row.get "자재번호_키" = .str k)) ≠ [] := by
    obtain ⟨row, hrow, hrk⟩ := hk
    intro hnil
    have : row ∈ (keyedHistory env poHistory).filter
        (fun row => decide (row.get "자재번호_키" = .str k)) :=
      List.mem_filter.mpr ⟨hrow, by simpa using hrk⟩
    rw [hnil] at this
    simp at this
  simp only [hne, if_false] at hspec
  have hown := (Dict.get_own_iff _ _ _).mpr hspec
  have hne' : List.map (unitPriceOf env) ((keyedHistory env poHistory).filter
      (fun row => decide (row.get "자재번호_키" = .str k))) ≠ [] := by
    simpa using hne
  simp [hasGroup, hown, hne']

/-- C22: a returned record with contract method 수의계약 is tagged 자재+내역 일치 or
그룹 평균, never LLM 산정 or 기본값: its material key is the key of a PO row, so the
unit-price group of the key is not empty. -/
theorem private_contract_priced (env : Env) (prData poHistory : List Row) (res : Result)
    (r : Row) (h : processAgent env prData poHistory = .ok res) (hr : r ∈ res.quotationData)
    (hm : r.get "계약방식" = .str "수의계약") :
    (r.get "예정가_산정방법" = .str "자재+내역 일치" ∨ r.get "예정가_산정방법" = .str "그룹 평균") ∧
    r.get "예정가_산정방법" ≠ .str "LLM 산정" ∧ r.get "예정가_산정방법" ≠ .str "기본값" ∧
    ∃ row ∈ keyedHistory env poHistory, row.get "자재번호_키" = r.get "자재번호_키" := by
  obtain ⟨q, hqm, prices, c, idx, e, c', j, hb, he, rfl⟩ :=
    mem_quotationData env prData poHistory res r h hr
  obtain ⟨k, hqk⟩ := input_key env prData poHistory q hqm
  have f := final_of_input env _ prices c idx j q e c' he
  have e2 := f "계약방식" (by decide) (by decide) (by decide) (by decide) (by decide)
    (by decide) (by decide) (by decide) (by decide) (by decide) (by decide) (by decide)
    (by decide) (by decide) (by decide)
  have e3 := f "자재번호_키" (by decide) (by decide) (by decide) (by decide) (by decide)
    (by decide) (by decide) (by decide) (by decide) (by decide) (by decide) (by decide)
    (by decide) (by decide) (by decide)
  obtain ⟨-, -, ht, -, -⟩ := final_fields env _ prices c idx j q e c' he
  rw [e2] at hm
  have hkeys : ∃ row ∈ keyedHistory env poHistory, row.get "자재번호_키" = q.get "자재번호_키" := by
    simp only [quotationInput, List.mem_map] at hqm
    obtain ⟨s, -, rfl⟩ := hqm
    obtain ⟨-, s2⟩ := contractMethodRow_spec env
      ((keyedHistory env poHistory).map (fun r => r.get "자재번호_키")) s
    rw [s2] at hm
    have hsk := contractMethodRow_get env
      ((keyedHistory env poHistory).map (fun r => r.get "자재번호_키")) s "자재번호_키"
      (by decide) (by decide) (by decide) (by decide) (by decide) (by decide) (by decide)
    rw [hsk]
    by_cases h1 : s.get "계약분류" = .str "비표준단가"
    · simp only [h1, if_true] at hm
      exact absurd hm (by decide)
    · by_cases h2 : s.get "자재번호_키" ∈
          (keyedHistory env poHistory).map (fun r => r.get "자재번호_키")
      · simpa [List.mem_map] using h2
      · simp only [h1, h2, if_false] at hm
        exact absurd hm (by decide)
  have hg := hasGroup_of_key env poHistory prices k hb (by rw [← hqk]; exact hkeys)
  have hts : toStr env (q.get "자재번호_키") = k := by rw [hqk]; rfl
  rw [ht, e3]
  refine ⟨?_, ?_, ?_, hkeys⟩
  all_goals
    rcases estimateRow_cases env _ prices c idx q e c' he with
      ⟨m, -, rfl, -⟩ | ⟨-, ps, -, -, rfl, -⟩ | ⟨-, hng, -⟩
    · simp [exactPrice]
    · simp [groupPrice]
    · rw [hts, hg] at hng
      cases hng

/-- C22 (witness): the record of `groupRun` has the contract method 수의계약 and the tag
그룹 평균. -/
theorem private_contract_priced_witness :
    processAgent quietEnv [boltRow] [nutOrder, washerOrder] = .ok groupRun ∧
    groupRecord ∈ groupRun.quotationData ∧ groupRecord.get "계약방식" = .str "수의계약" ∧
    groupRecord.get "예정가_산정방법" ≠ .str "기본값" :=
  have h := private_contract_priced quietEnv [boltRow] [nutOrder, washerOrder] groupRun
    groupRecord (by decide!) (by decide!) (by decide!)
  ⟨by decide!, by decide!, by decide!, h.2.2.1⟩

theorem changeRateOf_nonpos (env : Env) (r : Row) (P : ℚ)
    (hP : toNumber env (orElse (r.get "최근발주단가") (r.get "예정단가")) = some P)
    (hle : P ≤ 0) : changeRateOf env r = some 0 := by
  unfold changeRateOf jsLt
  rw [hP]
  have : ¬ (0 : ℚ) < P := not_lt.mpr hle
  simp [toNumber, numLt, this]

/-- C24: for a returned record with contract method 수의계약 whose reference price `P`
(최근발주단가, or the estimated unit price when that is falsy) is zero or negative, the change
rate is 0 and the record gets 적정, no review and 자동완료, whatever its quoted unit price. -/
theorem nonpositive_reference (env : Env) (prData poHistory : List Row) (res : Result)
    (r : Row) (P : ℚ) (h : processAgent env prData poHistory = .ok res)
    (hr : r ∈ res.quotationData) (hm : r.get "계약방식" = .str "수의계약")
    (hP : toNumber env (orElse (r.get "최근발주단가") (r.get "예정단가")) = some P)
    (hle : P ≤ 0) :
    r.get "단가변동률" = .num 0 ∧ r.get "수의계약_적정성" = .str "적정" ∧
    r.get "HITL필요" = .bool false ∧ r.get "처리상태" = .str "자동완료" ∧
    r.get "승인상태" = .str "승인대기" := by
  obtain ⟨e, j, rfl⟩ := mem_reviewed env prData poHistory res r h hr
  have hc := changeRateOf_nonpos env _ P hP hle
  have hcases := reviewed_cases env (quoteRow env j e)
  simp only [] at hcases
  rw [hc] at hcases
  simp only [numLe, ofNum] at hcases
  rcases hcases with ⟨-, -, a, b, c, d, g⟩ | ⟨-, hle', -⟩ | ⟨hn, -⟩ | ⟨hn, -⟩ | ⟨hn, -⟩
  · exact ⟨a, b, c, d, g⟩
  · norm_num at hle'
  · exact absurd hm hn
  · exact absurd hm hn
  · exact absurd hm hn

/-- C24 (witness): the record of `freeRun` has the reference price 0 and the quoted unit
price 80000: the change rate is 0 and the verdict 적정. -/
theorem nonpositive_reference_witness :
    processAgent quietEnv [boltRow] [freeOrder] = .ok freeRun ∧
    freeRecord.get "계약방식" = .str "수의계약" ∧ freeRecord.get "견적단가" = .num 80000 ∧
    freeRecord.get "최근발주단가" = .num 0 ∧ freeRecord.get "단가변동률" = .num 0 ∧
    freeRecord.get "수의계약_적정성" = .str "적정" :=
  have h := nonpositive_reference quietEnv [boltRow] [freeOrder] freeRun freeRecord 0
    (by decide!) (by decide!) (by decide!) (by decide!) (le_refl 0)
  ⟨by decide!, by decide!, by decide!, by decide!, h.1, h.2.1⟩

theorem urgencyRow_tier (env : Env) (row : Row) :
    (urgencyRow env row).get "긴급도" = .str "긴급" ∨
    (urgencyRow env row).get "긴급도" = .str "일반" ∨
    (urgencyRow env row).get "긴급도" = .str "여유" := by
  unfold urgencyRow
  simp only []
  split_ifs <;> simp

theorem countOf_three (l : List Row) (col a b c : String) (hab : a ≠ b) (hac : a ≠ c)
    (hbc : b ≠ c)
    (h : ∀ r ∈ l, r.get col = .str a ∨ r.get col = .str b ∨ r.get col = .str c) :
    countOf l col a + countOf l col b + countOf l col c = l.length := by
  induction l with
  | nil => rfl
  | cons r rest ih =>
    have ih' := ih (fun x hx => h x (List.mem_cons_of_mem _ hx))
    simp only [countOf_cons, List.length_cons]
    rcases h r (List.mem_cons_self _ _) with hr | hr | hr
    · have h1 : ¬ (JSVal.str a = JSVal.str b) := fun e => hab (JSVal.str.inj e)
      have h2 : ¬ (JSVal.str a = JSVal.str c) := fun e => hac (JSVal.str.inj e)
      simp only [hr, if_true, h1, h2, if_false]
      omega
    · have h1 : ¬ (JSVal.str b = JSVal.str a) := fun e => hab (JSVal.str.inj e).symm
      have h2 : ¬ (JSVal.str b = JSVal.str c) := fun e => hbc (JSVal.str.inj e)
      simp only [hr, if_true, h1, h2, if_false]
      omega
    · have h1 : ¬ (JSVal.str c = JSVal.str a) := fun e => hac (JSVal.str.inj e).symm
      have h2 : ¬ (JSVal.str c = JSVal.str b) := fun e => hbc (JSVal.str.inj e).symm
      simp only [hr, if_true, h1, h2, if_false]
      omega

theorem countOf_two (l : List Row) (col a b : String) (hab : a ≠ b)
    (h : ∀ r ∈ l, r.get col = .str a ∨ r.get col = .str b) :
    countOf l col a + countOf l col b = l.length := by
  induction l with
  | nil => rfl
  | cons r rest ih =>
    have ih' := ih (fun x hx => h x (List.mem_cons_of_mem _ hx))
    simp only [countOf_cons, List.length_cons]
    rcases h r (List.mem_cons_self _ _) with hr | hr
    · have h1 : ¬ (JSVal.str a = JSVal.str b) := fun e => hab (JSVal.str.inj e)
      simp only [hr, if_true, h1, if_false]
      omega
    · have h1 : ¬ (JSVal.str b = JSVal.str a) := fun e => hab (JSVal.str.inj e).symm
      simp only [hr, if_true, h1, if_false]
      omega

theorem selectQuotation_eq (ws : List Row) :
    selectQuotation ws =
      (ws.filter (fun w => truthy (w.get "PZAF여부") &&
        decide (w.get "계약분류" ≠ .str "표준단가"))).map orderMethodRow := by
  induction ws with
  | nil => rfl
  | cons w rest ih =>
    unfold selectQuotation at ih ⊢
    by_cases hp : truthy (w.get "PZAF여부") = true
    · by_cases hc : w.get "계약분류" = .str "표준단가"
      · have hb : ¬ (orderMethodRow w).get "발주방식" = .str "입찰(견적) 진행" :=
          fun hh => ((orderMethodRow_bid w).mp hh) hc
        simp only [List.filter_cons, hp, if_true, List.map_cons, hb, decide_False,
          Bool.false_eq_true, if_false, hc, ne_eq, not_true_eq_false, Bool.and_false]
        exact ih
      · have hb : (orderMethodRow w).get "발주방식" = .str "입찰(견적) 진행" :=
          (orderMethodRow_bid w).mpr hc
        simp only [List.filter_cons, hp, if_true, List.map_cons, hb, decide_True, hc, ne_eq,
          not_false_eq_true, Bool.and_self]
        rw [ih]
    · simp only [List.filter_cons, hp, Bool.false_eq_true, if_false, Bool.false_and]
      exact ih

/-- The counters of the summary of a run that returns. -/
theorem processAgent_summary (env : Env) (prData poHistory : List Row) (res : Result)
    (h : processAgent env prData poHistory = .ok res) :
    ∃ es n, estimation env prData poHistory = .ok (es, n) ∧
      res.summary.total = ((quoteLoop env 0 es).map (reviewRow env)).length ∧
      res.summary.urgent = countOf (scored env prData) "긴급도" "긴급" ∧
      res.summary.normal = countOf (scored env prData) "긴급도" "일반" ∧
      res.summary.flexible = countOf (scored env prData) "긴급도" "여유" ∧
      res.summary.autoComplete =
        countOf ((quoteLoop env 0 es).map (reviewRow env)) "처리상태" "자동완료" ∧
      res.summary.needReview =
        countOf ((quoteLoop env 0 es).map (reviewRow env)) "처리상태" "검토필요" := by
  replace h := (processAgent_valid env prData poHistory res h).1
  unfold processValid at h
  simp only [] at h
  cases he : estimation env prData poHistory with
  | error e => rw [he] at h; simp at h
  | ok p =>
    obtain ⟨es, n⟩ := p
    rw [he] at h
    simp only [Except.ok.injEq] at h
    refine ⟨es, n, rfl, ?_, ?_, ?_, ?_, ?_, ?_⟩ <;> rw [← h]

/-- C25: in the summary of a run that returns, urgent + normal + flexible is the number of
validated records, total is the number of returned records and at most that sum, strictly
less when some validated record is not PZAF or is classified 표준단가, and
autoComplete + needReview = total. -/
theorem summary_counts (env : Env) (prData poHistory : List Row) (res : Result)
    (h : processAgent env prData poHistory = .ok res) :
    res.summary.urgent + res.summary.normal + res.summary.flexible =
      (validate env (prData.map (keyPR env))).1.length ∧
    res.summary.total = res.quotationData.length ∧
    res.summary.total ≤ res.summary.urgent + res.summary.normal + res.summary.flexible ∧
    ((∃ w ∈ matched env prData poHistory,
        includes (matNoOf env w) "PZAF" = false ∨ w.get "계약분류" = .str "표준단가") →
      res.summary.total < res.summary.urgent + res.summary.normal + res.summary.flexible) ∧
    res.summary.autoComplete + res.summary.needReview = res.summary.total := by
  obtain ⟨es, n, he, ht, hu, hn, hf, ha, hv⟩ := processAgent_summary env prData poHistory res h
  obtain ⟨es', n', prices, -, hl, hq, -, -⟩ := processAgent_ok env prData poHistory res h
  obtain ⟨prices', -, hl'⟩ := estimation_ok env prData poHistory es n he
  obtain ⟨hlen, -, -⟩ := estimateLoop_spec env _ prices' _ 0 0 es n hl'
  have hsum : res.summary.urgent + res.summary.normal + res.summary.flexible =
      (scored env prData).length := by
    rw [hu, hn, hf]
    apply countOf_three _ _ _ _ _ (by decide) (by decide) (by decide)
    intro r hr
    simp only [scored, List.mem_map] at hr
    obtain ⟨w, -, rfl⟩ := hr
    exact urgencyRow_tier env w
  have hscored : (scored env prData).length =
      (validate env (prData.map (keyPR env))).1.length := by
    simp [scored, classified]
  have hmatched : (matched env prData poHistory).length = (scored env prData).length := by
    simp [matched]
  have htotal : res.summary.total = (selectQuotation (matched env prData poHistory)).length := by
    rw [ht, List.length_map, length_quoteLoop, hlen]
    simp [quotationInput]
  have hres : res.quotationData.length = res.summary.total := by
    obtain ⟨es2, n2, pr2, -, hl2, hq2, -, -⟩ := processAgent_ok env prData poHistory res h
    rw [hq2, ht]
    unfold sortByUrgency
    rw [List.length_insertionSort]
    obtain ⟨pr3, -, hl3⟩ := estimation_ok env prData poHistory es n he
    have : estimateLoop env (lookupIndex env poHistory) pr2 0 0
        (quotationInput env prData poHistory) = .ok (es2, n2) := hl2
    simp only [List.length_map, length_quoteLoop]
    obtain ⟨l2, -, -⟩ := estimateLoop_spec env _ pr2 _ 0 0 es2 n2 hl2
    rw [l2, hlen]
  refine ⟨hsum.trans hscored, hres.symm, ?_, ?_, ?_⟩
  · rw [hsum, htotal, selectQuotation_eq, List.length_map, ← hmatched]
    exact List.length_filter_le _ _
  · rintro ⟨w, hw, hcond⟩
    rw [hsum, htotal, selectQuotation_eq, List.length_map, ← hmatched,
      List.length_filter_lt_length_iff_exists]
    refine ⟨w, hw, ?_⟩
    obtain ⟨-, hflag⟩ := matched_fields env prData poHistory w hw
    rcases hcond with hc | hc
    · rw [hflag, hc]
      simp [truthy]
    · simp [hc]
  · rw [ha, hv, ht]
    apply countOf_two _ _ _ _ (by decide)
    intro r hr
    simp only [List.mem_map] at hr
    obtain ⟨x, -, rfl⟩ := hr
    have hcases := reviewed_cases env x
    simp only [] at hcases
    rcases hcases with ⟨-, -, -, -, -, c, -⟩ | ⟨-, -, -, -, -, c, -⟩ | ⟨-, -, -, -, c, -⟩ |
      ⟨-, -, -, -, -, c, -⟩ | ⟨-, -, -, -, -, c, -⟩
    · exact Or.inl c
    · exact Or.inr c
    · exact Or.inr c
    · exact Or.inr c
    · exact Or.inl c

/-- C25 (witness): of two validated records one is not PZAF: the tiers count 2 records and
total is 1. -/
theorem summary_counts_witness :
    processAgent quietEnv [boltRow, otherRow] [boltOrder] = .ok mixedRun ∧
    mixedRun.summary.urgent + mixedRun.summary.normal + mixedRun.summary.flexible = 2 ∧
    mixedRun.summary.total = 1 ∧
    mixedRun.summary.autoComplete + mixedRun.summary.needReview = mixedRun.summary.total :=
  have h := summary_counts quietEnv [boltRow, otherRow] [boltOrder] mixedRun (by decide!)
  ⟨by decide!, h.1.trans (by decide!), by decide!, h.2.2.2.2⟩

theorem estimateRow_total (env : Env) (lk : Dict Row) (pr : Dict (List JSNum)) (c idx : Nat)
    (row e : Row) (c' : Nat) (h : estimateRow env lk pr c idx row = .ok (e, c')) :
    ∃ x : JSNum, e.get "입찰예정가" = ofNum x := by
  rcases estimateRow_cases env lk pr c idx row e c' h with
    ⟨m, -, rfl, -⟩ | ⟨-, prices, -, -, rfl, -⟩ | ⟨-, -, hx⟩
  · have : (exactPrice env m (floatOr env row "요청수량" 1) row).get "입찰예정가" =
        ofNum (mathRound (dblOp mulD
          (divD (floatOr env m "발주금액(KRW)-변환" 0) (floatOr env m "발주수량" 1))
          (some (floatOr env row "요청수량" 1)))) := by
      simp [exactPrice]
    exact ⟨_, this⟩
  · have : (groupPrice prices (floatOr env row "요청수량" 1) row).get "입찰예정가" =
        ofNum (mathRound (dblOp mulD
          (dblOp divD (prices.foldl (dblOp addD) (some 0)) (some (prices.length : ℚ)))
          (some (floatOr env row "요청수량" 1)))) := by
      simp [groupPrice]
    exact ⟨_, this⟩
  · have he1 : e = (estimateExternal env c idx (floatOr env row "요청수량" 1) row).1 := by
      rw [hx]
    rcases estimateExternal_tag env c idx (floatOr env row "요청수량" 1) row with
      ⟨-, -, -, -, -, p⟩ | ⟨-, -, -, p⟩
    · exact ⟨_, he1 ▸ p⟩
    · exact ⟨some 1000000, by rw [he1, p]; rfl⟩

theorem quoteBase_get (env : Env) (j : Nat) (e : Row) (k : String)
    (h1 : k ≠ "Mock_견적금액") (h2 : k ≠ "견적단가") (h3 : k ≠ "예정단가") :
    (quoteBase env j e).get k = e.get k := by
  simp [quoteBase, h1, h2, h3]

/-- The quoted and the estimated unit price of a quoted row. -/
theorem floatOr_set (env : Env) (r : Row) (k col : String) (v : JSVal) (d : ℚ)
    (h : col ≠ k) : floatOr env (r.set k v) col d = floatOr env r col d := by
  simp [floatOr, h]

theorem quoteRow_prices (env : Env) (j : Nat) (e : Row) :
    (quoteRow env j e).get "견적단가" =
      ofNum (numOp (· / ·)
        (numOp (· * ·) (toNumber env (orElse (e.get "입찰예정가") (.num 1000000)))
          (some (0.8 + env.random j * 0.4)))
        (some (floatOr env e "요청수량" 1))) ∧
    (quoteRow env j e).get "예정단가" =
      ofNum (numOp (· / ·) (toNumber env (e.get "입찰예정가"))
        (some (floatOr env e "요청수량" 1))) := by
  rw [quoteRow_eq]
  have b1 : (quoteBase env j e).get "견적단가" =
      ofNum (numOp (· / ·)
        (numOp (· * ·) (toNumber env (orElse (e.get "입찰예정가") (.num 1000000)))
          (some (0.8 + env.random j * 0.4)))
        (some (floatOr env e "요청수량" 1))) := by
    unfold quoteBase
    simp [floatOr_set, toNumber_ofNum]
  have b2 : (quoteBase env j e).get "예정단가" =
      ofNum (numOp (· / ·) (toNumber env (e.get "입찰예정가"))
        (some (floatOr env e "요청수량" 1))) := by
    unfold quoteBase
    simp [floatOr_set]
  rw [← b1, ← b2]
  generalize quoteBase env j e = b
  split_ifs <;> simp

theorem floatOr_ne_zero (env : Env) (row : Row) (col : String) :
    floatOr env row col 1 ≠ 0 := by
  unfold floatOr numOr
  cases jsParseFloat env (row.get col) with
  | none => simp
  | some q =>
    by_cases hq : q = 0
    · simp [hq]
    · simp [hq]

/-- C23: when every draw of the random source is at least 0, a returned record whose
contract method is not 수의계약 and whose estimated unit price `e` is positive has a quoted
unit price of at least 0.8 times `e`, is not below the dumping threshold 0.7 times `e`, and
gets the verdict 적정 or 검토필요, never 덤핑의심. -/
theorem no_dumping_on_simulation (env : Env) (prData poHistory : List Row) (res : Result)
    (r : Row) (e : ℚ) (h : processAgent env prData poHistory = .ok res)
    (hr : r ∈ res.quotationData) (hm : r.get "계약방식" ≠ .str "수의계약")
    (he : toNumber env (r.get "예정단가") = some e) (hpos : 0 < e)
    (hrand : ∀ j, 0 ≤ env.random j) :
    (∃ q, toNumber env (r.get "견적단가") = some q ∧ 0.8 * e ≤ q) ∧
    isDumping env r = false ∧
    r.get "최저가_적정성" ≠ .str "덤핑의심" ∧
    (r.get "최저가_적정성" = .str "적정" ∨ r.get "최저가_적정성" = .str "검토필요") := by
  obtain ⟨q0, -, prices, c, idx, x, c', j, -, hx, rfl⟩ :=
    mem_quotationData env prData poHistory res r h hr
  obtain ⟨t, ht⟩ := estimateRow_total env _ prices c idx q0 x c' hx
  obtain ⟨p1, p2⟩ := quoteRow_prices env j x
  have f : ∀ k : String, k ≠ "단가변동률" → k ≠ "수의계약_적정성" → k ≠ "HITL필요" →
      k ≠ "처리상태" → k ≠ "최저가_적정성" → k ≠ "승인상태" →
      (reviewRow env (quoteRow env j x)).get k = (quoteRow env j x).get k :=
    reviewRow_get env (quoteRow env j x)
  have g1 := f "견적단가" (by decide) (by decide) (by decide) (by decide) (by decide)
    (by decide)
  have g2 := f "예정단가" (by decide) (by decide) (by decide) (by decide) (by decide)
    (by decide)
  rw [g2, p2, ht, toNumber_ofNum, toNumber_ofNum] at he
  have hQ := floatOr_ne_zero env x "요청수량"
  cases t with
  | none => simp [numOp] at he
  | some T =>
    simp only [numOp, Option.some.injEq] at he
    have hT : T ≠ 0 := by
      intro h0
      rw [h0, zero_div] at he
      rw [← he] at hpos
      exact lt_irrefl _ hpos
    have hu : (0.8 : ℚ) ≤ 0.8 + env.random j * 0.4 := by
      have := hrand j
      have h4 : (0 : ℚ) ≤ env.random j * 0.4 := mul_nonneg this (by norm_num)
      linarith
    have hqv : toNumber env ((reviewRow env (quoteRow env j x)).get "견적단가") =
        some (e * (0.8 + env.random j * 0.4)) := by
      rw [g1, p1, ht, toNumber_ofNum]
      simp only [ofNum, orElse, truthy, hT, ne_eq, not_false_eq_true, decide_True, if_true,
        toNumber, numOp, Option.some.injEq]
      rw [← he]
      field_simp
    have hev : toNumber env ((reviewRow env (quoteRow env j x)).get "예정단가") = some e := by
      rw [g2, p2, ht, toNumber_ofNum, toNumber_ofNum]
      simp only [numOp, Option.some.injEq]
      exact he
    have hge : 0.8 * e ≤ e * (0.8 + env.random j * 0.4) := by
      have := mul_le_mul_of_nonneg_left hu hpos.le
      linarith
    have hnd : isDumping env (reviewRow env (quoteRow env j x)) = false := by
      unfold isDumping jsLt
      rw [hqv, hev]
      have hlt : ¬ e * (0.8 + env.random j * 0.4) < e * 0.7 := by
        have : e * 0.7 < 0.8 * e := by nlinarith
        intro hh
        linarith
      simp [numOp, toNumber_ofNum, numLt, hlt]
    have hcases := reviewed_cases env (quoteRow env j x)
    simp only [] at hcases
    refine ⟨⟨_, hqv, hge⟩, hnd, ?_, ?_⟩
    · rcases hcases with ⟨hp, -⟩ | ⟨hp, -⟩ | ⟨-, hd, -⟩ | ⟨-, -, -, a, -⟩ | ⟨-, -, -, a, -⟩
      · exact absurd hp hm
      · exact absurd hp hm
      · rw [hnd] at hd; cases hd
      · rw [a]; decide
      · rw [a]; decide
    · rcases hcases with ⟨hp, -⟩ | ⟨hp, -⟩ | ⟨-, hd, -⟩ | ⟨-, -, -, a, -⟩ | ⟨-, -, -, a, -⟩
      · exact absurd hp hm
      · exact absurd hp hm
      · rw [hnd] at hd; cases hd
      · exact Or.inr a
      · exact Or.inl a

/-- C23 (witness): the record of `bidRun`, estimated at the default 1,000,000 for 10 units,
is quoted at 0.8 times the estimate and is 적정. -/
theorem no_dumping_on_simulation_witness :
    processAgent quietEnv [boltRow] [] = .ok bidRun ∧
    bidRecord.get "예정단가" = .num 100000 ∧ bidRecord.get "견적단가" = .num 80000 ∧
    bidRecord.get "최저가_적정성" ≠ .str "덤핑의심" :=
  have h := no_dumping_on_simulation quietEnv [boltRow] [] bidRun bidRecord 100000
    (by decide!) (by decide!) (by decide!) (by decide!) (by norm_num)
    (fun _ => le_refl 0)
  ⟨by decide!, by decide!, by decide!, h.2.2.1⟩

theorem Row.lookup_write (r : Row) (k k' : String) (v : JSVal) :
    List.lookup k' (r.set k v) = if k' = k then some v else List.lookup k' r := by
  have h : ∀ (r : Row), r.set k v = Dict.set r k v := by
    intro r
    induction r with
    | nil => rfl
    | cons p rest ih =>
      obtain ⟨k0, v0⟩ := p
      simp only [Row.set, Dict.set, ih]
  rw [h]
  exact Dict.lookup_set r k' k v

theorem Row.set_eq_self (r : Row) (k : String) (v : JSVal) (h : List.lookup k r = some v) :
    r.set k v = r := by
  induction r with
  | nil => simp [List.lookup] at h
  | cons p rest ih =>
    obtain ⟨k0, v0⟩ := p
    by_cases h0 : k0 = k
    · subst h0
      have hb : (k0 == k0) = true := by simp
      simp only [List.lookup, hb, Option.some.injEq] at h
      simp [Row.set, h]
    · have hb : (k == k0) = false := by
        simpa using fun e : k = k0 => h0 e.symm
      simp only [List.lookup, hb] at h
      simp [Row.set, h0, ih h]

theorem Row.lookup_of_has (r : Row) (k : String) (h : r.has k) :
    List.lookup k r = some (r.get k) := by
  unfold Row.has at h
  unfold Row.get
  cases hl : List.lookup k r with
  | none => rw [hl] at h; simp at h
  | some v => rfl

theorem Row.has_set (r : Row) (k k' : String) (v : JSVal) :
    (r.set k v).has k' ↔ k' = k ∨ r.has k' := by
  unfold Row.has
  rw [Row.lookup_write]
  by_cases h : k' = k <;> simp [h]

theorem applyWrites_nil (r : Row) : applyWrites r [] = r := rfl

theorem applyWrites_cons (r : Row) (kv : String × JSVal) (ws : Writes) :
    applyWrites r (kv :: ws) = applyWrites (r.set kv.1 kv.2) ws := rfl

theorem applyWrites_get_of_not_mem (ws : Writes) :
    ∀ (r : Row) (k : String), k ∉ ws.map Prod.fst → (applyWrites r ws).get k = r.get k := by
  induction ws with
  | nil => intro r k _; rfl
  | cons kv ws ih =>
    intro r k hk
    simp only [List.map_cons, List.mem_cons, not_or] at hk
    rw [applyWrites_cons, ih _ _ hk.2, Row.get_set]
    simp [hk.1]

theorem applyWrites_has (ws : Writes) :
    ∀ (r : Row) (k : String), r.has k → (applyWrites r ws).has k := by
  induction ws with
  | nil => intro r k h; exact h
  | cons kv ws ih =>
    intro r k h
    rw [applyWrites_cons]
    exact ih _ _ ((Row.has_set r kv.1 k kv.2).mpr (Or.inr h))

theorem applyWrites_written (ws : Writes) :
    ∀ (r : Row) (kv : String × JSVal), (ws.map Prod.fst).Nodup → kv ∈ ws →
      (applyWrites r ws).has kv.1 ∧ (applyWrites r ws).get kv.1 = kv.2 := by
  induction ws with
  | nil => intro r kv _ h; simp at h
  | cons w ws ih =>
    intro r kv hnd hmem
    simp only [List.map_cons, List.nodup_cons] at hnd
    rw [applyWrites_cons]
    rcases List.mem_cons.mp hmem with rfl | hin
    · refine ⟨applyWrites_has ws _ _ ((Row.has_set r kv.1 kv.1 kv.2).mpr (Or.inl rfl)), ?_⟩
      rw [applyWrites_get_of_not_mem ws _ _ hnd.1, Row.get_set]
      simp
    · exact ih _ kv hnd.2 hin

theorem applyWrites_eq_self (ws : Writes) (r : Row)
    (h : ∀ kv ∈ ws, r.has kv.1 ∧ r.get kv.1 = kv.2) : applyWrites r ws = r := by
  induction ws with
  | nil => rfl
  | cons w ws ih =>
    rw [applyWrites_cons]
    obtain ⟨h1, h2⟩ := h w (List.mem_cons_self _ _)
    have : r.set w.1 w.2 = r := by
      apply Row.set_eq_self
      rw [Row.lookup_of_has r w.1 h1, h2]
    rw [this]
    exact ih (fun kv hkv => h kv (List.mem_cons_of_mem _ hkv))

theorem Stage.get_run (s : Stage) (hs : s.Ok) (r : Row) (k : String) (hk : k ∉ s.keys) :
    (s.run r).get k = r.get k := by
  apply applyWrites_get_of_not_mem
  intro hmem
  obtain ⟨kv, hkv, rfl⟩ := List.mem_map.mp hmem
  exact hk (hs.within r kv hkv)

theorem Stage.has_run (s : Stage) (r : Row) (k : String) (h : r.has k) : (s.run r).has k :=
  applyWrites_has _ _ _ h

theorem runStages_get (ss : List Stage) :
    ∀ (r : Row) (k : String), (∀ s ∈ ss, s.Ok) → (∀ s ∈ ss, k ∉ s.keys) →
      (runStages ss r).get k = r.get k := by
  induction ss with
  | nil => intro r k _ _; rfl
  | cons s ss ih =>
    intro r k hok hk
    show (runStages ss (s.run r)).get k = r.get k
    rw [ih _ _ (fun t ht => hok t (List.mem_cons_of_mem _ ht))
      (fun t ht => hk t (List.mem_cons_of_mem _ ht)),
      Stage.get_run s (hok s (List.mem_cons_self _ _)) r k (hk s (List.mem_cons_self _ _))]

theorem runStages_has (ss : List Stage) :
    ∀ (r : Row) (k : String), r.has k → (runStages ss r).has k := by
  induction ss with
  | nil => intro r k h; exact h
  | cons s ss ih =>
    intro r k h
    exact ih _ _ (Stage.has_run s r k h)

/-- A row that went through an ordered list of stages is left as it is by each of them. -/
theorem runStages_stable (ss : List Stage) :
    ∀ (r : Row), (∀ s ∈ ss, s.Ok) → Ordered ss →
      ∀ s ∈ ss, s.run (runStages ss r) = runStages ss r := by
  induction ss with
  | nil => intro r _ _ s hs; simp at hs
  | cons s0 ss ih =>
    intro r hok hord s hs
    obtain ⟨hself, hrest, hord'⟩ := hord
    have hok' : ∀ t ∈ ss, t.Ok := fun t ht => hok t (List.mem_cons_of_mem _ ht)
    have hok0 := hok s0 (List.mem_cons_self _ _)
    show s.run (runStages ss (s0.run r)) = runStages ss (s0.run r)
    rcases List.mem_cons.mp hs with rfl | hin
    · have hreads : ∀ k ∈ s.reads, (runStages ss (s.run r)).get k = r.get k := by
        intro k hk
        rw [runStages_get ss _ k hok' (fun t ht => (hrest t ht).1 k hk),
          Stage.get_run s hok0 r k (hself k hk)]
      have hw : s.writes (runStages ss (s.run r)) = s.writes r := hok0.congr _ _ hreads
      unfold Stage.run at *
      rw [hw]
      apply applyWrites_eq_self
      intro kv hkv
      obtain ⟨h1, h2⟩ := applyWrites_written (s.writes r) r kv (hok0.nodup r) hkv
      refine ⟨runStages_has ss _ _ h1, ?_⟩
      have hkey : kv.1 ∈ s.keys := hok0.within r kv hkv
      have := runStages_get ss (applyWrites r (s.writes r)) kv.1 hok'
        (fun t ht => (hrest t ht).2 kv.1 hkey)
      unfold Stage.run at this
      rw [this, h2]
    · exact ih (s0.run r) hok' hord' s hin

theorem missingColumns_congr (env : Env) (r r' : Row)
    (h : ∀ k ∈ REQUIRED_COLUMNS, r.get k = r'.get k) :
    missingColumns env r = missingColumns env r' := by
  unfold missingColumns
  apply List.filter_congr
  intro col hcol
  rw [h col hcol]

theorem keyPR_eq (env : Env) (r : Row) : keyPR env r = (keyStage env).run r := rfl

theorem keyStage_ok (env : Env) : (keyStage env).Ok where
  congr := by
    intro r r' h
    have h1 := h "자재번호" (by simp [keyStage])
    simp only [keyStage, matNoOf, h1]
  within := by
    intro r kv h
    simp only [keyStage, List.mem_cons, List.mem_singleton, List.not_mem_nil, or_false] at h ⊢
    rcases h with rfl | rfl <;> simp
  nodup := by
    intro r
    simp [keyStage]

theorem validateRow_eq (env : Env) (r : Row) : validateRow env r = (validateStage env).run r := by
  unfold validateRow Stage.run validateStage
  by_cases h : (missingColumns env r).length > 0
  · simp only [h, if_true]; rfl
  · simp only [h, if_false]; rfl

theorem validateStage_ok (env : Env) : (validateStage env).Ok where
  congr := by
    intro r r' h
    have h1 := missingColumns_congr env r r' h
    simp only [validateStage, h1]
  within := by
    intro r kv h
    simp only [validateStage] at h ⊢
    split at h
    · simp only [List.mem_cons, List.mem_singleton, List.not_mem_nil, or_false] at h
      rcases h with rfl | rfl <;> simp
    · simp only [List.mem_singleton] at h
      subst h; simp
  nodup := by
    intro r
    simp only [validateStage]
    split <;> simp

theorem classifyRow_eq (env : Env) (r : Row) : classifyRow env r = (classifyStage env).run r := by
  unfold classifyRow Stage.run classifyStage
  simp only
  split
  · rfl
  · split <;> rfl

theorem classifyStage_ok (env : Env) : (classifyStage env).Ok where
  congr := by
    intro r r' h
    have h1 := h "단가계약번호" (by simp [classifyStage])
    have h2 := h "자동배량그룹" (by simp [classifyStage])
    simp only [classifyStage, h1, h2]
  within := by
    intro r kv h
    simp only [classifyStage] at h ⊢
    split at h
    · simp only [List.mem_singleton] at h; subst h; simp
    · split at h <;> (simp only [List.mem_singleton] at h; subst h; simp)
  nodup := by
    intro r
    simp only [classifyStage]
    split
    · simp
    · split <;> simp

theorem urgencyRow_eq (env : Env) (r : Row) : urgencyRow env r = (urgencyStage env).run r := by
  unfold urgencyRow Stage.run urgencyStage
  simp only
  split
  · split
    · rfl
    · split <;> rfl
  · rfl

theorem urgencyStage_ok (env : Env) : (urgencyStage env).Ok where
  congr := by
    intro r r' h
    have h1 := h "PR납기일" (by simp [urgencyStage])
    have h2 := h "LEAD_TIME" (by simp [urgencyStage])
    simp only [urgencyStage, h1, h2, Row.get_set, if_true]
  within := by
    intro r kv h
    simp only [urgencyStage] at h ⊢
    split at h
    · simp only [List.mem_append, List.mem_cons, List.mem_singleton, List.not_mem_nil,
        or_false] at h
      rcases h with (rfl | rfl) | h
      · simp
      · simp
      · split at h
        · simp only [List.mem_cons, List.mem_singleton, List.not_mem_nil, or_false] at h
          rcases h with rfl | rfl <;> simp
        · split at h <;>
            (simp only [List.mem_cons, List.mem_singleton, List.not_mem_nil, or_false] at h
             rcases h with rfl | rfl <;> simp)
    · simp only [List.mem_cons, List.mem_singleton, List.not_mem_nil, or_false] at h
      rcases h with rfl | rfl <;> simp
  nodup := by
    intro r
    simp only [urgencyStage]
    split
    · split
      · simp
      · split <;> simp
    · simp

theorem matchRow_eq (env : Env) (lk : Dict Row) (r : Row) :
    matchRow env lk r = (matchStage env lk).run r := by
  unfold matchRow Stage.run matchStage
  simp only
  cases findMatch lk (compositeKey env r "내역") <;> rfl

theorem matchStage_ok (env : Env) (lk : Dict Row) : (matchStage env lk).Ok where
  congr := by
    intro r r' h
    have h1 := h "자재번호_키" (by simp [matchStage])
    have h2 := h "내역" (by simp [matchStage])
    simp only [matchStage, compositeKey, h1, h2]
  within := by
    intro r kv h
    simp only [matchStage] at h ⊢
    cases hf : findMatch lk (compositeKey env r "내역") with
    | none =>
      rw [hf] at h
      simp only [List.mem_singleton] at h; subst h; simp
    | some m =>
      rw [hf] at h
      simp only [List.mem_cons, List.mem_singleton, List.not_mem_nil, or_false] at h
      rcases h with rfl | rfl | rfl | rfl | rfl | rfl <;> simp
  nodup := by
    intro r
    simp only [matchStage]
    cases findMatch lk (compositeKey env r "내역") <;> simp

theorem orderMethodRow_eq (r : Row) : orderMethodRow r = orderStage.run r := rfl

theorem orderStage_ok : orderStage.Ok where
  congr := by
    intro r r' h
    have h1 := h "계약분류" (by simp [orderStage])
    simp only [orderStage, h1]
  within := by
    intro r kv h
    simp only [orderStage, List.mem_singleton] at h ⊢
    subst h; simp
  nodup := by
    intro r
    simp [orderStage]

theorem contractMethodRow_eq (env : Env) (keys : List JSVal) (r : Row) :
    contractMethodRow env keys r = (contractStage env keys).run r := by
  unfold contractMethodRow Stage.run contractStage
  simp only [applyWrites, List.foldl]
  by_cases h1 : r.get "계약분류" = .str "비표준단가"
  · simp [h1, Row.get_set]
  · by_cases h2 : r.get "자재번호_키" ∈ keys
    · simp [h1, h2, Row.get_set, truthy]
    · simp [h1, h2, Row.get_set, truthy]

theorem contractStage_ok (env : Env) (keys : List JSVal) : (contractStage env keys).Ok where
  congr := by
    intro r r' h
    have h1 := h "자재번호_키" (by simp [contractStage])
    have h2 := h "계약분류" (by simp [contractStage])
    have h3 := h "PR생성형태" (by simp [contractStage])
    have h4 := h "매칭업체코드" (by simp [contractStage])
    simp only [contractStage, h1, h2, h3, h4]
  within := by
    intro r kv h
    simp only [contractStage, List.mem_cons, List.mem_singleton, List.not_mem_nil,
      or_false] at h ⊢
    rcases h with rfl | rfl | rfl | rfl | rfl | rfl | rfl <;> simp
  nodup := by
    intro r
    simp [contractStage]

theorem estimateExternal_eq (env : Env) (c idx : Nat) (qty : ℚ) (row : Row) :
    estimateExternal env c idx qty row =
      (applyWrites row (externalWrites env c idx qty).1, (externalWrites env c idx qty).2) := by
  unfold estimateExternal externalWrites
  simp only
  split
  · split <;> rfl
  · rfl

theorem estimateRow_eq (env : Env) (lk : Dict Row) (pr : Dict (List JSNum)) (c idx : Nat)
    (row : Row) :
    estimateRow env lk pr c idx row =
      match estimateCore env lk pr c idx (toStr env (row.get "자재번호_키"))
          (floatOr env row "요청수량" 1) (compositeKey env row "내역") with
      | .ok (ws, c') => .ok (applyWrites row ws, c')
      | .error e => .error e := by
  unfold estimateRow estimateCore
  simp only
  cases findMatch lk (compositeKey env row "내역") with
  | some m => rfl
  | none =>
    simp only
    cases pr.get (toStr env (row.get "자재번호_키")) with
    | own prices =>
      simp only
      split
      · rfl
      · simp only [estimateExternal_eq]
    | inherited n =>
      cases n with
      | none => simp only [estimateExternal_eq]
      | some n =>
        simp only
        split
        · rfl
        · simp only [estimateExternal_eq]
    | absent => simp only [estimateExternal_eq]

theorem externalWrites_shape (env : Env) (c idx : Nat) (qty : ℚ) :
    estimateShape (externalWrites env c idx qty).1 := by
  unfold externalWrites estimateShape
  split
  · split
    · right; left; rfl
    · right; right; rfl
  · right; right; rfl

theorem estimateCore_shape (env : Env) (lk : Dict Row) (pr : Dict (List JSNum)) (c idx : Nat)
    (key : String) (qty : ℚ) (matchKey : String) (ws : Writes) (c' : Nat)
    (h : estimateCore env lk pr c idx key qty matchKey = .ok (ws, c')) : estimateShape ws := by
  unfold estimateCore at h
  cases hf : findMatch lk matchKey with
  | some m =>
    rw [hf] at h
    simp only [Except.ok.injEq, Prod.mk.injEq] at h
    rw [← h.1]; left; rfl
  | none =>
    rw [hf] at h
    simp only at h
    have hext : ∀ x : Writes × Nat, x = externalWrites env c idx qty →
        (Except.ok x : Except String (Writes × Nat)) = .ok (ws, c') → estimateShape ws := by
      intro x hx he
      simp only [Except.ok.injEq] at he
      have := externalWrites_shape env c idx qty
      rw [← hx, he] at this
      exact this
    cases hp : pr.get key with
    | own prices =>
      rw [hp] at h
      simp only at h
      split at h
      · simp only [Except.ok.injEq, Prod.mk.injEq] at h
        rw [← h.1]; left; rfl
      · exact hext _ rfl h
    | inherited n =>
      rw [hp] at h
      cases n with
      | none => exact hext _ rfl h
      | some n =>
        simp only at h
        split at h
        · cases h
        · exact hext _ rfl h
    | absent =>
      rw [hp] at h
      exact hext _ rfl h

theorem estimateStage_ok (env : Env) (lk : Dict Row) (pr : Dict (List JSNum)) (c idx : Nat) :
    (estimateStage env lk pr c idx).Ok where
  congr := by
    intro r r' h
    have h1 := h "자재번호_키" (by simp [estimateStage])
    have h2 := h "내역" (by simp [estimateStage])
    have h3 := h "요청수량" (by simp [estimateStage])
    simp only [estimateStage, compositeKey, floatOr, h1, h2, h3]
  within := by
    intro r kv h
    simp only [estimateStage] at h ⊢
    cases hc : estimateCore env lk pr c idx (toStr env (r.get "자재번호_키"))
        (floatOr env r "요청수량" 1) (compositeKey env r "내역") with
    | error e => rw [hc] at h; simp at h
    | ok x =>
      obtain ⟨ws, c'⟩ := x
      rw [hc] at h
      simp only at h
      have hm : kv.1 ∈ ws.map Prod.fst := List.mem_map_of_mem _ h
      rcases estimateCore_shape env lk pr c idx _ _ _ ws c' hc with hs | hs | hs
      · rw [hs] at hm
        simp only [List.mem_cons, List.mem_singleton, List.not_mem_nil, or_false] at hm
        rcases hm with hm | hm | hm <;> simp [hm]
      · rw [hs] at hm
        simp only [List.mem_cons, List.mem_singleton, List.not_mem_nil, or_false] at hm
        rcases hm with hm | hm | hm <;> simp [hm]
      · rw [hs] at hm
        simp only [List.mem_cons, List.mem_singleton, List.not_mem_nil, or_false] at hm
        rcases hm with hm | hm <;> simp [hm]
  nodup := by
    intro r
    simp only [estimateStage]
    cases hc : estimateCore env lk pr c idx (toStr env (r.get "자재번호_키"))
        (floatOr env r "요청수량" 1) (compositeKey env r "내역") with
    | error e => simp
    | ok x =>
      obtain ⟨ws, c'⟩ := x
      simp only
      rcases estimateCore_shape env lk pr c idx _ _ _ ws c' hc with hs | hs | hs <;>
        (rw [hs]; decide)

theorem quoteRow_run (env : Env) (idx : Nat) (r : Row) :
    quoteRow env idx r = (quoteStage env idx).run r := by
  have hb : quoteBase env idx r = applyWrites r
      [("Mock_견적금액", (quoteBase env idx r).get "Mock_견적금액"),
       ("견적단가", (quoteBase env idx r).get "견적단가"),
       ("예정단가", (quoteBase env idx r).get "예정단가")] := by
    simp [quoteBase, applyWrites, Row.get_set, floatOr]
  unfold Stage.run quoteStage
  simp only
  rw [quoteRow_eq]
  generalize quoteBase env idx r = b at hb ⊢
  unfold applyWrites at hb ⊢
  rw [List.foldl_append, ← hb]
  split
  · rfl
  · split <;> rfl

theorem quoteStage_ok (env : Env) (idx : Nat) : (quoteStage env idx).Ok where
  congr := by
    intro r r' h
    have h1 := h "입찰예정가" (by simp [quoteStage])
    have h2 := h "요청수량" (by simp [quoteStage])
    have h3 := h "최근발주단가" (by simp [quoteStage])
    simp [quoteStage, quoteBase, floatOr, Row.get_set, h1, h2, h3]
  within := by
    intro r kv h
    simp only [quoteStage] at h ⊢
    simp only [List.mem_append, List.mem_cons, List.mem_singleton, List.not_mem_nil,
      or_false] at h
    rcases h with (rfl | rfl | rfl) | h
    · simp
    · simp
    · simp
    · split at h
      · simp only [List.mem_cons, List.mem_singleton, List.not_mem_nil, or_false] at h
        rcases h with rfl | rfl <;> simp
      · split at h <;>
          (simp only [List.mem_cons, List.mem_singleton, List.not_mem_nil, or_false] at h
           rcases h with rfl | rfl <;> simp)
  nodup := by
    intro r
    simp only [quoteStage]
    split
    · simp
    · split <;> simp

theorem reviewRow_run (env : Env) (r : Row) : reviewRow env r = (reviewStage env).run r := by
  by_cases h1 : r.get "계약방식" = .str "수의계약"
  · by_cases hc : numLe (changeRateOf env r) (some 15) = true
    · have hc' := hc
      unfold changeRateOf at hc'
      simp [reviewRow, reviewStage, Stage.run, applyWrites, h1, hc, hc', changeRateOf]
    · have hc' := hc
      unfold changeRateOf at hc'
      simp [reviewRow, reviewStage, Stage.run, applyWrites, h1, hc, hc', changeRateOf]
  · by_cases hd : isDumping env r = true
    · have hd' := hd
      unfold isDumping at hd'
      simp only [Bool.and_eq_true, decide_eq_true_eq] at hd'
      simp [reviewRow, reviewStage, Stage.run, applyWrites, h1, hd, hd'.1, hd'.2]
    · have hd' := hd
      unfold isDumping at hd'
      by_cases hw : r.get "견적경쟁력" = .str "열위"
      · simp [reviewRow, reviewStage, Stage.run, applyWrites, h1, hd, hw]
      · by_cases hu : r.get "견적경쟁력" = .str "우수"
        · simp only [hu, decide_True, Bool.true_and] at hd'
          simp [reviewRow, reviewStage, Stage.run, applyWrites, h1, hd, hw, hu, hd']
        · simp [reviewRow, reviewStage, Stage.run, applyWrites, h1, hd, hw, hu]

theorem reviewStage_ok (env : Env) : (reviewStage env).Ok where
  congr := by
    intro r r' h
    have h1 := h "견적경쟁력" (by simp [reviewStage])
    have h2 := h "견적단가" (by simp [reviewStage])
    have h3 := h "예정단가" (by simp [reviewStage])
    have h4 := h "계약방식" (by simp [reviewStage])
    have h5 := h "최근발주단가" (by simp [reviewStage])
    simp only [reviewStage, changeRateOf, isDumping, h1, h2, h3, h4, h5]
  within := by
    intro r kv h
    simp only [reviewStage] at h ⊢
    split at h
    · split at h <;>
        (simp only [List.mem_cons, List.mem_singleton, List.not_mem_nil, or_false] at h
         rcases h with rfl | rfl | rfl | rfl | rfl <;> simp)
    · split at h
      · simp only [List.mem_cons, List.mem_singleton, List.not_mem_nil, or_false] at h
        rcases h with rfl | rfl | rfl | rfl <;> simp
      · split at h <;>
          (simp only [List.mem_cons, List.mem_singleton, List.not_mem_nil, or_false] at h
           rcases h with rfl | rfl | rfl | rfl <;> simp)
  nodup := by
    intro r
    simp only [reviewStage]
    split
    · split <;> simp
    · split
      · simp
      · split <;> simp

theorem Ordered.left : ∀ (a b : List Stage), Ordered (a ++ b) → Ordered a := by
  intro a
  induction a with
  | nil => intro b _; trivial
  | cons s a ih =>
    intro b h
    exact ⟨h.1, fun t ht => h.2.1 t (List.mem_append_left _ ht), ih b h.2.2⟩

theorem runStages_append (a b : List Stage) (r : Row) :
    runStages (a ++ b) r = runStages b (runStages a r) := by
  unfold runStages
  rw [List.foldl_append]

theorem stagesFull_ok (env : Env) (lk : Dict Row) (keys : List JSVal) (pr : Dict (List JSNum))
    (c idx : Nat) : ∀ s ∈ stagesFull env lk keys pr c idx, s.Ok := by
  intro s hs
  simp only [stagesFull, stagesValid, stagesHead, stagesQuote, List.cons_append,
    List.nil_append, List.mem_cons, List.mem_singleton, List.not_mem_nil, or_false] at hs
  rcases hs with rfl | rfl | rfl | rfl | rfl | rfl | rfl | rfl | rfl | rfl
  · exact keyStage_ok env
  · exact validateStage_ok env
  · exact classifyStage_ok env
  · exact urgencyStage_ok env
  · exact matchStage_ok env lk
  · exact orderStage_ok
  · exact contractStage_ok env keys
  · exact estimateStage_ok env lk pr c idx
  · exact quoteStage_ok env idx
  · exact reviewStage_ok env

theorem stagesFull_ordered (env : Env) (lk : Dict Row) (keys : List JSVal)
    (pr : Dict (List JSNum)) (c idx : Nat) : Ordered (stagesFull env lk keys pr c idx) := by
  simp [Ordered, stagesFull, stagesValid, stagesHead, stagesQuote, keyStage, validateStage,
    classifyStage, urgencyStage, matchStage, orderStage, contractStage, estimateStage,
    quoteStage, reviewStage, REQUIRED_COLUMNS]

theorem runStages_get_suffix (a b : List Stage) (p : Row) (k : String)
    (hok : ∀ s ∈ b, s.Ok) (hk : ∀ s ∈ b, k ∉ s.keys) :
    (runStages (a ++ b) p).get k = (runStages a p).get k := by
  rw [runStages_append]
  exact runStages_get b _ k hok hk

theorem quote_keys (env : Env) (lk : Dict Row) (keys : List JSVal) (pr : Dict (List JSNum))
    (c idx : Nat) (s : Stage) (hs : s ∈ stagesQuote env lk keys pr c idx) (k : String)
    (hk : k ∈ keptColumns) : k ∉ s.keys := by
  simp only [stagesQuote, List.mem_cons, List.mem_singleton, List.not_mem_nil, or_false] at hs
  simp only [keptColumns, REQUIRED_COLUMNS, List.cons_append, List.nil_append, List.mem_cons,
    List.mem_singleton, List.not_mem_nil, or_false] at hk
  rcases hs with rfl | rfl | rfl | rfl <;>
    rcases hk with rfl | rfl | rfl | rfl | rfl | rfl | rfl | rfl | rfl | rfl | rfl | rfl | rfl <;>
    simp [contractStage, estimateStage, quoteStage, reviewStage]

theorem order_keys (k : String) (hk : k ∈ keptColumns) : k ∉ orderStage.keys := by
  simp only [keptColumns, REQUIRED_COLUMNS, List.cons_append, List.nil_append, List.mem_cons,
    List.mem_singleton, List.not_mem_nil, or_false] at hk
  rcases hk with rfl | rfl | rfl | rfl | rfl | rfl | rfl | rfl | rfl | rfl | rfl | rfl | rfl <;>
    simp [orderStage]

theorem stagesValid_ok (env : Env) (lk : Dict Row) : ∀ s ∈ stagesValid env lk, s.Ok := by
  intro s hs
  exact stagesFull_ok env lk [] [] 0 0 s (List.mem_append_left _ hs)

theorem validFacts_of_run (env : Env) (lk : Dict Row) (tail : List Stage)
    (hok : ∀ s ∈ tail, s.Ok) (hkeep : ∀ s ∈ tail, ∀ k ∈ keptColumns, k ∉ s.keys)
    (hord : Ordered (stagesValid env lk ++ tail)) (p : Row) :
    ValidFacts env lk p (runStages (stagesValid env lk ++ tail) p) := by
  have hall : ∀ s ∈ stagesValid env lk ++ tail, s.Ok := by
    intro s hs
    rcases List.mem_append.mp hs with h | h
    · exact stagesValid_ok env lk s h
    · exact hok s h
  have stable := runStages_stable (stagesValid env lk ++ tail) p hall hord
  have mem : ∀ s ∈ stagesValid env lk, s ∈ stagesValid env lk ++ tail :=
    fun s hs => List.mem_append_left _ hs
  have hget : ∀ (a b : List Stage), stagesValid env lk = a ++ b → ∀ k ∈ keptColumns,
      (∀ s ∈ b, k ∉ s.keys) →
      (runStages (stagesValid env lk ++ tail) p).get k = (runStages a p).get k := by
    intro a b hab k hk hb
    rw [hab, List.append_assoc]
    apply runStages_get_suffix
    · intro s hs
      apply hall
      rw [hab, List.append_assoc]
      exact List.mem_append_right _ hs
    · intro s hs
      rcases List.mem_append.mp hs with h | h
      · exact hb s h
      · exact hkeep s h k hk
  refine ⟨?_, ?_, ?_, ?_, ?_, ?_, ?_, ?_, ?_⟩
  · rw [keyPR_eq]; exact stable _ (mem _ (by simp [stagesValid, stagesHead]))
  · apply missingColumns_congr
    intro k hk
    have hk' : k ∈ keptColumns := List.mem_append_right _ hk
    rw [hget [keyStage env]
      [validateStage env, classifyStage env, urgencyStage env, matchStage env lk] rfl k hk' ?_]
    · rfl
    · intro s hs
      simp only [REQUIRED_COLUMNS, List.mem_cons, List.mem_singleton, List.not_mem_nil,
        or_false] at hk hs
      rcases hs with rfl | rfl | rfl | rfl <;>
        rcases hk with rfl | rfl | rfl | rfl | rfl | rfl | rfl | rfl <;>
        simp [validateStage, classifyStage, urgencyStage, matchStage]
  · rw [validateRow_eq]; exact stable _ (mem _ (by simp [stagesValid, stagesHead]))
  · rw [classifyRow_eq]; exact stable _ (mem _ (by simp [stagesValid, stagesHead]))
  · rw [urgencyRow_eq]; exact stable _ (mem _ (by simp [stagesValid, stagesHead]))
  · rw [matchRow_eq]; exact stable _ (mem _ (by simp [stagesValid, stagesHead]))
  · rw [hget [keyStage env, validateStage env, classifyStage env]
      [urgencyStage env, matchStage env lk] rfl "계약분류" (by simp [keptColumns]) ?_]
    · rw [classifyRow_eq, validateRow_eq, keyPR_eq]; rfl
    · intro s hs
      simp only [List.mem_cons, List.mem_singleton, List.not_mem_nil, or_false] at hs
      rcases hs with rfl | rfl <;> simp [urgencyStage, matchStage]
  · rw [hget [keyStage env, validateStage env, classifyStage env, urgencyStage env]
      [matchStage env lk] rfl "긴급도" (by simp [keptColumns]) ?_]
    · rw [urgencyRow_eq, classifyRow_eq, validateRow_eq, keyPR_eq]; rfl
    · intro s hs
      simp only [List.mem_singleton] at hs
      subst hs; simp [matchStage]
  · rw [hget [keyStage env]
      [validateStage env, classifyStage env, urgencyStage env, matchStage env lk] rfl
      "PZAF여부" (by simp [keptColumns]) ?_]
    · rw [keyPR_eq]; rfl
    · intro s hs
      simp only [List.mem_cons, List.mem_singleton, List.not_mem_nil, or_false] at hs
      rcases hs with rfl | rfl | rfl | rfl <;>
        simp [validateStage, classifyStage, urgencyStage, matchStage]

theorem stagesHead_ordered (env : Env) : Ordered (stagesHead env) :=
  Ordered.left _ _ (Ordered.left _ _ (stagesFull_ordered env [] [] [] 0 0))

theorem stagesValid_ordered (env : Env) (lk : Dict Row) : Ordered (stagesValid env lk) :=
  Ordered.left _ _ (stagesFull_ordered env lk [] [] 0 0)

theorem stagesOrder_ordered (env : Env) (lk : Dict Row) :
    Ordered (stagesValid env lk ++ [orderStage]) := by
  have h := stagesFull_ordered env lk [] [] 0 0
  have e : stagesFull env lk [] [] 0 0 =
      (stagesValid env lk ++ [orderStage]) ++ stagesQuote env lk [] [] 0 0 := by
    simp [stagesFull]
  rw [e] at h
  exact Ordered.left _ _ h

theorem matchedRow_run (env : Env) (lk : Dict Row) (p : Row) :
    matchedRow env lk p = runStages (stagesValid env lk ++ []) p := by
  unfold matchedRow
  rw [matchRow_eq, urgencyRow_eq, classifyRow_eq, validateRow_eq, keyPR_eq]
  rfl

theorem orderedRow_run (env : Env) (lk : Dict Row) (p : Row) :
    orderMethodRow (matchedRow env lk p) = runStages (stagesValid env lk ++ [orderStage]) p := by
  unfold matchedRow
  rw [orderMethodRow_eq, matchRow_eq, urgencyRow_eq, classifyRow_eq, validateRow_eq, keyPR_eq]
  rfl

/-- A row that failed validation is left as it is by the key and validation stages. -/
theorem invalid_facts (env : Env) (p : Row) :
    keyPR env (validateRow env (keyPR env p)) = validateRow env (keyPR env p) ∧
    missingColumns env (validateRow env (keyPR env p)) = missingColumns env (keyPR env p) ∧
    validateRow env (validateRow env (keyPR env p)) = validateRow env (keyPR env p) := by
  have hok : ∀ s ∈ stagesHead env, s.Ok := fun s hs =>
    stagesValid_ok env [] s (List.mem_append_left _ hs)
  have stable := runStages_stable (stagesHead env) p hok (stagesHead_ordered env)
  have hf : validateRow env (keyPR env p) = runStages (stagesHead env) p := by
    rw [validateRow_eq, keyPR_eq]; rfl
  refine ⟨?_, ?_, ?_⟩
  · rw [hf, keyPR_eq]; exact stable _ (by simp [stagesHead])
  · apply missingColumns_congr
    intro k hk
    rw [validateRow_eq]
    apply Stage.get_run _ (validateStage_ok env)
    simp only [REQUIRED_COLUMNS, List.mem_cons, List.mem_singleton, List.not_mem_nil,
      or_false] at hk
    rcases hk with rfl | rfl | rfl | rfl | rfl | rfl | rfl | rfl <;> simp [validateStage]
  · rw [hf, validateRow_eq]; exact stable _ (by simp [stagesHead])

theorem matched_facts (env : Env) (lk : Dict Row) (p : Row) :
    ValidFacts env lk p (matchedRow env lk p) := by
  rw [matchedRow_run]
  apply validFacts_of_run
  · intro s hs; simp at hs
  · intro s hs; simp at hs
  · rw [List.append_nil]; exact stagesValid_ordered env lk

theorem ordered_facts (env : Env) (lk : Dict Row) (p : Row) :
    ValidFacts env lk p (orderMethodRow (matchedRow env lk p)) ∧
    orderMethodRow (orderMethodRow (matchedRow env lk p)) =
      orderMethodRow (matchedRow env lk p) := by
  rw [orderedRow_run]
  constructor
  · apply validFacts_of_run
    · intro s hs
      simp only [List.mem_singleton] at hs
      subst hs; exact orderStage_ok
    · intro s hs k hk
      simp only [List.mem_singleton] at hs
      subst hs; exact order_keys k hk
    · exact stagesOrder_ordered env lk
  · have hall : ∀ s ∈ stagesValid env lk ++ [orderStage], s.Ok := by
      intro s hs
      rcases List.mem_append.mp hs with h | h
      · exact stagesValid_ok env lk s h
      · simp only [List.mem_singleton] at h
        subst h; exact orderStage_ok
    rw [orderMethodRow_eq]
    exact runStages_stable _ p hall (stagesOrder_ordered env lk) _ (by simp)

/-- A reviewed record of `quotationData` is left as it is by every stage of a second run
at the same position and counter. -/
theorem quoted_facts (env : Env) (lk : Dict Row) (keys : List JSVal) (pr : Dict (List JSNum))
    (c idx : Nat) (p e : Row) (c' : Nat)
    (h : estimateRow env lk pr c idx (inputRow env lk keys p) = .ok (e, c')) :
    ValidFacts env lk p (reviewRow env (quoteRow env idx e)) ∧
    orderMethodRow (reviewRow env (quoteRow env idx e)) = reviewRow env (quoteRow env idx e) ∧
    contractMethodRow env keys (reviewRow env (quoteRow env idx e)) =
      reviewRow env (quoteRow env idx e) ∧
    estimateRow env lk pr c idx (reviewRow env (quoteRow env idx e)) =
      .ok (reviewRow env (quoteRow env idx e), c') ∧
    quoteRow env idx (reviewRow env (quoteRow env idx e)) = reviewRow env (quoteRow env idx e) ∧
    reviewRow env (reviewRow env (quoteRow env idx e)) = reviewRow env (quoteRow env idx e) := by
  obtain ⟨hcomp, hqty, -, -, -⟩ := final_fields env lk pr c idx idx _ e c' h
  have hkey := final_of_input env lk pr c idx idx _ e c' h "자재번호_키" (by decide) (by decide)
    (by decide) (by decide) (by decide) (by decide) (by decide) (by decide) (by decide)
    (by decide) (by decide) (by decide) (by decide) (by decide) (by decide)
  rw [estimateRow_eq] at h
  cases hc : estimateCore env lk pr c idx (toStr env ((inputRow env lk keys p).get "자재번호_키"))
      (floatOr env (inputRow env lk keys p) "요청수량" 1)
      (compositeKey env (inputRow env lk keys p) "내역") with
  | error err => rw [hc] at h; cases h
  | ok x =>
    obtain ⟨ws, c2⟩ := x
    rw [hc] at h
    simp only [Except.ok.injEq, Prod.mk.injEq] at h
    obtain ⟨he, hc'⟩ := h
    subst hc'
    have hrun : (estimateStage env lk pr c idx).run (inputRow env lk keys p) = e := by
      rw [← he]
      unfold Stage.run estimateStage
      simp only [hc]
    have hf : reviewRow env (quoteRow env idx e) =
        runStages (stagesValid env lk ++ (orderStage :: stagesQuote env lk keys pr c idx)) p := by
      rw [reviewRow_run, quoteRow_run, ← hrun]
      unfold inputRow matchedRow
      rw [contractMethodRow_eq, orderMethodRow_eq, matchRow_eq, urgencyRow_eq, classifyRow_eq,
        validateRow_eq, keyPR_eq]
      rfl
    have hall := stagesFull_ok env lk keys pr c idx
    have hord := stagesFull_ordered env lk keys pr c idx
    have stable := runStages_stable _ p hall hord
    unfold stagesFull at hall hord stable
    rw [← hf] at stable
    have hmem : ∀ s ∈ orderStage :: stagesQuote env lk keys pr c idx,
        s ∈ stagesValid env lk ++ (orderStage :: stagesQuote env lk keys pr c idx) :=
      fun s hs => List.mem_append_right _ hs
    refine ⟨?_, ?_, ?_, ?_, ?_, ?_⟩
    · rw [hf]
      apply validFacts_of_run
      · intro s hs; exact hall s (hmem s hs)
      · intro s hs k hk
        rcases List.mem_cons.mp hs with rfl | hq
        · exact order_keys k hk
        · exact quote_keys env lk keys pr c idx s hq k hk
      · exact hord
    · rw [orderMethodRow_eq]; exact stable _ (hmem _ (by simp))
    · rw [contractMethodRow_eq]; exact stable _ (hmem _ (by simp [stagesQuote]))
    · have hst := stable (estimateStage env lk pr c idx) (hmem _ (by simp [stagesQuote]))
      unfold Stage.run estimateStage at hst
      simp only [hcomp, hqty, hkey, hc] at hst
      rw [estimateRow_eq, hcomp, hqty, hkey, hc]
      simp only [hst]
    · rw [quoteRow_run]; exact stable _ (hmem _ (by simp [stagesQuote]))
    · rw [reviewRow_run]; exact stable _ (hmem _ (by simp [stagesQuote]))

theorem matched_eq (env : Env) (prData poHistory : List Row) :
    matched env prData poHistory =
      (prData.filter (fun p => decide (missingColumns env (keyPR env p) = []))).map
        (matchedRow env (lookupIndex env poHistory)) := by
  simp only [matched, scored, classified, validate_fst, List.filter_map, List.map_map]
  rfl

theorem quotationInput_eq (env : Env) (prData poHistory : List Row) :
    quotationInput env prData poHistory =
      (prData.filter (toQuotation env (lookupIndex env poHistory))).map
        (inputRow env (lookupIndex env poHistory)
          ((keyedHistory env poHistory).map (fun r => r.get "자재번호_키"))) := by
  unfold quotationInput
  rw [selectQuotation_eq, matched_eq, List.filter_map, List.filter_filter]
  simp only [List.map_map]
  have hf : ∀ (c1 c2 : Row → Bool), (∀ a, c1 a = c2 a) →
      prData.filter c1 = prData.filter c2 := by
    intro c1 c2 hc
    apply List.filter_congr
    intro a _
    exact hc a
  rw [hf _ (toQuotation env (lookupIndex env poHistory))
    (fun a => by simp only [toQuotation, Function.comp]; rw [Bool.and_comm])]
  rfl

/-- The reviewed records of a run are left as they are by the stages of a second run, and
the estimation loop over them returns them with the same counter. -/
theorem reviewed_stable (env : Env) (lk : Dict Row) (keys : List JSVal) (pr : Dict (List JSNum)) :
    ∀ (ps : List Row) (idx c : Nat) (es : List Row) (n : Nat),
      estimateLoop env lk pr idx c (ps.map (inputRow env lk keys)) = .ok (es, n) →
      List.Forall₂ (fun p r => ValidFacts env lk p r ∧ orderMethodRow r = r ∧
          contractMethodRow env keys r = r)
        ps ((quoteLoop env idx es).map (reviewRow env)) ∧
      estimateLoop env lk pr idx c ((quoteLoop env idx es).map (reviewRow env)) =
        .ok ((quoteLoop env idx es).map (reviewRow env), n) ∧
      quoteLoop env idx ((quoteLoop env idx es).map (reviewRow env)) =
        (quoteLoop env idx es).map (reviewRow env) ∧
      ((quoteLoop env idx es).map (reviewRow env)).map (reviewRow env) =
        (quoteLoop env idx es).map (reviewRow env) := by
  intro ps
  induction ps with
  | nil =>
    intro idx c es n h
    simp only [List.map_nil, estimateLoop, Except.ok.injEq, Prod.mk.injEq] at h
    obtain ⟨rfl, rfl⟩ := h
    simp [quoteLoop, estimateLoop]
  | cons p ps ih =>
    intro idx c es n h
    simp only [List.map_cons, estimateLoop] at h
    cases h1 : estimateRow env lk pr c idx (inputRow env lk keys p) with
    | error err => rw [h1] at h; cases h
    | ok x =>
      obtain ⟨e, c1⟩ := x
      rw [h1] at h
      simp only at h
      cases h2 : estimateLoop env lk pr (idx + 1) c1 (ps.map (inputRow env lk keys)) with
      | error err => rw [h2] at h; cases h
      | ok y =>
        obtain ⟨es', n'⟩ := y
        rw [h2] at h
        simp only [Except.ok.injEq, Prod.mk.injEq] at h
        obtain ⟨rfl, rfl⟩ := h
        obtain ⟨i1, i2, i3, i4⟩ := ih (idx + 1) c1 es' n' h2
        obtain ⟨f1, f2, f3, f4, f5, f6⟩ := quoted_facts env lk keys pr c idx p e c1 h1
        refine ⟨?_, ?_, ?_, ?_⟩
        · simp only [quoteLoop, List.map_cons]
          exact List.Forall₂.cons ⟨f1, f2, f3⟩ i1
        · simp only [quoteLoop, List.map_cons, estimateLoop, f4, i2]
        · simp only [quoteLoop, List.map_cons, f5, i3]
        · simp only [quoteLoop, List.map_cons, f6, i4]

theorem leftBy_spec (env : Env) (lk : Dict Row) (keys : List JSVal) :
    ∀ (ps rs : List Row),
      List.Forall₂ (fun p r => ValidFacts env lk p r ∧ orderMethodRow r = r ∧
          contractMethodRow env keys r = r) (ps.filter (toQuotation env lk)) rs →
      List.Forall₂ (LeftRel env lk) ps (leftBy env lk ps rs) ∧
      (leftBy env lk ps rs).filter (selected env) = rs := by
  intro ps
  induction ps with
  | nil =>
    intro rs h
    simp only [List.filter_nil] at h
    cases h
    exact ⟨List.Forall₂.nil, rfl⟩
  | cons p ps ih =>
    intro rs h
    by_cases hv : missingColumns env (keyPR env p) = []
    · have hlen : ¬ (missingColumns env (keyPR env p)).length > 0 := by simp [hv]
      have mf := matched_facts env lk p
      by_cases hz : truthy ((matchedRow env lk p).get "PZAF여부") = true
      · by_cases hb : (orderMethodRow (matchedRow env lk p)).get "발주방식" = .str "입찰(견적) 진행"
        · have hcls := (orderMethodRow_bid _).mp hb
          have hq : toQuotation env lk p = true := by
            simp [toQuotation, hv, hz, hcls]
          rw [List.filter_cons_of_pos hq] at h
          cases h with
          | cons hr hrest =>
            rename_i r rs'
            obtain ⟨i1, i2⟩ := ih rs' hrest
            have hsel : selected env r = true := by
              unfold selected
              rw [hr.1.missing, hr.1.pzaf, ← mf.pzaf, hr.1.contractClass, ← mf.contractClass]
              simp [hv, hz, hcls]
            simp only [leftBy, hlen, if_false, hz, if_true, hb]
            refine ⟨List.Forall₂.cons (Or.inr ⟨hv, hr.1⟩) i1, ?_⟩
            rw [List.filter_cons_of_pos hsel, i2]
        · have hcls : (matchedRow env lk p).get "계약분류" = .str "표준단가" := by
            by_contra hne
            exact hb ((orderMethodRow_bid _).mpr hne)
          have hq : toQuotation env lk p = false := by
            simp [toQuotation, hcls]
          rw [List.filter_cons_of_neg (by simp [hq])] at h
          obtain ⟨i1, i2⟩ := ih rs h
          obtain ⟨o1, -⟩ := ordered_facts env lk p
          have hsel : selected env (orderMethodRow (matchedRow env lk p)) = false := by
            unfold selected
            rw [o1.contractClass, ← mf.contractClass]
            simp [hcls]
          simp only [leftBy, hlen, if_false, hz, if_true, hb]
          refine ⟨List.Forall₂.cons (Or.inr ⟨hv, o1⟩) i1, ?_⟩
          rw [List.filter_cons_of_neg (by simp [hsel]), i2]
      · have hq : toQuotation env lk p = false := by
          simp [toQuotation, hz]
        rw [List.filter_cons_of_neg (by simp [hq])] at h
        obtain ⟨i1, i2⟩ := ih rs h
        have hsel : selected env (matchedRow env lk p) = false := by
          unfold selected
          simp [hz]
        have hz' : truthy ((matchedRow env lk p).get "PZAF여부") = false := by simpa using hz
        simp only [leftBy, hlen, if_false, hz', Bool.false_eq_true]
        refine ⟨List.Forall₂.cons (Or.inr ⟨hv, mf⟩) i1, ?_⟩
        rw [List.filter_cons_of_neg (by simp [hsel]), i2]
    · have hlen : (missingColumns env (keyPR env p)).length > 0 :=
        List.length_pos.mpr hv
      have hq : toQuotation env lk p = false := by
        simp [toQuotation, hv]
      rw [List.filter_cons_of_neg (by simp [hq])] at h
      obtain ⟨i1, i2⟩ := ih rs h
      have hsel : selected env (validateRow env (keyPR env p)) = false := by
        unfold selected
        rw [(invalid_facts env p).2.1]
        simp [hv]
      simp only [leftBy, hlen, if_true]
      refine ⟨List.Forall₂.cons (Or.inl ⟨hv, rfl⟩) i1, ?_⟩
      rw [List.filter_cons_of_neg (by simp [hsel]), i2]

theorem keyPO_keyPO (env : Env) (r : Row) : keyPO env (keyPO env r) = keyPO env r := by
  have hm : matNoOf env (keyPO env r) = matNoOf env r := by
    simp [matNoOf, keyPO, Row.get_set]
  unfold keyPO
  simp only
  have hm' : matNoOf env (r.set "자재번호_키" (.str (materialKey (matNoOf env r)))) =
      matNoOf env r := hm
  rw [hm']
  apply Row.set_eq_self
  rw [Row.lookup_write]
  simp

theorem keyedHistory_keyed (env : Env) (poHistory : List Row) :
    keyedHistory env (keyedHistory env poHistory) = keyedHistory env poHistory := by
  unfold keyedHistory
  rw [List.map_map]
  apply List.map_congr_left
  intro r _
  exact keyPO_keyPO env r

theorem lookupIndex_keyed (env : Env) (poHistory : List Row) :
    lookupIndex env (keyedHistory env poHistory) = lookupIndex env poHistory := by
  unfold lookupIndex
  rw [keyedHistory_keyed]

theorem map_eq_self {α : Type} (g : α → α) (l : List α) (h : ∀ x ∈ l, g x = x) :
    l.map g = l := by
  induction l with
  | nil => rfl
  | cons a l ih =>
    rw [List.map_cons, h a (List.mem_cons_self _ _),
      ih (fun x hx => h x (List.mem_cons_of_mem _ hx))]

theorem classified_eq (env : Env) (prData : List Row) :
    classified env prData =
      (prData.filter (fun p => decide (missingColumns env (keyPR env p) = []))).map
        (fun p => classifyRow env (validateRow env (keyPR env p))) := by
  simp only [classified, validate_fst, List.filter_map, List.map_map]
  rfl

theorem scored_eq (env : Env) (prData : List Row) :
    scored env prData =
      (prData.filter (fun p => decide (missingColumns env (keyPR env p) = []))).map
        (fun p => urgencyRow env (classifyRow env (validateRow env (keyPR env p)))) := by
  simp only [scored, classified_eq, List.map_map]
  rfl

theorem left_pointwise (env : Env) (lk : Dict Row) (p f : Row) (h : LeftRel env lk p f) :
    keyPR env f = f ∧ validateRow env f = f ∧
    missingColumns env f = missingColumns env (keyPR env p) := by
  rcases h with ⟨_, rfl⟩ | ⟨_, hf⟩
  · obtain ⟨h1, h2, h3⟩ := invalid_facts env p
    exact ⟨h1, h3, h2⟩
  · exact ⟨hf.key, hf.validate, hf.missing⟩

/-- On the rows a run left, the stages up to supplier matching change nothing. -/
theorem left_stable (env : Env) (lk : Dict Row) (ps ls : List Row)
    (h : List.Forall₂ (LeftRel env lk) ps ls) :
    ls.map (keyPR env) = ls ∧
    (∀ f ∈ ls.filter (fun r => decide (missingColumns env r = [])),
      validateRow env f = f ∧ classifyRow env f = f ∧ urgencyRow env f = f ∧
        matchRow env lk f = f) ∧
    (ls.filter (fun r => !decide (missingColumns env r = []))).map (validateRow env) =
      ((ps.map (keyPR env)).filter (fun r => !decide (missingColumns env r = []))).map
        (validateRow env) := by
  induction h with
  | nil => exact ⟨rfl, fun f hf => by simp at hf, rfl⟩
  | @cons p f ps ls hpf _ ih =>
    obtain ⟨i1, i2, i3⟩ := ih
    obtain ⟨k1, k2, k3⟩ := left_pointwise env lk p f hpf
    refine ⟨?_, ?_, ?_⟩
    · rw [List.map_cons, k1, i1]
    · intro g hg
      rw [List.filter_cons] at hg
      split at hg
      · rename_i hvf
        rcases List.mem_cons.mp hg with rfl | hg'
        · rcases hpf with ⟨hne, -⟩ | ⟨_, hf⟩
          · rw [k3] at hvf
            simp [hne] at hvf
          · exact ⟨hf.validate, hf.classify, hf.urgency, hf.matching⟩
        · exact i2 g hg'
      · exact i2 g hg
    · rw [List.map_cons]
      by_cases hv : missingColumns env (keyPR env p) = []
      · have hvf : missingColumns env f = [] := by rw [k3]; exact hv
        rw [List.filter_cons_of_neg (by simp [hvf]), List.filter_cons_of_neg (by simp [hv]), i3]
      · have hvf : missingColumns env f ≠ [] := by rw [k3]; exact hv
        rw [List.filter_cons_of_pos (by simp [hvf]), List.filter_cons_of_pos (by simp [hv]),
          List.map_cons, List.map_cons, i3, k2]
        rcases hpf with ⟨_, rfl⟩ | ⟨hv', _⟩
        · rfl
        · exact absurd hv' hv

/-- The rows a run left carry the contract class and the urgency tier the run counted. -/
theorem left_counts (env : Env) (lk : Dict Row) (ps ls : List Row)
    (h : List.Forall₂ (LeftRel env lk) ps ls) (x : String) :
    countOf (ls.filter (fun r => decide (missingColumns env r = []))) "계약분류" x =
      countOf (classified env ps) "계약분류" x ∧
    countOf (ls.filter (fun r => decide (missingColumns env r = []))) "긴급도" x =
      countOf (scored env ps) "긴급도" x := by
  rw [classified_eq, scored_eq]
  induction h with
  | nil => exact ⟨rfl, rfl⟩
  | @cons p f ps ls hpf _ ih =>
    obtain ⟨i1, i2⟩ := ih
    obtain ⟨k1, k2, k3⟩ := left_pointwise env lk p f hpf
    by_cases hv : missingColumns env (keyPR env p) = []
    · have hvf : missingColumns env f = [] := by rw [k3]; exact hv
      rcases hpf with ⟨hne, -⟩ | ⟨_, hf⟩
      · exact absurd hv hne
      · rw [List.filter_cons_of_pos (by simp [hvf]), List.filter_cons_of_pos (by simp [hv]),
          List.map_cons, List.map_cons, countOf_cons, countOf_cons, countOf_cons, countOf_cons,
          i1, i2, hf.contractClass, hf.tier]
        exact ⟨rfl, rfl⟩
    · have hvf : missingColumns env f ≠ [] := by rw [k3]; exact hv
      rw [List.filter_cons_of_neg (by simp [hvf]), List.filter_cons_of_neg (by simp [hv])]
      exact ⟨i1, i2⟩

theorem matchedRow_fixed (env : Env) (lk : Dict Row) (p f : Row) (h : ValidFacts env lk p f) :
    matchedRow env lk f = f := by
  unfold matchedRow
  rw [h.key, h.validate, h.classify, h.urgency, h.matching]

/-- A second run leaves the rows as the first run left them. -/
theorem leftBy_fixed (env : Env) (lk : Dict Row) (keys : List JSVal) :
    ∀ (ps rs : List Row),
      List.Forall₂ (fun p r => ValidFacts env lk p r ∧ orderMethodRow r = r ∧
          contractMethodRow env keys r = r) (ps.filter (toQuotation env lk)) rs →
      leftBy env lk (leftBy env lk ps rs) rs = leftBy env lk ps rs := by
  intro ps
  induction ps with
  | nil => intro rs _; rfl
  | cons p ps ih =>
    intro rs h
    by_cases hv : missingColumns env (keyPR env p) = []
    · have hlen : ¬ (missingColumns env (keyPR env p)).length > 0 := by simp [hv]
      have mf := matched_facts env lk p
      by_cases hz : truthy ((matchedRow env lk p).get "PZAF여부") = true
      · by_cases hb : (orderMethodRow (matchedRow env lk p)).get "발주방식" = .str "입찰(견적) 진행"
        · have hcls := (orderMethodRow_bid _).mp hb
          have hq : toQuotation env lk p = true := by
            simp [toQuotation, hv, hz, hcls]
          rw [List.filter_cons_of_pos hq] at h
          cases h with
          | @cons _ r _ rs' hr hrest =>
            have hfix := matchedRow_fixed env lk p r hr.1
            have hlen' : ¬ (missingColumns env (keyPR env r)).length > 0 := by
              rw [hr.1.key, hr.1.missing]; exact hlen
            have hz' : truthy ((matchedRow env lk r).get "PZAF여부") = true := by
              rw [hfix, hr.1.pzaf, ← mf.pzaf]; exact hz
            have hb' : (orderMethodRow (matchedRow env lk r)).get "발주방식" =
                .str "입찰(견적) 진행" := by
              rw [hfix]
              apply (orderMethodRow_bid _).mpr
              rw [hr.1.contractClass, ← mf.contractClass]
              exact hcls
            simp only [leftBy, hlen, if_false, hz, if_true, hb]
            simp only [leftBy, hlen', if_false, hz', if_true, hb']
            rw [ih rs' hrest]
        · have hcls : (matchedRow env lk p).get "계약분류" = .str "표준단가" := by
            by_contra hne
            exact hb ((orderMethodRow_bid _).mpr hne)
          have hq : toQuotation env lk p = false := by
            simp [toQuotation, hcls]
          rw [List.filter_cons_of_neg (by simp [hq])] at h
          obtain ⟨o1, o2⟩ := ordered_facts env lk p
          have hfix := matchedRow_fixed env lk p _ o1
          have hlen' : ¬ (missingColumns env
              (keyPR env (orderMethodRow (matchedRow env lk p)))).length > 0 := by
            rw [o1.key, o1.missing]; exact hlen
          have hz' : truthy ((matchedRow env lk
              (orderMethodRow (matchedRow env lk p))).get "PZAF여부") = true := by
            rw [hfix, o1.pzaf, ← mf.pzaf]; exact hz
          have hb' : ¬ (orderMethodRow (matchedRow env lk
              (orderMethodRow (matchedRow env lk p)))).get "발주방식" =
                .str "입찰(견적) 진행" := by
            rw [hfix, o2]; exact hb
          simp only [leftBy, hlen, if_false, hz, if_true, hb]
          simp only [leftBy, hlen', if_false, hz', if_true, hb']
          rw [ih rs h, hfix, o2]
      · have hq : toQuotation env lk p = false := by
          simp [toQuotation, hz]
        rw [List.filter_cons_of_neg (by simp [hq])] at h
        have hz0 : truthy ((matchedRow env lk p).get "PZAF여부") = false := by simpa using hz
        have hfix := matchedRow_fixed env lk p _ mf
        have hlen' : ¬ (missingColumns env (keyPR env (matchedRow env lk p))).length > 0 := by
          rw [mf.key, mf.missing]; exact hlen
        have hz' : truthy ((matchedRow env lk (matchedRow env lk p)).get "PZAF여부") = false := by
          rw [hfix]; exact hz0
        simp only [leftBy, hlen, if_false, hz0, Bool.false_eq_true]
        simp only [leftBy, hlen', if_false, hz', Bool.false_eq_true]
        rw [ih rs h, hfix]
    · have hlen : (missingColumns env (keyPR env p)).length > 0 :=
        List.length_pos.mpr hv
      have hq : toQuotation env lk p = false := by
        simp [toQuotation, hv]
      rw [List.filter_cons_of_neg (by simp [hq])] at h
      obtain ⟨h1, h2, h3⟩ := invalid_facts env p
      have hlen' : (missingColumns env (keyPR env (validateRow env (keyPR env p)))).length > 0 := by
        rw [h1, h2]; exact hlen
      simp only [leftBy, hlen, if_true]
      simp only [leftBy, hlen', if_true]
      rw [ih rs h, h1, h3]

theorem forall₂_right {α β : Type} (rel : α → β → Prop) (l1 : List α) (l2 : List β)
    (h : List.Forall₂ rel l1 l2) : ∀ b ∈ l2, ∃ a, rel a b := by
  induction h with
  | nil => intro b hb; simp at hb
  | @cons a b l1 l2 hab _ ih =>
    intro x hx
    rcases List.mem_cons.mp hx with rfl | hx'
    · exact ⟨a, hab⟩
    · exact ih x hx'

/-- A second run on the rows the first run left computes what the first run computed. -/
theorem rerun_core (env : Env) (prData poHistory : List Row) (es : List Row) (n : Nat)
    (grouped : Dict (List Row))
    (hn : groupInvalid env (validate env (prData.map (keyPR env))).2 = .ok grouped)
    (h : estimation env prData poHistory = .ok (es, n)) :
    processAgent env
        (leftBy env (lookupIndex env poHistory) prData ((quoteLoop env 0 es).map (reviewRow env)))
        (keyedHistory env poHistory) = processAgent env prData poHistory ∧
    leftRows env
        (leftBy env (lookupIndex env poHistory) prData ((quoteLoop env 0 es).map (reviewRow env)))
        (keyedHistory env poHistory) =
      .ok (leftBy env (lookupIndex env poHistory) prData
        ((quoteLoop env 0 es).map (reviewRow env))) := by
  obtain ⟨prices, hbuild, hloop⟩ := estimation_ok env prData poHistory es n h
  rw [quotationInput_eq] at hloop
  obtain ⟨hF, hE, hQ, hR⟩ := reviewed_stable env _ _ prices _ 0 0 es n hloop
  obtain ⟨hrel, hsel⟩ := leftBy_spec env _ _ prData _ hF
  have hfix := leftBy_fixed env _ _ prData _ hF
  obtain ⟨s1, s2, s3⟩ := left_stable env _ prData _ hrel
  have hcount := left_counts env _ prData _ hrel
  generalize hRdef : (quoteLoop env 0 es).map (reviewRow env) = R at *
  generalize hLdef : leftBy env (lookupIndex env poHistory) prData R = L at *
  have hVal : (validate env L).1 = L.filter (fun r => decide (missingColumns env r = [])) := by
    rw [validate_fst]
    exact map_eq_self _ _ (fun f hf => (s2 f hf).1)
  have hC : classified env L = L.filter (fun r => decide (missingColumns env r = [])) := by
    unfold classified
    simp only
    rw [s1, hVal]
    exact map_eq_self _ _ (fun f hf => (s2 f hf).2.1)
  have hS : scored env L = L.filter (fun r => decide (missingColumns env r = [])) := by
    unfold scored
    rw [hC]
    exact map_eq_self _ _ (fun f hf => (s2 f hf).2.2.1)
  have hM : matched env L (keyedHistory env poHistory) =
      L.filter (fun r => decide (missingColumns env r = [])) := by
    unfold matched
    rw [hS, lookupIndex_keyed]
    exact map_eq_self _ _ (fun f hf => (s2 f hf).2.2.2)
  have hRfix := forall₂_right _ _ _ hF
  have hIn : quotationInput env L (keyedHistory env poHistory) = R := by
    unfold quotationInput
    simp only
    rw [selectQuotation_eq, hM, List.filter_filter, keyedHistory_keyed]
    have hf : L.filter (fun a => (truthy (a.get "PZAF여부") &&
          decide (a.get "계약분류" ≠ .str "표준단가")) &&
          decide (missingColumns env a = [])) = L.filter (selected env) := by
      apply List.filter_congr
      intro a _
      simp only [selected]
      rw [Bool.and_comm]
    rw [hf, hsel, map_eq_self _ R (fun r hr => (hRfix r hr).choose_spec.2.1)]
    exact map_eq_self _ R (fun r hr => (hRfix r hr).choose_spec.2.2)
  have hEst : estimation env L (keyedHistory env poHistory) = .ok (R, n) := by
    unfold estimation
    rw [keyedHistory_keyed, hbuild]
    simp only
    rw [lookupIndex_keyed, hIn]
    exact hE
  have hinv : (validate env (L.map (keyPR env))).2 =
      (validate env (prData.map (keyPR env))).2 := by
    rw [s1, validate_snd, validate_snd, s3]
  constructor
  · unfold processAgent
    rw [hinv]
    simp only [hn]
    unfold processValid
    simp only [hEst, h, hRdef, hQ, hR, hC, hS, s1, (hcount _).1, (hcount _).2]
    rw [validate_snd, validate_snd, s3]
  · unfold leftRows
    rw [hinv]
    simp only [hn, hEst, hQ, hR, lookupIndex_keyed]
    subst hLdef
    rw [hfix]

theorem estimation_keyed (env : Env) (prData poHistory : List Row) :
    estimation env prData (keyedHistory env poHistory) = estimation env prData poHistory := by
  unfold estimation quotationInput matched
  simp only [keyedHistory_keyed, lookupIndex_keyed]

theorem processAgent_keyed (env : Env) (prData poHistory : List Row) :
    processAgent env prData (keyedHistory env poHistory) = processAgent env prData poHistory := by
  unfold processAgent processValid
  simp only [estimation_keyed]

theorem leftRows_keyed (env : Env) (prData poHistory : List Row) :
    leftRows env prData (keyedHistory env poHistory) = leftRows env prData poHistory := by
  unfold leftRows
  simp only [estimation_keyed, lookupIndex_keyed]

/-- C21: when a run returns `res`, a second run on the PR rows as the first run left them
(annotated in place), with the same PO history (as given or as the first run left it), the
same multipliers and the same collaborator answers by position, returns the same `res`
(summary counters, records of `quotationData` with all their fields, rejected rows) and
leaves every row as the first run left it. -/
theorem rerun_same_result (env : Env) (prData poHistory : List Row) (res : Result)
    (h : processAgent env prData poHistory = .ok res) :
    ∃ left, leftRows env prData poHistory = .ok left ∧
      processAgent env left (keyedHistory env poHistory) = .ok res ∧
      processAgent env left poHistory = .ok res ∧
      leftRows env left (keyedHistory env poHistory) = .ok left ∧
      leftRows env left poHistory = .ok left := by
  obtain ⟨hv, grouped, hn⟩ := processAgent_valid env prData poHistory res h
  cases hest : estimation env prData poHistory with
  | error e =>
    unfold processValid at hv
    simp only [hest] at hv
    cases hv
  | ok x =>
    obtain ⟨es, n⟩ := x
    obtain ⟨h1, h2⟩ := rerun_core env prData poHistory es n grouped hn hest
    refine ⟨leftBy env (lookupIndex env poHistory) prData
      ((quoteLoop env 0 es).map (reviewRow env)), ?_, ?_, ?_, ?_, ?_⟩
    · unfold leftRows
      simp only [hn, hest]
    · rw [h1, h]
    · rw [← processAgent_keyed, h1, h]
    · exact h2
    · rw [← leftRows_keyed, h2]

theorem rerun_same_result_witness :
    processAgent quietEnv threeRows [boltOrder] = .ok threeRun ∧
    leftRows quietEnv threeRows [boltOrder] = .ok threeLeft ∧
    processAgent quietEnv threeLeft [boltOrder] = .ok threeRun ∧
    leftRows quietEnv threeLeft [boltOrder] = .ok threeLeft ∧
    threeRun.summary.total = 1 ∧ threeRun.invalidPR.length = 1 ∧ threeLeft.length = 3 := by
  have hrun : processAgent quietEnv threeRows [boltOrder] = .ok threeRun := by decide!
  have hleft : leftRows quietEnv threeRows [boltOrder] = .ok threeLeft := by decide!
  obtain ⟨left, h1, -, h3, -, h5⟩ := rerun_same_result quietEnv threeRows [boltOrder] threeRun hrun
  have e : left = threeLeft := by
    rw [hleft] at h1
    simp only [Except.ok.injEq] at h1
    exact h1.symm
  subst e
  exact ⟨hrun, hleft, h3, h5, by decide!, by decide!, by decide!⟩

/-- C2 (counterexample): 6 units for 13 and 27 units requested: the exact value of
`(A / Q) * R` is 58.5, which `Math.round` takes to 59, but the quotient is the double
2.1666666666666665 and the product 58.49999999999999, so the total is 58.  With 2 units
for 1 and 1 unit requested the exact value 0.5 is computed without error and the total is
1: no rule for halves gives both totals from the exact values. -/
theorem exact_total_goes_through_doubles :
    (quotationOf (processAgent quietEnv [bulkRow] [thirteenOrder])).map
        (fun r => (r.get "예정가_산정방법", r.get "입찰예정가")) =
      [(.str "자재+내역 일치", .num 58)] ∧
    (13 / 6 : ℚ) * 27 = 58 + 1 / 2 ∧ roundQ ((13 / 6 : ℚ) * 27) = 59 ∧
    dblOp mulD (divD 13 6) (some 27) = some (8233143068786687 / 140737488355328) ∧
    (quotationOf (processAgent quietEnv [unitRow] [halfOrder])).map
        (fun r => (r.get "예정가_산정방법", r.get "입찰예정가")) =
      [(.str "자재+내역 일치", .num 1)] ∧
    (1 / 2 : ℚ) * 1 = 0 + 1 / 2 := by
  refine ⟨by decide!, by norm_num, by decide!, by decide!, by decide!, by norm_num⟩

/-- C12 (counterexample): two PO rows of the key with the unit prices 1 and 2 / 3, and 9
units requested: the exact value of the mean times 9 is 7.5, which `Math.round` takes to
8, but the mean is the double 0.8333333333333333 and the product 7.499999999999999, so the
total is 7.  With the one unit price 1 / 2 and 1 unit requested the exact value 0.5 is
computed without error and the total is 1. -/
theorem mean_total_goes_through_doubles :
    (quotationOf (processAgent quietEnv [nineRow] [unitOrder, thirdsOrder])).map
        (fun r => (r.get "예정가_산정방법", r.get "입찰예정가")) =
      [(.str "그룹 평균", .num 7)] ∧
    ((1 + 2 / 3) / 2 : ℚ) * 9 = 7 + 1 / 2 ∧ roundQ (((1 + 2 / 3) / 2 : ℚ) * 9) = 8 ∧
    (quotationOf (processAgent quietEnv [unitRow] [halfNutOrder])).map
        (fun r => (r.get "예정가_산정방법", r.get "입찰예정가")) =
      [(.str "그룹 평균", .num 1)] := by
  refine ⟨by decide!, by norm_num, by decide!, by decide!⟩

/-- A rejected row whose requester names a property of `Object.prototype` makes the
notification step throw; without such a requester the rejected row is returned. -/
theorem notification_throws_on_inherited_name :
    processAgent quietEnv [namedRow] [] =
      .error "TypeError: grouped[requester].push is not a function" ∧
    (invalidOf (processAgent quietEnv [zeroLeadRow] [])).length = 1 := by
  refine ⟨by decide!, by decide!⟩

end PrPo
